import Mathlib

/-!
# surface: an SVG rendering of z = sin(r)/r served over HTTP

A shallow embedding of `main.go`: the request handler of `/surface`, `buildSurface`,
`isSomeNumberInvalid`, `maxValue`, `corner` and `f`, over a model of Go's `float64`
(IEEE 754 binary64, round to nearest, ties to even, one rounding per operation).

The functions of Go's standard library that the program calls and whose results are
not fixed by IEEE 754 (`math.Sin`, `math.Cos`, `math.Hypot`, the `%g` verb, the result
of an out-of-range `int(x)` conversion) are the fields of `GoLib`; every definition of
the program that depends on them takes the library as its first argument. `refLib` is
one such library, computable, used where a statement is evaluated on a concrete request.

Conventions of the model:
* `uint64` values are natural numbers below `2^64`, `int` is 64 bits wide;
* every `float64` operation rounds once (no fused multiply-add);
* a request is the list of name/value pairs of its parsed form;
* the package variables `width`, `height`, `xyscale`, `zscale` are the record `Globals`,
  passed to and returned by the handler;
* what is written to the response is the list of the strings written, one per call of
  `Fprintf`/`Fprintln`; a run-time panic is `none`;
* `handler` is one handler run executed as a whole; `serve` is the server, in which the
  runs of all requests share the package variables and a schedule interleaves their
  statements (`Run.step`): the assignments one by one, the opening tag, one step per cell.
-/

set_option exponentiation.threshold 5000

namespace Surface

/-! ## float64 -/

/-- A `float64` value: NaN, an infinity, or the finite value `(-1)^neg * m * 2^e`.
The canonical finite values have `2^52 ≤ m < 2^53` and `-1074 ≤ e ≤ 971` (normal) or
`m < 2^52` and `e = -1074` (subnormal and the two zeros). -/
inductive F64 where
  | nan : F64
  | inf (neg : Bool) : F64
  | fin (neg : Bool) (m : Nat) (e : Int) : F64
deriving DecidableEq, Repr

namespace F64

/-- Number of binary digits of `n`, in at most `fuel` steps that drop 64 digits or one. -/
def bitLenAux : Nat → Nat → Nat
  | 0, _ => 0
  | fuel + 1, n =>
    if n = 0 then 0
    else if 2 ^ 64 ≤ n then bitLenAux fuel (n / 2 ^ 64) + 64
    else bitLenAux fuel (n / 2) + 1

/-- Number of binary digits of `n` (`0` for `0`). -/
def bitLen (n : Nat) : Nat := bitLenAux n n

/-- The integer `k` with `2^k ≤ n / d < 2^(k+1)`, for `n, d > 0`. -/
def floorLog2 (n d : Nat) : Int :=
  let k0 : Int := (bitLen n : Int) - (bitLen d : Int)
  if d * 2 ^ k0.toNat ≤ n * 2 ^ (-k0).toNat then k0 else k0 - 1

/-- The `float64` of the rounded mantissa `q` at exponent `p`: a mantissa that reached
`2^53` moves to the next exponent, and a value past the largest finite one is an infinity. -/
def pack (neg : Bool) (q : Nat) (p : Int) : F64 :=
  if 971 < (if q = 2 ^ 53 then p + 1 else p) then inf neg
  else fin neg (if q = 2 ^ 53 then 2 ^ 52 else q) (if q = 2 ^ 53 then p + 1 else p)

/-- Rounding to `float64`: the value nearest to `(-1)^neg * (n / d) * 2^s`, ties to the
even mantissa, overflow to the infinity of that sign. -/
def round (neg : Bool) (n d : Nat) (s : Int) : F64 :=
  if n = 0 then fin neg 0 (-1074)
  else
    let p : Int := max (floorLog2 n d + s - 52) (-1074)
    let num := n * 2 ^ (s - p).toNat
    let den := d * 2 ^ (p - s).toNat
    let q := num / den
    let r := num % den
    pack neg (if den < 2 * r ∨ (2 * r = den ∧ q % 2 = 1) then q + 1 else q) p

/-- The conversion `float64(n)` of an unsigned integer. -/
def ofNat (n : Nat) : F64 := round false n 1 0

/-- The conversion `float64(i)` of a signed integer. -/
def ofInt (i : Int) : F64 := round (decide (i < 0)) i.natAbs 1 0

/-- The `float64` of the non-negative constant `n / d`. -/
def ofRatio (n d : Nat) : F64 := round false n d 0

/-- Positive zero. -/
def zero : F64 := fin false 0 (-1074)

/-- Unary minus. -/
def neg : F64 → F64
  | nan => nan
  | inf s => inf (!s)
  | fin s m e => fin (!s) m e

/-- Result of `math.Abs`. -/
def abs : F64 → F64
  | nan => nan
  | inf _ => inf false
  | fin _ m e => fin false m e

/-- The signed mantissa of a finite value. -/
def smant (s : Bool) (m : Nat) : Int := if s then -(m : Int) else (m : Int)

/-- Addition. -/
def add : F64 → F64 → F64
  | nan, _ => nan
  | _, nan => nan
  | inf s, inf t => if s = t then inf s else nan
  | inf s, fin _ _ _ => inf s
  | fin _ _ _, inf t => inf t
  | fin s m e, fin t n k =>
    let c := min e k
    let total : Int := smant s m * 2 ^ (e - c).toNat + smant t n * 2 ^ (k - c).toNat
    if total = 0 then fin (s && t) 0 (-1074)
    else round (decide (total < 0)) total.natAbs 1 c

/-- Subtraction. -/
def sub (a b : F64) : F64 := add a (neg b)

/-- Multiplication. -/
def mul : F64 → F64 → F64
  | nan, _ => nan
  | _, nan => nan
  | inf s, inf t => inf (xor s t)
  | inf s, fin t n _ => if n = 0 then nan else inf (xor s t)
  | fin s m _, inf t => if m = 0 then nan else inf (xor s t)
  | fin s m e, fin t n k => round (xor s t) (m * n) 1 (e + k)

/-- Division. -/
def div : F64 → F64 → F64
  | nan, _ => nan
  | _, nan => nan
  | inf _, inf _ => nan
  | inf s, fin t _ _ => inf (xor s t)
  | fin s _ _, inf t => fin (xor s t) 0 (-1074)
  | fin s m e, fin t n k =>
    if n = 0 then (if m = 0 then nan else inf (xor s t))
    else round (xor s t) m n (e - k)

/-- The comparison `a < b`; false when either side is NaN. -/
def lt : F64 → F64 → Bool
  | nan, _ => false
  | _, nan => false
  | inf s, inf t => s && !t
  | inf s, fin _ _ _ => s
  | fin _ _ _, inf t => !t
  | fin s m e, fin t n k =>
    let c := min e k
    decide (smant s m * 2 ^ (e - c).toNat < smant t n * 2 ^ (k - c).toNat)

/-- The comparison `a > b`. -/
def gt (a b : F64) : Bool := lt b a

/-- Result of `math.IsNaN`. -/
def IsNaN : F64 → Bool
  | nan => true
  | _ => false

/-- Result of `math.IsInf(f, sign)`: `f` is `+Inf` when `sign > 0`, `-Inf` when `sign < 0`,
either infinity when `sign = 0`. -/
def IsInf : F64 → Int → Bool
  | inf s, sign => if 0 < sign then !s else if sign < 0 then s else true
  | _, _ => false

/-- A value that is neither NaN nor an infinity. -/
def isFinite : F64 → Bool
  | fin _ _ _ => true
  | _ => false

/-- The integer part of a finite value, rounding toward zero. -/
def trunc : F64 → Int
  | fin s m e => smant s (if 0 ≤ e then m * 2 ^ e.toNat else m / 2 ^ (-e).toNat)
  | _ => 0

/-- The value is finite and its integer part fits a 64-bit `int`. -/
def fitsInt : F64 → Bool
  | fin s m e => decide (-(2 : Int) ^ 63 ≤ trunc (fin s m e) ∧ trunc (fin s m e) < (2 : Int) ^ 63)
  | _ => false

end F64


/-! ## The Go library -/

/-- The library functions the program calls whose results IEEE 754 does not fix. -/
structure GoLib where
  /-- Result of `math.Sin`. -/
  sin : F64 → F64
  /-- Result of `math.Cos`. -/
  cos : F64 → F64
  /-- Result of `math.Hypot`. -/
  hypot : F64 → F64 → F64
  /-- Text the `%g` verb writes for a `float64`. -/
  fmtG : F64 → String
  /-- Result of `int(x)` when `x` is NaN, infinite or outside the range of `int`
  (implementation-dependent in Go). -/
  intOverflow : F64 → Int

/-- The conversion `int(x)`, for a 64-bit `int`. -/
def toInt (L : GoLib) (x : F64) : Int :=
  if F64.fitsInt x then F64.trunc x else L.intOverflow x

/-- The two errors of `strconv.ParseUint`. -/
inductive NumError where
  | ErrSyntax : NumError
  | ErrRange : NumError
deriving DecidableEq, Repr

/-- The digit loop of `strconv.ParseUint(s, 10, 64)` over the bytes that are left, `n` the
value read so far (a `uint64`). -/
def parseUintLoop : List Char → Nat → Except NumError Nat
  | [], n => .ok n
  | c :: cs, n =>
    if '0' ≤ c ∧ c ≤ '9' then
      let d := c.toNat - '0'.toNat
      if (2 ^ 64 - 1) / 10 + 1 ≤ n then .error .ErrRange
      else
        let n10 := n * 10 % 2 ^ 64
        let n1 := (n10 + d) % 2 ^ 64
        if n1 < n10 ∨ 2 ^ 64 - 1 < n1 then .error .ErrRange
        else parseUintLoop cs n1
    else .error .ErrSyntax

/-- Result of `strconv.ParseUint(s, 10, 64)`. -/
def ParseUint (s : String) : Except NumError Nat :=
  if s = "" then .error .ErrSyntax else parseUintLoop s.data 0

/-- The form of a request after `r.ParseForm()`: the decoded name/value pairs in the order
`r.Form` holds them. -/
abbrev Form := List (String × String)

/-- The values `r.Form[key]`; the key is present in the map when the list is not empty. -/
def Form.values (form : Form) (key : String) : List String :=
  (form.filter (fun kv => kv.1 = key)).map (fun kv => kv.2)

/-! ## The program -/

/-- Constant `defaultWidth`. -/
def defaultWidth : Nat := 600
/-- Constant `defaultHeight`. -/
def defaultHeight : Nat := 320
/-- Constant `cells`. -/
def cells : Nat := 100
/-- Constant `xyrange`. -/
def xyrange : F64 := F64.ofRatio 30 1
/-- Constant `angle`, the `float64` of `math.Pi / 6`. -/
def angle : F64 :=
  F64.ofRatio 314159265358979323846264338327950288419716939937510582097494459 (6 * 10 ^ 62)

/-- Package variable `sin30`. -/
def sin30 (L : GoLib) : F64 := L.sin angle
/-- Package variable `cos30`. -/
def cos30 (L : GoLib) : F64 := L.cos angle

/-- The package variables the handler assigns. -/
structure Globals where
  xyscale : F64
  zscale : F64
  width : Nat
  height : Nat
deriving DecidableEq, Repr

/-- Function `f`. -/
def f (L : GoLib) (x y : F64) : F64 :=
  let r := L.hypot x y
  F64.div (L.sin r) r

/-- The domain coordinate of grid index `i`, the expression
`xyrange * (float64(i)/cells - 0.5)` of `corner`. -/
def gridCoord (i : Int) : F64 :=
  F64.mul xyrange (F64.sub (F64.div (F64.ofInt i) (F64.ofNat cells)) (F64.ofRatio 1 2))

/-- Function `corner`: the projected point `(sx, sy)` and the height `z` of grid corner
`(i, j)`. -/
def corner (L : GoLib) (g : Globals) (i j : Int) : F64 × F64 × F64 :=
  let x := gridCoord i
  let y := gridCoord j
  let z := f L x y
  let sx := F64.add (F64.div (F64.ofNat g.width) (F64.ofNat 2))
    (F64.mul (F64.mul (F64.sub x y) (cos30 L)) g.xyscale)
  let sy := F64.sub (F64.add (F64.div (F64.ofNat g.height) (F64.ofNat 2))
    (F64.mul (F64.mul (F64.add x y) (sin30 L)) g.xyscale)) (F64.mul z g.zscale)
  (sx, sy, z)

/-- Function `isSomeNumberInvalid`. -/
def isSomeNumberInvalid : List F64 → Bool
  | [] => false
  | n :: numbers =>
    if F64.IsNaN n || F64.IsInf n 1 || F64.IsInf n 0 || F64.IsInf n (-1) then true
    else isSomeNumberInvalid numbers

/-- Function `maxValue`; `none` is the run-time panic of `values[0]` on an empty list. -/
def maxValue (values : List F64) : Option F64 :=
  match values with
  | [] => none
  | v0 :: _ => some (values.foldl (fun max v => if F64.gt v max then v else max) v0)

/-- What one `<polygon>` element is written from. -/
structure Polygon where
  redValue : Int
  blueValue : Int
  ax : F64
  ay : F64
  bx : F64
  by_ : F64
  cx : F64
  cy : F64
  dx : F64
  dy : F64
deriving DecidableEq, Repr

/-- The first `Fprintf` of `buildSurface`: the opening `svg` tag. -/
def svgOpen (g : Globals) : String :=
  "<svg xmlns='http://www.w3.org/2000/svg' " ++
  "style='stroke: grey; fill: white; stroke-width: 0.7' " ++
  "width='" ++ toString g.width ++ "' hight='" ++ toString g.height ++ "'>"

/-- The `Fprintf` of the loop body: one `polygon` element. -/
def Polygon.render (L : GoLib) (p : Polygon) : String :=
  "<polygon fill='rgb(" ++ toString p.redValue ++ ", 0, " ++ toString p.blueValue ++
  ")' points='" ++ L.fmtG p.ax ++ "," ++ L.fmtG p.ay ++ " " ++ L.fmtG p.bx ++ "," ++
  L.fmtG p.by_ ++ " " ++ L.fmtG p.cx ++ "," ++ L.fmtG p.cy ++ " " ++ L.fmtG p.dx ++ "," ++
  L.fmtG p.dy ++ "' />\n"

/-- The four corner heights of cell `(i, j)`, in the order of the loop body. -/
def cornerHeights (L : GoLib) (g : Globals) (i j : Int) : List F64 :=
  [(corner L g (i + 1) j).2.2, (corner L g i j).2.2, (corner L g i (j + 1)).2.2,
    (corner L g (i + 1) (j + 1)).2.2]

/-- The fill colour `(redValue, blueValue)` the loop body derives from `maxZ`. -/
def fillColour (L : GoLib) (maxZ : F64) : Int × Int :=
  if F64.lt maxZ F64.zero then (0, toInt L (F64.mul (F64.abs maxZ) (F64.ofNat 25)))
  else if F64.gt maxZ F64.zero then (toInt L (F64.mul maxZ (F64.ofNat 25)), 0)
  else (0, 0)

/-- The body of the inner loop of `buildSurface` for cell `(i, j)`: `none` is a run-time
panic, `some none` the `continue` of a rejected cell, `some (some p)` the polygon written. -/
def cell (L : GoLib) (g : Globals) (i j : Int) : Option (Option Polygon) :=
  let a := corner L g (i + 1) j
  let b := corner L g i j
  let c := corner L g i (j + 1)
  let d := corner L g (i + 1) (j + 1)
  if isSomeNumberInvalid [a.2.2, b.2.2, c.2.2, d.2.2] then some none
  else
    match maxValue [a.2.2, b.2.2, c.2.2, d.2.2] with
    | none => none
    | some mx =>
      let maxZ := F64.mul mx g.zscale
      let colour := fillColour L maxZ
      some (some ⟨colour.1, colour.2, a.1, a.2.1, b.1, b.2.1, c.1, c.2.1, d.1, d.2.1⟩)

/-- The cells in the order the two loops visit them: `i` outer, `j` inner. -/
def gridCells : List (Nat × Nat) :=
  (List.range cells).flatMap fun i => (List.range cells).map fun j => (i, j)

/-- The loop body run over a list of cells, stopping at a panic: the polygons written. -/
def runCells (L : GoLib) (g : Globals) : List (Nat × Nat) → Option (List Polygon)
  | [] => some []
  | ij :: rest =>
    match cell L g ij.1 ij.2 with
    | none => none
    | some r =>
      match runCells L g rest with
      | none => none
      | some ps => some (r.toList ++ ps)

/-- Function `buildSurface`: the strings written to `out`, one per `Fprintf`/`Fprintln`;
`none` is a run-time panic. -/
def buildSurface (L : GoLib) (g : Globals) : Option (List String) :=
  match runCells L g gridCells with
  | none => none
  | some ps => some (svgOpen g :: ps.map (Polygon.render L) ++ ["</svg>\n"])

/-- The value the handler resolves for one size parameter of the form. -/
def resolve (form : Form) (key : String) (dflt : Nat) : Nat :=
  match form.values key with
  | [] => dflt
  | qv0 :: _ =>
    match ParseUint qv0 with
    | .ok n => n
    | .error _ => dflt

/-- The assignments of the handler to the package variables, in the order of the source. -/
def setGlobals (g : Globals) (form : Form) : Globals :=
  let g1 := { g with width := resolve form "width" defaultWidth }
  let g2 := { g1 with height := resolve form "height" defaultHeight }
  let g3 := { g2 with xyscale := F64.div (F64.div (F64.ofNat g2.width) (F64.ofNat 2)) xyrange }
  { g3 with zscale := F64.mul (F64.ofNat g3.height) (F64.ofRatio 4 10) }

/-- What the handler of `/surface` sends. -/
structure Response where
  contentType : String
  body : List String
deriving DecidableEq, Repr

/-- The handler of `/surface`, entered with the package variables `g`: the package
variables it leaves and the response, `none` when it panics. -/
def handler (L : GoLib) (g : Globals) (form : Form) : Globals × Option Response :=
  let g4 := setGlobals g form
  (g4, (buildSurface L g4).map fun body => ⟨"image/svg+xml", body⟩)


/-- The polygons the loop body writes for one cell: one, or none when the cell is rejected. -/
def cellPolygons (L : GoLib) (g : Globals) (ij : Nat × Nat) : List Polygon :=
  match cell L g ij.1 ij.2 with
  | some (some p) => [p]
  | _ => []

/-- The cell is rejected by the validity filter. -/
def rejected (L : GoLib) (g : Globals) (ij : Nat × Nat) : Bool :=
  isSomeNumberInvalid (cornerHeights L g ij.1 ij.2)

/-- The text `sub` occurs in `s`. -/
def occursIn (sub s : String) : Bool :=
  s.data.tails.any fun t => sub.data.isPrefixOf t

/-- The value `maxZ` of the loop body for cell `(i, j)`. -/
def maxZOf (L : GoLib) (g : Globals) (i j : Int) : F64 :=
  F64.mul ((cornerHeights L g i j).foldl (fun max v => if F64.gt v max then v else max)
    (corner L g (i + 1) j).2.2) g.zscale

/-! ## A reference library

One library the program can run against: `math.Sin` and `math.Cos` by their Taylor series
summed exactly and rounded once, `math.Hypot` as the correctly rounded square root of the
exact sum of squares, `%g` as the shortest decimal that reads back, and the out-of-range
`int(x)` of amd64. -/

namespace Ref

/-- Integer square root of `n`: the bits below `k` are decided from the top, `r` is the root
found so far. -/
def isqrtAux : Nat → Nat → Nat → Nat
  | 0, _, r => r
  | k + 1, n, r =>
    if (r + 2 ^ k) * (r + 2 ^ k) ≤ n then isqrtAux k n (r + 2 ^ k) else isqrtAux k n r

/-- Integer square root of `n`. -/
def isqrt (n : Nat) : Nat := isqrtAux (F64.bitLen n / 2 + 1) n 0

/-- Reference `math.Hypot`: `+Inf` when an argument is infinite, else NaN when one is NaN,
else the `float64` nearest to `sqrt(p^2 + q^2)`. -/
def hypot : F64 → F64 → F64
  | .inf _, _ => .inf false
  | _, .inf _ => .inf false
  | .nan, _ => .nan
  | _, .nan => .nan
  | .fin _ m e, .fin _ n k =>
    let c := min e k
    let a := m * 2 ^ (e - c).toNat
    let b := n * 2 ^ (k - c).toNat
    let sq := (a * a + b * b) * 4 ^ 64
    let r := isqrt sq
    F64.round false (2 * r + (if r * r = sq then 0 else 1)) 1 (c - 65)

/-- Numerator of `math.Pi` over `10^62`. -/
def piNum : Nat := 314159265358979323846264338327950288419716939937510582097494459

/-- The argument `m * 2^e` reduced to `[0, 2 * Pi)`, in units of `2^-128`. -/
def reduce (m : Nat) (e : Int) : Nat :=
  let a := m * 2 ^ e.toNat
  let b := 2 ^ (-e).toNat
  let k := (a * 10 ^ 62) / (b * 2 * piNum)
  ((a * 10 ^ 62 - k * 2 * piNum * b) * 2 ^ 128) / (b * 10 ^ 62)

/-- Horner steps of the sine (`off = 1`) or cosine (`off = 0`) series at `t`, `t2` being
`t^2` in units of `2^-256`: the fraction `h` becomes `1 - t^2 / ((2i - 1 + off) (2i + off)) * h`
for `i` from the step count down to `1`. -/
def series (t2 : Nat) (off : Nat) : Nat → Int × Nat → Int × Nat
  | 0, h => h
  | i + 1, h =>
    let c := (2 * (i + 1) - 1 + off) * (2 * (i + 1) + off)
    series t2 off i ((h.2 * 2 ^ 256 * c : Nat) - (t2 : Int) * h.1, h.2 * 2 ^ 256 * c)

/-- Reference `math.Sin`. -/
def sin : F64 → F64
  | .nan => .nan
  | .inf _ => .nan
  | .fin s m e =>
    if m = 0 then .fin s m e
    else
      let t := reduce m e
      let h := series (t * t) 1 45 (1, 1)
      F64.round (xor s (decide (h.1 < 0))) (t * h.1.natAbs) (2 ^ 128 * h.2) 0

/-- Reference `math.Cos`. -/
def cos : F64 → F64
  | .nan => .nan
  | .inf _ => .nan
  | .fin _ m e =>
    let t := reduce m e
    let h := series (t * t) 0 45 (1, 1)
    F64.round (decide (h.1 < 0)) h.1.natAbs h.2 0

/-- The integer `k` with `10^k ≤ a / b < 10^(k+1)`, for `a, b > 0`. -/
def floorLog10 (a b : Nat) : Int :=
  let le (k : Int) : Bool := decide (10 ^ k.toNat * b ≤ a * 10 ^ (-k).toNat)
  let k0 : Int := F64.floorLog2 a b * 30103 / 100000 - 2
  let k1 := if le (k0 + 1) then k0 + 1 else k0
  let k2 := if le (k1 + 1) then k1 + 1 else k1
  let k3 := if le (k2 + 1) then k2 + 1 else k2
  if le (k3 + 1) then k3 + 1 else k3

/-- The integer nearest to `(a / b) / 10^s`, ties to even. -/
def digitsAt (a b : Nat) (s : Int) : Nat :=
  let num := a * 10 ^ (-s).toNat
  let den := b * 10 ^ s.toNat
  let q := num / den
  let r := num % den
  if den < 2 * r ∨ (2 * r = den ∧ q % 2 = 1) then q + 1 else q

/-- The shortest decimal `d * 10^s` that rounds to `m * 2^e`, trying `nd, nd + 1, ...`
digits, at most 17. -/
def shortest (m : Nat) (e : Int) (k : Int) : Nat → Nat → Nat × Int
  | 0, nd => (digitsAt (m * 2 ^ e.toNat) (2 ^ (-e).toNat) (k - nd + 1), k - nd + 1)
  | fuel + 1, nd =>
    let s : Int := k - nd + 1
    let d := digitsAt (m * 2 ^ e.toNat) (2 ^ (-e).toNat) s
    if F64.round false (d * 10 ^ s.toNat) (10 ^ (-s).toNat) 0 = F64.round false m 1 e then (d, s)
    else shortest m e k fuel (nd + 1)

/-- The `%e` layout of the digits `ds` with decimal point after `dp` digits. -/
def fmtE (ds : List Char) (dp : Int) : String :=
  let ex := dp - 1
  let mant := match ds with
    | [] => "0"
    | [d] => String.mk [d]
    | d :: rest => String.mk (d :: '.' :: rest)
  let digits := toString ex.natAbs
  mant ++ "e" ++ (if ex < 0 then "-" else "+") ++ (if ex.natAbs < 10 then "0" else "") ++ digits

/-- The `%f` layout of the digits `ds` with decimal point after `dp` digits, with
`max (nd - dp) 0` digits after the point. -/
def fmtF (ds : List Char) (dp : Int) : String :=
  let intPart := if 0 < dp then ds.take dp.toNat ++ List.replicate (dp.toNat - ds.length) '0'
    else ['0']
  let frac := List.replicate (-dp).toNat '0' ++ ds.drop dp.toNat
  String.mk (if frac = [] then intPart else intPart ++ '.' :: frac)

/-- Reference `%g` of a `float64`. -/
def fmtG : F64 → String
  | .nan => "NaN"
  | .inf s => if s then "-Inf" else "+Inf"
  | .fin s m e =>
    let sign := if s then "-" else ""
    if m = 0 then sign ++ "0"
    else
      let k := floorLog10 (m * 2 ^ e.toNat) (2 ^ (-e).toNat)
      let ds := shortest m e k 16 1
      let all := (toString ds.1).data
      let dp : Int := all.length + ds.2
      let digits := (all.reverse.dropWhile (fun c => c = '0')).reverse
      if dp - 1 < -4 ∨ 6 ≤ dp - 1 then sign ++ fmtE digits dp else sign ++ fmtF digits dp

/-- Reference result of an out-of-range `int(x)`: the smallest `int`, as on amd64. -/
def intOverflow (_ : F64) : Int := -(2 : Int) ^ 63

end Ref

/-- The reference library. -/
def refLib : GoLib :=
  { sin := Ref.sin, cos := Ref.cos, hypot := Ref.hypot, fmtG := Ref.fmtG,
    intOverflow := Ref.intOverflow }

/-- The value is `+Inf` or finite with the sign bit clear. -/
def F64.signClear : F64 → Prop
  | .inf s => s = false
  | .fin s _ _ => s = false
  | .nan => False


/-- The package variables when the program starts: Go's zero values. -/
def Globals.init : Globals := ⟨F64.zero, F64.zero, 0, 0⟩

/-- The number the decimal digits `cs` denote when read after the digits of `acc`. -/
def decimalValue (cs : List Char) (acc : Nat) : Nat :=
  cs.foldl (fun a c => 10 * a + (c.toNat - '0'.toNat)) acc

/-- The text `s` is a base-10 unsigned 64-bit integer of value `n`: it is not empty, every
character is a digit `0`..`9`, and the number it denotes is `n < 2^64`. -/
def IsUint64Text (s : String) (n : Nat) : Prop :=
  s ≠ "" ∧ (∀ c ∈ s.data, '0' ≤ c ∧ c ≤ '9') ∧ decimalValue s.data 0 = n ∧ n < 2 ^ 64

/-- The rational number a finite `float64` denotes; `0` for NaN and the infinities. -/
def F64.toRat : F64 → ℚ
  | .fin s m e => (F64.smant s m : ℚ) * 2 ^ e
  | _ => 0

/-- Cell `a` is visited before cell `b`: the order of the two loops, `i` outer, `j` inner. -/
def cellBefore (a b : Nat × Nat) : Prop := a.1 < b.1 ∨ (a.1 = b.1 ∧ a.2 < b.2)

/-- The polygon the loop body writes for a cell that is not rejected. -/
def polygonOf (L : GoLib) (g : Globals) (ij : Nat × Nat) : Polygon :=
  ⟨(fillColour L (maxZOf L g ij.1 ij.2)).1, (fillColour L (maxZOf L g ij.1 ij.2)).2,
    (corner L g (ij.1 + 1) ij.2).1, (corner L g (ij.1 + 1) ij.2).2.1,
    (corner L g ij.1 ij.2).1, (corner L g ij.1 ij.2).2.1,
    (corner L g ij.1 (ij.2 + 1)).1, (corner L g ij.1 (ij.2 + 1)).2.1,
    (corner L g (ij.1 + 1) (ij.2 + 1)).1, (corner L g (ij.1 + 1) (ij.2 + 1)).2.1⟩

/-- The comparison `a == b`; false when either side is NaN, true for `+0` and `-0`. -/
def F64.eq : F64 → F64 → Bool
  | .nan, _ => false
  | _, .nan => false
  | .inf s, .inf t => s == t
  | .inf _, .fin _ _ _ => false
  | .fin _ _ _, .inf _ => false
  | .fin s m e, .fin t n k =>
    let c := min e k
    decide (F64.smant s m * 2 ^ (e - c).toNat = F64.smant t n * 2 ^ (k - c).toNat)

/-- The comparison `a >= b`. -/
def F64.ge (a b : F64) : Bool := F64.gt a b || F64.eq a b

/-- The place of a value in the order of the extended rationals: `-Inf` at the bottom,
`+Inf` at the top, a finite value at the rational it denotes (NaN is put at the bottom). -/
def F64.rank : F64 → WithBot (WithTop ℚ)
  | .nan => ⊥
  | .inf true => ⊥
  | .inf false => ((⊤ : WithTop ℚ) : WithBot (WithTop ℚ))
  | .fin s m e => ((F64.toRat (.fin s m e) : WithTop ℚ) : WithBot (WithTop ℚ))

/-- The float `x` is finite and is the exact value `v` rounded once: it differs from `v` by
at most `|v| / 2^53 + 2^-1075`, and is a zero when `v` is `0`. -/
def F64.Near (x : F64) (v : ℚ) : Prop :=
  x.isFinite = true ∧ |x.toRat - v| ≤ |v| / 2 ^ 53 + 2 ^ (-1075 : Int) ∧ (v = 0 → x.toRat = 0)

/-- A second library, coarse but with properties that are proved for every argument: `Sin`
is its argument clamped to `[-1, 1]`, `Cos` is `1`, `Hypot` is the larger of `|p|` and
`|q|`; NaN and the infinities are treated as `math` documents. -/
def crudeLib : GoLib :=
  { sin := fun x =>
      match x with
      | .fin s m e =>
        if F64.lt (F64.abs (.fin s m e)) (F64.ofNat 1) then .fin s m e
        else .fin s 4503599627370496 (-52)
      | _ => .nan
    cos := fun x =>
      match x with
      | .fin _ _ _ => F64.ofNat 1
      | _ => .nan
    hypot := fun p q =>
      match p, q with
      | .inf _, _ => .inf false
      | _, .inf _ => .inf false
      | .nan, _ => .nan
      | _, .nan => .nan
      | .fin s m e, .fin t n k =>
        if F64.lt (F64.abs (.fin s m e)) (F64.abs (.fin t n k)) then F64.abs (.fin t n k)
        else F64.abs (.fin s m e)
    fmtG := Ref.fmtG
    intOverflow := Ref.intOverflow }

/-- The reference library with `Cos` returning `7800463371553963 * 2^-53`, the `float64` next
above the correctly rounded cosine of `angle`: the other value a `math.Cos` accurate to one
unit in the last place may return for `cos30`. -/
def refLibCosUp : GoLib :=
  { refLib with cos := fun _ => .fin false 7800463371553963 (-53) }

/-- Where a handler run stands: before the assignment to `width` (main.go:31-39), to
`height` (41-49), to `xyscale` (51), to `zscale` (52), before the `Fprintf` of the opening
tag in `buildSurface` (60-62), inside the loops with the cells still to visit (64-87, the
closing tag follows the last cell), or returned. -/
inductive Pc where
  | atWidth
  | atHeight
  | atXyscale
  | atZscale
  | atOpen
  | atCell (todo : List (Nat × Nat))
  | returned
deriving DecidableEq, Repr

/-- One request being served: its form, where its handler run stands, the strings written
to its response so far, and whether the run panicked. -/
structure Run where
  form : Form
  pc : Pc
  out : List String
  panicked : Bool
deriving DecidableEq, Repr

/-- A request that has just entered the handler. -/
def Run.enter (form : Form) : Run := ⟨form, .atWidth, [], false⟩

/-- The next statement of a handler run, executed on the package variables `g`, which the
run shares with every other run: each assignment writes one package variable (`xyscale` and
`zscale` from the `width` and `height` that are there at that moment), and the opening tag
and each cell read the package variables as they are when that statement runs. -/
def Run.step (L : GoLib) (g : Globals) (r : Run) : Globals × Run :=
  match r.pc with
  | .atWidth =>
    ({ g with width := resolve r.form "width" defaultWidth }, { r with pc := .atHeight })
  | .atHeight =>
    ({ g with height := resolve r.form "height" defaultHeight }, { r with pc := .atXyscale })
  | .atXyscale =>
    ({ g with xyscale := F64.div (F64.div (F64.ofNat g.width) (F64.ofNat 2)) xyrange },
      { r with pc := .atZscale })
  | .atZscale =>
    ({ g with zscale := F64.mul (F64.ofNat g.height) (F64.ofRatio 4 10) },
      { r with pc := .atOpen })
  | .atOpen => (g, { r with pc := .atCell gridCells, out := r.out ++ [svgOpen g] })
  | .atCell [] => (g, { r with pc := .returned, out := r.out ++ ["</svg>\n"] })
  | .atCell (ij :: rest) =>
    match cell L g ij.1 ij.2 with
    | none => (g, { r with pc := .returned, panicked := true })
    | some p =>
      (g, { r with pc := .atCell rest, out := r.out ++ p.toList.map (Polygon.render L) })
  | .returned => (g, r)

/-- What the client of a run has received once the run has returned: `some none` after a
panic, `none` while the run is not finished. -/
def Run.response (r : Run) : Option (Option Response) :=
  match r.pc with
  | .returned => some (if r.panicked then none else some ⟨"image/svg+xml", r.out⟩)
  | _ => none

/-- The number of statements of one handler run: four assignments, the opening tag, the
`cells * cells` cells and the closing tag. -/
def runLength : Nat := 4 + 1 + cells * cells + 1

/-- `n` statements of one run in a row. -/
def stepN (L : GoLib) : Nat → Globals × Run → Globals × Run
  | 0, s => s
  | n + 1, s => stepN L n (Run.step L s.1 s.2)

/-- The server. `net/http` runs the handler of every request in a goroutine of its own, and
all runs work on the same package variables; the schedule names, statement by statement, the
run that goes next (an index without a run is passed over). -/
def serve (L : GoLib) : List Nat → Globals × List Run → Globals × List Run
  | [], s => s
  | k :: ks, s =>
    match s.2[k]? with
    | none => serve L ks s
    | some r => serve L ks ((Run.step L s.1 r).1, s.2.set k (Run.step L s.1 r).2)

/-! ## Lemmas on the embedding -/

theorem invalid_iff_not_finite (n : F64) :
    (F64.IsNaN n || F64.IsInf n 1 || F64.IsInf n 0 || F64.IsInf n (-1)) = !n.isFinite := by
  cases n with
  | nan => rfl
  | inf s => cases s <;> rfl
  | fin s m e => rfl

theorem isSomeNumberInvalid_eq_any (numbers : List F64) :
    isSomeNumberInvalid numbers = numbers.any fun n => !n.isFinite := by
  induction numbers with
  | nil => rfl
  | cons n rest ih =>
    simp only [isSomeNumberInvalid, invalid_iff_not_finite, List.any_cons, ih]
    cases n.isFinite <;> simp

theorem maxValue_four (a b c d : F64) :
    maxValue [a, b, c, d] =
      some ([a, b, c, d].foldl (fun max v => if F64.gt v max then v else max) a) := rfl

theorem cell_eq (L : GoLib) (g : Globals) (i j : Int) :
    cell L g i j =
      if isSomeNumberInvalid (cornerHeights L g i j) then some none
      else some (some ⟨(fillColour L (maxZOf L g i j)).1, (fillColour L (maxZOf L g i j)).2,
        (corner L g (i + 1) j).1, (corner L g (i + 1) j).2.1,
        (corner L g i j).1, (corner L g i j).2.1,
        (corner L g i (j + 1)).1, (corner L g i (j + 1)).2.1,
        (corner L g (i + 1) (j + 1)).1, (corner L g (i + 1) (j + 1)).2.1⟩) := by
  simp only [cell, maxValue_four, cornerHeights, maxZOf]

theorem cell_ne_none (L : GoLib) (g : Globals) (i j : Int) : cell L g i j ≠ none := by
  rw [cell_eq]; split <;> simp

theorem runCells_eq (L : GoLib) (g : Globals) (cs : List (Nat × Nat)) :
    runCells L g cs = some (cs.flatMap (cellPolygons L g)) := by
  induction cs with
  | nil => rfl
  | cons ij rest ih =>
    have h := cell_ne_none L g ij.1 ij.2
    simp only [runCells, ih, List.flatMap_cons, cellPolygons]
    cases hc : cell L g ij.1 ij.2 with
    | none => exact absurd hc h
    | some r => cases r <;> simp

theorem buildSurface_eq (L : GoLib) (g : Globals) :
    buildSurface L g =
      some (svgOpen g :: (gridCells.flatMap (cellPolygons L g)).map (Polygon.render L) ++
        ["</svg>\n"]) := by
  simp only [buildSurface, runCells_eq]

theorem cellPolygons_length (L : GoLib) (g : Globals) (ij : Nat × Nat) :
    (cellPolygons L g ij).length = if rejected L g ij then 0 else 1 := by
  by_cases h : isSomeNumberInvalid (cornerHeights L g ij.1 ij.2) = true <;>
    simp [cellPolygons, rejected, cell_eq, h]

theorem mem_gridCells (i j : Nat) : (i, j) ∈ gridCells ↔ i < cells ∧ j < cells := by
  simp [gridCells]

theorem gridCells_length : gridCells.length = cells * cells := by
  simp [gridCells, List.length_flatMap, Function.comp_def, List.map_const', cells]

theorem F64.pack_sign (neg : Bool) (q : Nat) (p : Int) :
    F64.pack neg q p = .inf neg ∨ ∃ m e, F64.pack neg q p = .fin neg m e := by
  unfold F64.pack
  by_cases h : 971 < (if q = 2 ^ 53 then p + 1 else p)
  · exact Or.inl (if_pos h)
  · exact Or.inr ⟨_, _, if_neg h⟩

theorem F64.round_sign (neg : Bool) (n d : Nat) (s : Int) :
    F64.round neg n d s = .inf neg ∨ ∃ m e, F64.round neg n d s = .fin neg m e := by
  unfold F64.round
  split
  · exact Or.inr ⟨_, _, rfl⟩
  · exact F64.pack_sign _ _ _

theorem F64.ofNat_25 : F64.ofNat 25 = .fin false 7036874417766400 (-48) := by decide!
theorem F64.ofNat_1 : F64.ofNat 1 = .fin false 4503599627370496 (-52) := by decide!

theorem F64.signClear_of_gt_zero (a : F64) (h : F64.gt a F64.zero = true) : a.signClear := by
  cases a with
  | nan => simp [F64.gt, F64.lt, F64.zero] at h
  | inf s => cases s <;> simp_all [F64.gt, F64.lt, F64.zero, F64.signClear]
  | fin s m e =>
    cases s
    · rfl
    · simp only [F64.gt, F64.lt, F64.zero, F64.smant, decide_eq_true_eq] at h
      simp only [F64.signClear]
      exfalso
      have : (0 : Int) ≤ (m : Int) * 2 ^ (e - min (-1074) e).toNat := by positivity
      simp at h
      omega

theorem F64.signClear_abs_of_lt_zero (a : F64) (h : F64.lt a F64.zero = true) :
    (F64.abs a).signClear := by
  cases a with
  | nan => simp [F64.lt, F64.zero] at h
  | inf s => rfl
  | fin s m e => rfl

theorem F64.mul_25_signClear (a : F64) (h : a.signClear) :
    F64.mul a (F64.ofNat 25) = .inf false ∨ ∃ m e, F64.mul a (F64.ofNat 25) = .fin false m e := by
  rw [F64.ofNat_25]
  cases a with
  | nan => exact absurd h (by simp [F64.signClear])
  | inf s =>
    simp only [F64.signClear] at h
    subst h
    left; rfl
  | fin s m e =>
    simp only [F64.signClear] at h
    subst h
    exact F64.round_sign _ _ _ _

theorem F64.trunc_fin_nonneg (m : Nat) (e : Int) : 0 ≤ F64.trunc (.fin false m e) := by
  simp only [F64.trunc, F64.smant]
  exact Int.natCast_nonneg _

theorem F64.trunc_pos_iff (m : Nat) (e : Int) :
    0 < F64.trunc (.fin false m e) ↔ F64.lt (.fin false m e) (F64.ofNat 1) = false := by
  rw [F64.ofNat_1]
  simp only [F64.trunc, F64.smant, F64.lt, Bool.false_eq_true, if_false, decide_eq_false_iff_not,
    not_lt]
  rcases le_or_lt 0 e with he | he
  · obtain ⟨a, rfl⟩ := Int.eq_ofNat_of_zero_le he
    have hc : min (a : Int) (-52) = -52 := by omega
    have h1 : ((a : Int) - -52).toNat = a + 52 := by omega
    simp only [hc, h1, he, if_true, Int.toNat_ofNat, sub_self, Int.toNat_zero, pow_zero, mul_one]
    norm_cast
    rw [pow_add, ← mul_assoc]
    constructor
    · intro h; exact Nat.le_mul_of_pos_left _ h
    · intro h
      by_contra h0
      simp only [not_lt, Nat.le_zero] at h0
      rw [h0] at h
      simp at h
  · obtain ⟨a, rfl⟩ : ∃ a : Nat, e = -(a : Int) := ⟨(-e).toNat, by omega⟩
    have hne : ¬ (0 : Int) ≤ -(a : Int) := by omega
    have h0 : (- -(a : Int)).toNat = a := by omega
    simp only [hne, if_false, h0]
    have hdiv : (0 : Int) < ((m / 2 ^ a : Nat) : Int) ↔ 2 ^ a ≤ m := by
      rw [Int.natCast_pos, Nat.div_pos_iff]
      simp
    rw [hdiv]
    rcases le_or_lt a 52 with ha | ha
    · have hc : min (-(a : Int)) (-52) = -52 := by omega
      have h1 : (-(a : Int) - -52).toNat = 52 - a := by omega
      simp only [hc, h1, sub_self, Int.toNat_zero, pow_zero, mul_one]
      norm_cast
      have h52 : 4503599627370496 = 2 ^ a * 2 ^ (52 - a) := by
        rw [← pow_add, show a + (52 - a) = 52 by omega]; norm_num
      rw [h52]
      constructor
      · intro h; exact Nat.mul_le_mul_right _ h
      · intro h; exact Nat.le_of_mul_le_mul_right h (by positivity)
    · have hc : min (-(a : Int)) (-52) = -(a : Int) := by omega
      have h1 : (-52 - -(a : Int)).toNat = a - 52 := by omega
      simp only [hc, h1, sub_self, Int.toNat_zero, pow_zero, mul_one]
      norm_cast
      have h52 : 4503599627370496 * 2 ^ (a - 52) = 2 ^ a := by
        rw [show (4503599627370496 : Nat) = 2 ^ 52 by norm_num, ← pow_add,
          show 52 + (a - 52) = a by omega]
      rw [h52]

theorem F64.lt_zero_of_gt_zero (a : F64) (h : F64.gt a F64.zero = true) :
    F64.lt a F64.zero = false := by
  have hs := F64.signClear_of_gt_zero a h
  cases a with
  | nan => rfl
  | inf s => simp only [F64.signClear] at hs; subst hs; rfl
  | fin s m e =>
    simp only [F64.signClear] at hs; subst hs
    simp only [F64.lt, F64.zero, F64.smant, Bool.false_eq_true, if_false, decide_eq_false_iff_not,
      not_lt, Int.Nat.cast_ofNat_Int, zero_mul]
    positivity

theorem toInt_of_signClear (L : GoLib) (x : F64)
    (hx : x = .inf false ∨ ∃ m e, x = .fin false m e) (hfit : F64.fitsInt x = true) :
    0 ≤ toInt L x ∧ (0 < toInt L x ↔ F64.lt x (F64.ofNat 1) = false) := by
  rcases hx with rfl | ⟨m, e, rfl⟩
  · simp [F64.fitsInt] at hfit
  · simp only [toInt, hfit, if_true]
    exact ⟨F64.trunc_fin_nonneg m e, F64.trunc_pos_iff m e⟩

theorem cell_colour (L : GoLib) (g : Globals) (i j : Int) (p : Polygon)
    (h : cell L g i j = some (some p)) :
    p.redValue = (fillColour L (maxZOf L g i j)).1 ∧
    p.blueValue = (fillColour L (maxZOf L g i j)).2 := by
  rw [cell_eq] at h
  split at h
  · simp at h
  · simp only [Option.some.injEq] at h
    subst h
    exact ⟨rfl, rfl⟩

theorem decimalValue_ge (cs : List Char) (acc : Nat) : acc ≤ decimalValue cs acc := by
  induction cs generalizing acc with
  | nil => exact le_refl _
  | cons c cs ih =>
    have h := ih (10 * acc + (c.toNat - '0'.toNat))
    simp only [decimalValue, List.foldl_cons] at h ⊢
    omega

theorem decimalValue_cons (c : Char) (cs : List Char) (acc : Nat) :
    decimalValue (c :: cs) acc = decimalValue cs (10 * acc + (c.toNat - '0'.toNat)) := rfl

theorem digit_le_nine (c : Char) (h : c ≤ '9') : c.toNat - '0'.toNat ≤ 9 := by
  have h1 : c.toNat ≤ '9'.toNat := h
  have h2 : '9'.toNat = 57 := rfl
  have h3 : '0'.toNat = 48 := rfl
  omega

theorem parseUintLoop_ok_iff (cs : List Char) (n r : Nat) (hn : n < 2 ^ 64) :
    parseUintLoop cs n = .ok r ↔
      (∀ c ∈ cs, '0' ≤ c ∧ c ≤ '9') ∧ decimalValue cs n = r ∧ r < 2 ^ 64 := by
  induction cs generalizing n with
  | nil =>
    simp only [parseUintLoop, Except.ok.injEq, List.not_mem_nil, false_implies, implies_true,
      true_and, decimalValue, List.foldl_nil]
    constructor
    · rintro rfl; exact ⟨rfl, hn⟩
    · rintro ⟨rfl, _⟩; rfl
  | cons c cs ih =>
    have hge := decimalValue_ge cs (10 * n + (c.toNat - '0'.toNat))
    simp only [parseUintLoop, List.mem_cons, forall_eq_or_imp, decimalValue_cons]
    by_cases hd : '0' ≤ c ∧ c ≤ '9'
    · have hd9 := digit_le_nine c hd.2
      simp only [hd, and_self, if_true, true_and]
      by_cases hcut : (2 ^ 64 - 1) / 10 + 1 ≤ n
      · simp only [hcut, if_true]
        constructor
        · intro h; exact absurd h (by simp)
        · rintro ⟨_, h1, h2⟩; omega
      · simp only [hcut, if_false]
        have h10 : n * 10 % 2 ^ 64 = n * 10 := Nat.mod_eq_of_lt (by omega)
        rw [h10]
        by_cases hov : 2 ^ 64 ≤ n * 10 + (c.toNat - '0'.toNat)
        · have hwrap : (n * 10 + (c.toNat - '0'.toNat)) % 2 ^ 64 < n * 10 := by omega
          simp only [hwrap, true_or, if_true]
          constructor
          · intro h; exact absurd h (by simp)
          · rintro ⟨_, h1, h2⟩; omega
        · have hmod : (n * 10 + (c.toNat - '0'.toNat)) % 2 ^ 64
              = n * 10 + (c.toNat - '0'.toNat) := Nat.mod_eq_of_lt (by omega)
          have hno : ¬ (n * 10 + (c.toNat - '0'.toNat) < n * 10 ∨
              2 ^ 64 - 1 < n * 10 + (c.toNat - '0'.toNat)) := by omega
          simp only [hmod, hno, if_false]
          rw [ih _ (by omega), Nat.mul_comm n 10]
    · simp only [hd, if_false, false_and]
      constructor
      · intro h; exact absurd h (by simp)
      · intro h; exact h.elim

theorem ParseUint_ok_iff (s : String) (n : Nat) : ParseUint s = .ok n ↔ IsUint64Text s n := by
  unfold ParseUint IsUint64Text
  by_cases hs : s = ""
  · simp [hs]
  · simp only [hs, if_false, ne_eq, not_false_eq_true, true_and]
    exact parseUintLoop_ok_iff s.data 0 n (by norm_num)

theorem resolve_absent (form : Form) (key : String) (dflt : Nat)
    (h : form.values key = []) : resolve form key dflt = dflt := by
  simp only [resolve, h]

theorem resolve_parsed (form : Form) (key : String) (dflt : Nat) (v : String)
    (rest : List String) (n : Nat) (h : form.values key = v :: rest)
    (hv : IsUint64Text v n) : resolve form key dflt = n := by
  simp only [resolve, h, (ParseUint_ok_iff v n).2 hv]

theorem resolve_malformed (form : Form) (key : String) (dflt : Nat) (v : String)
    (rest : List String) (h : form.values key = v :: rest)
    (hv : ¬ ∃ n, IsUint64Text v n) : resolve form key dflt = dflt := by
  simp only [resolve, h]
  cases hp : ParseUint v with
  | error e => rfl
  | ok n => exact absurd ⟨n, (ParseUint_ok_iff v n).1 hp⟩ hv

theorem resolve_head (form form' : Form) (key : String) (dflt : Nat)
    (h : (form'.values key).head? = (form.values key).head?) :
    resolve form' key dflt = resolve form key dflt := by
  unfold resolve
  cases h1 : form.values key <;> cases h2 : form'.values key <;> simp_all

theorem setGlobals_width (g : Globals) (form : Form) :
    (setGlobals g form).width = resolve form "width" defaultWidth := rfl

theorem setGlobals_height (g : Globals) (form : Form) :
    (setGlobals g form).height = resolve form "height" defaultHeight := rfl


theorem handler_width (L : GoLib) (g : Globals) (form : Form) :
    (handler L g form).1.width = resolve form "width" defaultWidth := rfl

theorem handler_height (L : GoLib) (g : Globals) (form : Form) :
    (handler L g form).1.height = resolve form "height" defaultHeight := rfl

theorem resolve_cases (form : Form) (key : String) (dflt : Nat) :
    (form.values key = [] ∧ resolve form key dflt = dflt) ∨
    (∃ v rest n, form.values key = v :: rest ∧ IsUint64Text v n ∧ resolve form key dflt = n) ∨
    (∃ v rest, form.values key = v :: rest ∧ (¬ ∃ n, IsUint64Text v n) ∧
      resolve form key dflt = dflt) := by
  cases h : form.values key with
  | nil => exact Or.inl ⟨rfl, resolve_absent form key dflt h⟩
  | cons v rest =>
    by_cases hv : ∃ n, IsUint64Text v n
    · obtain ⟨n, hn⟩ := hv
      exact Or.inr (Or.inl ⟨v, rest, n, rfl, hn, resolve_parsed form key dflt v rest n h hn⟩)
    · exact Or.inr (Or.inr ⟨v, rest, rfl, hv, resolve_malformed form key dflt v rest h hv⟩)

theorem resolve_lt (form : Form) (key : String) (dflt : Nat) (hd : dflt < 2 ^ 64) :
    resolve form key dflt < 2 ^ 64 := by
  rcases resolve_cases form key dflt with ⟨_, h⟩ | ⟨v, rest, n, _, hn, h⟩ | ⟨v, rest, _, _, h⟩
  · rw [h]; exact hd
  · rw [h]; exact hn.2.2.2
  · rw [h]; exact hd

theorem resolve_eq_zero_iff (form : Form) (key : String) (dflt : Nat) (hd : dflt ≠ 0) :
    resolve form key dflt = 0 ↔ ∃ v rest, form.values key = v :: rest ∧ IsUint64Text v 0 := by
  constructor
  · intro h0
    rcases resolve_cases form key dflt with ⟨_, h⟩ | ⟨v, rest, n, hv, hn, h⟩ | ⟨v, rest, _, _, h⟩
    · exact absurd (h.symm.trans h0) hd
    · have : n = 0 := h.symm.trans h0
      subst this
      exact ⟨v, rest, hv, hn⟩
    · exact absurd (h.symm.trans h0) hd
  · rintro ⟨v, rest, hv, h0⟩
    exact resolve_parsed form key dflt v rest 0 hv h0

theorem setGlobals_eq (g : Globals) (form : Form) :
    setGlobals g form =
      ⟨F64.div (F64.div (F64.ofNat (resolve form "width" defaultWidth)) (F64.ofNat 2)) xyrange,
        F64.mul (F64.ofNat (resolve form "height" defaultHeight)) (F64.ofRatio 4 10),
        resolve form "width" defaultWidth, resolve form "height" defaultHeight⟩ := rfl

theorem polygons_add_rejected (L : GoLib) (g : Globals) (cs : List (Nat × Nat)) :
    (cs.flatMap (cellPolygons L g)).length + (cs.filter (rejected L g)).length = cs.length := by
  induction cs with
  | nil => rfl
  | cons ij rest ih =>
    rw [List.flatMap_cons, List.length_append, cellPolygons_length, List.filter_cons,
      List.length_cons]
    cases rejected L g ij <;>
      simp only [Bool.false_eq_true, if_false, if_true, List.length_cons] <;> omega

theorem gridCells_nodup : gridCells.Nodup :=
  List.Nodup.product (List.nodup_range cells) (List.nodup_range cells)

theorem gridCoord_50 : gridCoord 50 = F64.zero := by decide!

theorem corner_height (L : GoLib) (g : Globals) (i j : Int) :
    (corner L g i j).2.2 = f L (gridCoord i) (gridCoord j) := rfl

theorem rejected_of_nan_corner (L : GoLib) (g : Globals) (i j : Int)
    (h : F64.nan ∈ cornerHeights L g i j) : cell L g i j = some none := by
  rw [cell_eq, isSomeNumberInvalid_eq_any]
  have hany : ((cornerHeights L g i j).any fun n => !n.isFinite) = true :=
    List.any_eq_true.2 ⟨F64.nan, h, rfl⟩
  rw [hany]
  rfl

theorem handler_xyscale (L : GoLib) (g : Globals) (form : Form) :
    (handler L g form).1.xyscale =
      F64.div (F64.div (F64.ofNat (resolve form "width" defaultWidth)) (F64.ofNat 2)) xyrange :=
  rfl

theorem handler_zscale (L : GoLib) (g : Globals) (form : Form) :
    (handler L g form).1.zscale =
      F64.mul (F64.ofNat (resolve form "height" defaultHeight)) (F64.ofRatio 4 10) := rfl

theorem F64.toRat_fin (s : Bool) (m : Nat) (e : Int) :
    F64.toRat (.fin s m e) = (F64.smant s m : ℚ) * 2 ^ e := rfl

theorem F64.scaled_eq (x : Int) (e c : Int) (h : c ≤ e) :
    ((x * 2 ^ (e - c).toNat : Int) : ℚ) = (x : ℚ) * 2 ^ e * (2 ^ c)⁻¹ := by
  have h2 : (2 : ℚ) ≠ 0 := by norm_num
  have he : ((e - c).toNat : Int) = e - c := Int.toNat_of_nonneg (by omega)
  push_cast
  rw [mul_assoc, ← zpow_natCast, he, zpow_sub₀ h2]
  rfl

theorem F64.lt_fin_iff (s : Bool) (m : Nat) (e : Int) (t : Bool) (n : Nat) (k : Int) :
    F64.lt (.fin s m e) (.fin t n k) = true ↔
      F64.toRat (.fin s m e) < F64.toRat (.fin t n k) := by
  simp only [F64.lt, decide_eq_true_eq, F64.toRat_fin]
  have hpos : (0 : ℚ) < (2 ^ (min e k))⁻¹ := by positivity
  rw [← Int.cast_lt (R := ℚ), F64.scaled_eq _ e _ (min_le_left e k),
    F64.scaled_eq _ k _ (min_le_right e k)]
  exact mul_lt_mul_right hpos

theorem F64.floor_mag (m : Nat) (e : Int) :
    ⌊(m : ℚ) * 2 ^ e⌋ = ((if 0 ≤ e then m * 2 ^ e.toNat else m / 2 ^ (-e).toNat : Nat) : Int) := by
  rcases le_or_lt 0 e with he | he
  · obtain ⟨a, rfl⟩ := Int.eq_ofNat_of_zero_le he
    simp only [he, if_true, Int.toNat_ofNat, zpow_natCast]
    have : (m : ℚ) * 2 ^ a = ((m * 2 ^ a : Nat) : ℚ) := by push_cast; rfl
    rw [this]
    exact Int.floor_natCast _
  · obtain ⟨a, rfl⟩ : ∃ a : Nat, e = -(a : Int) := ⟨(-e).toNat, by omega⟩
    have hne : ¬ (0 : Int) ≤ -(a : Int) := by omega
    simp only [hne, if_false, neg_neg, Int.toNat_ofNat, zpow_neg, zpow_natCast]
    have : (m : ℚ) * (2 ^ a)⁻¹ = ((m : Int) : ℚ) / ((2 ^ a : Nat) : ℚ) := by
      push_cast; rw [div_eq_mul_inv]
    rw [this, Rat.floor_intCast_div_natCast]
    norm_cast

theorem F64.trunc_eq (s : Bool) (m : Nat) (e : Int) :
    F64.trunc (.fin s m e) =
      if F64.toRat (.fin s m e) < 0 then ⌈F64.toRat (.fin s m e)⌉
      else ⌊F64.toRat (.fin s m e)⌋ := by
  have hnn : (0 : ℚ) ≤ (m : ℚ) * 2 ^ e := by positivity
  cases s
  · simp only [F64.trunc, F64.toRat_fin, F64.smant, Bool.false_eq_true, if_false, Int.cast_natCast,
      not_lt.2 hnn, F64.floor_mag]
  · simp only [F64.trunc, F64.toRat_fin, F64.smant, if_true, Int.cast_neg, Int.cast_natCast,
      neg_mul, Left.neg_neg_iff, Int.ceil_neg, F64.floor_mag]
    rcases hnn.lt_or_eq with h | h
    · simp only [h, if_true]
    · have hm : m = 0 := by
        have h2 : (2 : ℚ) ^ e ≠ 0 := by positivity
        rcases mul_eq_zero.1 h.symm with h1 | h1
        · exact_mod_cast h1
        · exact absurd h1 h2
      subst hm
      simp

theorem toInt_floor_of_signClear (L : GoLib) (x : F64)
    (hx : x = .inf false ∨ ∃ m e, x = .fin false m e) (hfit : F64.fitsInt x = true) :
    toInt L x = ⌊F64.toRat x⌋ := by
  rcases hx with rfl | ⟨m, e, rfl⟩
  · simp [F64.fitsInt] at hfit
  · simp only [toInt, hfit, if_true, F64.trunc_eq]
    have hnn : ¬ F64.toRat (.fin false m e) < 0 := by
      rw [F64.toRat_fin]
      simp only [F64.smant, Bool.false_eq_true, if_false, Int.cast_natCast, not_lt]
      positivity
    simp only [hnn, if_false]

theorem fillColour_eleven (L : GoLib) : fillColour L (F64.ofNat 11) = (275, 0) := by
  have h1 : F64.lt (F64.ofNat 11) F64.zero = false := by decide!
  have h2 : F64.gt (F64.ofNat 11) F64.zero = true := by decide!
  have h3 : F64.fitsInt (F64.mul (F64.ofNat 11) (F64.ofNat 25)) = true := by decide!
  have h4 : F64.trunc (F64.mul (F64.ofNat 11) (F64.ofNat 25)) = 275 := by decide!
  simp only [fillColour, h1, h2, toInt, h3, h4, Bool.false_eq_true, if_false, if_true]

theorem cell_of_not_rejected (L : GoLib) (g : Globals) (ij : Nat × Nat)
    (h : rejected L g ij = false) : cell L g ij.1 ij.2 = some (some (polygonOf L g ij)) := by
  rw [cell_eq]
  simp only [rejected] at h
  simp only [h, Bool.false_eq_true, if_false, polygonOf]

theorem cellPolygons_eq (L : GoLib) (g : Globals) (ij : Nat × Nat) :
    cellPolygons L g ij = if rejected L g ij then [] else [polygonOf L g ij] := by
  by_cases h : rejected L g ij = true
  · have hc : cell L g ij.1 ij.2 = some none := by
      rw [cell_eq]; simp only [rejected] at h; simp only [h, if_true]
    simp only [cellPolygons, hc, h, if_true]
  · have h' : rejected L g ij = false := by simpa using h
    simp only [cellPolygons, cell_of_not_rejected L g ij h', h', Bool.false_eq_true, if_false]

theorem flatMap_cellPolygons (L : GoLib) (g : Globals) (cs : List (Nat × Nat)) :
    cs.flatMap (cellPolygons L g) =
      (cs.filter fun ij => !rejected L g ij).map (polygonOf L g) := by
  induction cs with
  | nil => rfl
  | cons ij rest ih =>
    rw [List.flatMap_cons, ih, cellPolygons_eq, List.filter_cons]
    cases rejected L g ij <;> simp

theorem gridCells_sorted : gridCells.Pairwise cellBefore := by
  unfold gridCells
  rw [List.pairwise_flatMap]
  constructor
  · intro i _
    exact List.Pairwise.map _ (fun a b hab => Or.inr ⟨rfl, hab⟩) (List.pairwise_lt_range _)
  · refine List.Pairwise.imp ?_ (List.pairwise_lt_range cells)
    intro i i' hlt a ha b hb
    simp only [List.mem_map] at ha hb
    obtain ⟨_, _, rfl⟩ := ha
    obtain ⟨_, _, rfl⟩ := hb
    exact Or.inl hlt

theorem cellBefore_asymm (a b : Nat × Nat) (h : cellBefore a b) : ¬ cellBefore b a := by
  unfold cellBefore at *
  omega

theorem split_of_sorted {l : List (Nat × Nat)} (hs : l.Pairwise cellBefore) {a b : Nat × Nat}
    (ha : a ∈ l) (hb : b ∈ l) (hab : cellBefore a b) :
    ∃ l1 l2 l3, l = l1 ++ a :: (l2 ++ b :: l3) := by
  obtain ⟨l1, t, rfl⟩ := List.append_of_mem ha
  rw [List.pairwise_append] at hs
  obtain ⟨_, _, hcross⟩ := hs
  rcases List.mem_append.1 hb with hb1 | hb2
  · exact absurd (hcross b hb1 a (List.mem_cons_self _ _)) (cellBefore_asymm a b hab)
  · rcases List.mem_cons.1 hb2 with rfl | hbt
    · exact absurd hab (cellBefore_asymm _ _ hab)
    · obtain ⟨l2, l3, rfl⟩ := List.append_of_mem hbt
      exact ⟨l1, l2, l3, rfl⟩

theorem F64.eq_fin_iff (s : Bool) (m : Nat) (e : Int) (t : Bool) (n : Nat) (k : Int) :
    F64.eq (.fin s m e) (.fin t n k) = true ↔
      F64.toRat (.fin s m e) = F64.toRat (.fin t n k) := by
  simp only [F64.eq, decide_eq_true_eq, F64.toRat_fin]
  have hpos : (2 ^ (min e k) : ℚ)⁻¹ ≠ 0 := by positivity
  rw [← Int.cast_inj (α := ℚ), F64.scaled_eq _ e _ (min_le_left e k),
    F64.scaled_eq _ k _ (min_le_right e k)]
  exact mul_left_inj' hpos

theorem F64.lt_iff_rank (a b : F64) (ha : a ≠ .nan) (hb : b ≠ .nan) :
    F64.lt a b = true ↔ a.rank < b.rank := by
  cases a with
  | nan => exact absurd rfl ha
  | inf s =>
    cases b with
    | nan => exact absurd rfl hb
    | inf t => cases s <;> cases t <;> simp [F64.lt, F64.rank, WithBot.bot_lt_coe]
    | fin t n k => cases s <;> simp [F64.lt, F64.rank, WithBot.bot_lt_coe]
  | fin s m e =>
    cases b with
    | nan => exact absurd rfl hb
    | inf t =>
      cases t
      · simp only [F64.lt, F64.rank, Bool.not_false, true_iff, WithBot.coe_lt_coe]
        exact WithTop.coe_lt_top _
      · simp [F64.lt, F64.rank]
    | fin t n k =>
      rw [F64.lt_fin_iff]
      simp only [F64.rank, WithBot.coe_lt_coe, WithTop.coe_lt_coe]

theorem F64.eq_iff_rank (a b : F64) (ha : a ≠ .nan) (hb : b ≠ .nan) :
    F64.eq a b = true ↔ a.rank = b.rank := by
  cases a with
  | nan => exact absurd rfl ha
  | inf s =>
    cases b with
    | nan => exact absurd rfl hb
    | inf t => cases s <;> cases t <;> simp [F64.eq, F64.rank]
    | fin t n k => cases s <;> simp [F64.eq, F64.rank]
  | fin s m e =>
    cases b with
    | nan => exact absurd rfl hb
    | inf t => cases t <;> simp [F64.eq, F64.rank]
    | fin t n k =>
      rw [F64.eq_fin_iff]
      simp only [F64.rank, WithBot.coe_inj, WithTop.coe_inj]

theorem F64.ge_iff_rank (a b : F64) (ha : a ≠ .nan) (hb : b ≠ .nan) :
    F64.ge a b = true ↔ b.rank ≤ a.rank := by
  simp only [F64.ge, F64.gt, Bool.or_eq_true, F64.lt_iff_rank b a hb ha,
    F64.eq_iff_rank a b ha hb]
  rw [le_iff_lt_or_eq]
  constructor
  · rintro (h | h)
    · exact Or.inl h
    · exact Or.inr h.symm
  · rintro (h | h)
    · exact Or.inl h
    · exact Or.inr h.symm

theorem maxValue_fold (l : List F64) (a : F64) (ha : a ≠ .nan) (hl : ∀ v ∈ l, v ≠ F64.nan) :
    (l.foldl (fun max v => if F64.gt v max then v else max) a ∈ a :: l) ∧
    a.rank ≤ (l.foldl (fun max v => if F64.gt v max then v else max) a).rank ∧
    ∀ v ∈ l, v.rank ≤ (l.foldl (fun max v => if F64.gt v max then v else max) a).rank := by
  induction l generalizing a with
  | nil => exact ⟨List.mem_singleton.2 rfl, le_refl _, fun v hv => absurd hv (List.not_mem_nil v)⟩
  | cons v rest ih =>
    have hv : v ≠ F64.nan := hl v (List.mem_cons_self _ _)
    have hrest : ∀ u ∈ rest, u ≠ F64.nan := fun u hu => hl u (List.mem_cons_of_mem _ hu)
    rw [List.foldl_cons]
    by_cases hgt : F64.gt v a = true
    · rw [if_pos hgt]
      obtain ⟨hmem, hge, hall⟩ := ih v hv hrest
      have hav : a.rank < v.rank := (F64.lt_iff_rank a v ha hv).1 hgt
      refine ⟨List.mem_cons_of_mem _ hmem, le_trans hav.le hge, ?_⟩
      intro u hu
      rcases List.mem_cons.1 hu with rfl | hu'
      · exact hge
      · exact hall u hu'
    · rw [if_neg hgt]
      obtain ⟨hmem, hge, hall⟩ := ih a ha hrest
      have hva : v.rank ≤ a.rank := by
        by_contra hlt
        exact hgt ((F64.lt_iff_rank a v ha hv).2 (not_le.1 hlt))
      refine ⟨?_, hge, ?_⟩
      · rcases List.mem_cons.1 hmem with h | h
        · rw [h]; exact List.mem_cons_self _ _
        · exact List.mem_cons_of_mem _ (List.mem_cons_of_mem _ h)
      · intro u hu
        rcases List.mem_cons.1 hu with rfl | hu'
        · exact le_trans hva hge
        · exact hall u hu'

theorem cornerHeights_finite (L : GoLib) (g : Globals) (i j : Int)
    (h : isSomeNumberInvalid (cornerHeights L g i j) = false) :
    ∀ z ∈ cornerHeights L g i j, z.isFinite = true := by
  rw [isSomeNumberInvalid_eq_any, List.any_eq_false] at h
  intro z hz
  simpa using h z hz

theorem F64.bitLenAux_spec (fuel n : Nat) (h : n ≤ fuel) :
    n < 2 ^ F64.bitLenAux fuel n ∧ (n ≠ 0 → 2 ^ (F64.bitLenAux fuel n - 1) ≤ n) := by
  induction fuel generalizing n with
  | zero =>
    have : n = 0 := by omega
    subst this
    simp [F64.bitLenAux]
  | succ fuel ih =>
    unfold F64.bitLenAux
    by_cases h0 : n = 0
    · simp [h0]
    · simp only [h0, if_false]
      by_cases hbig : 2 ^ 64 ≤ n
      · simp only [hbig, if_true]
        have hq : n / 2 ^ 64 ≤ fuel := by
          have : n / 2 ^ 64 < n := Nat.div_lt_self (by omega) (by norm_num)
          omega
        have hq0 : n / 2 ^ 64 ≠ 0 := by
          have : 0 < n / 2 ^ 64 := Nat.div_pos hbig (by norm_num)
          omega
        obtain ⟨h1, h2⟩ := ih (n / 2 ^ 64) hq
        have h2' := h2 hq0
        have hb : 1 ≤ F64.bitLenAux fuel (n / 2 ^ 64) := by
          by_contra hcon
          have : F64.bitLenAux fuel (n / 2 ^ 64) = 0 := by omega
          rw [this] at h1
          simp at h1
          exact hq0 h1
        have hdm := Nat.div_add_mod n (2 ^ 64)
        have hmod : n % 2 ^ 64 < 2 ^ 64 := Nat.mod_lt _ (by norm_num)
        refine ⟨?_, fun _ => ?_⟩
        · rw [pow_add]
          calc n = 2 ^ 64 * (n / 2 ^ 64) + n % 2 ^ 64 := hdm.symm
            _ < 2 ^ 64 * (n / 2 ^ 64) + 2 ^ 64 := by omega
            _ = (n / 2 ^ 64 + 1) * 2 ^ 64 := by ring
            _ ≤ 2 ^ F64.bitLenAux fuel (n / 2 ^ 64) * 2 ^ 64 :=
              Nat.mul_le_mul_right _ h1
        · have he : F64.bitLenAux fuel (n / 2 ^ 64) + 64 - 1
              = (F64.bitLenAux fuel (n / 2 ^ 64) - 1) + 64 := by omega
          rw [he, pow_add]
          calc 2 ^ (F64.bitLenAux fuel (n / 2 ^ 64) - 1) * 2 ^ 64
              ≤ (n / 2 ^ 64) * 2 ^ 64 := Nat.mul_le_mul_right _ h2'
            _ ≤ n := Nat.div_mul_le_self n (2 ^ 64)
      · simp only [hbig, if_false]
        have hq : n / 2 ≤ fuel := by omega
        obtain ⟨h1, h2⟩ := ih (n / 2) hq
        refine ⟨?_, fun _ => ?_⟩
        · rw [pow_succ]
          omega
        · simp only [Nat.add_sub_cancel]
          by_cases hq0 : n / 2 = 0
          · have hb : F64.bitLenAux fuel (n / 2) = 0 := by
              rw [hq0]
              cases fuel <;> simp [F64.bitLenAux]
            rw [hb]
            simp
            omega
          · have h2' := h2 hq0
            have hb : 1 ≤ F64.bitLenAux fuel (n / 2) := by
              by_contra hcon
              have : F64.bitLenAux fuel (n / 2) = 0 := by omega
              rw [this] at h1
              simp at h1
              exact hq0 h1
            have he : F64.bitLenAux fuel (n / 2) = (F64.bitLenAux fuel (n / 2) - 1) + 1 := by
              omega
            rw [he, pow_succ]
            omega

theorem F64.bitLen_spec (n : Nat) (h0 : n ≠ 0) :
    2 ^ (F64.bitLen n - 1) ≤ n ∧ n < 2 ^ F64.bitLen n ∧ 1 ≤ F64.bitLen n := by
  obtain ⟨h1, h2⟩ := F64.bitLenAux_spec n n (le_refl n)
  refine ⟨h2 h0, h1, ?_⟩
  by_contra hcon
  have : F64.bitLen n = 0 := by omega
  unfold F64.bitLen at this
  rw [this] at h1
  simp at h1
  exact h0 h1

theorem F64.two_zpow_split (k : Int) :
    (2 : ℚ) ^ k = (2 : ℚ) ^ k.toNat / (2 : ℚ) ^ (-k).toNat := by
  rcases le_or_lt 0 k with h | h
  · have h1 : (-k).toNat = 0 := by omega
    have h2 : ((k.toNat : Nat) : Int) = k := Int.toNat_of_nonneg h
    rw [h1, pow_zero, div_one, ← zpow_natCast, h2]
  · have h1 : k.toNat = 0 := by omega
    have h2 : (((-k).toNat : Nat) : Int) = -k := Int.toNat_of_nonneg (by omega)
    rw [h1, pow_zero, one_div, ← zpow_natCast, h2, zpow_neg, inv_inv]

theorem F64.floorLog2_spec (n d : Nat) (hn : n ≠ 0) (hd : d ≠ 0) :
    (2 : ℚ) ^ F64.floorLog2 n d ≤ (n : ℚ) / d ∧ (n : ℚ) / d < (2 : ℚ) ^ (F64.floorLog2 n d + 1) := by
  obtain ⟨hn1, hn2, hn3⟩ := F64.bitLen_spec n hn
  obtain ⟨hd1, hd2, hd3⟩ := F64.bitLen_spec d hd
  have hdpos : (0 : ℚ) < d := by exact_mod_cast Nat.pos_of_ne_zero hd
  have hnpos : (0 : ℚ) < n := by exact_mod_cast Nat.pos_of_ne_zero hn
  have h2 : (2 : ℚ) ≠ 0 := by norm_num
  have hn1q : (2 : ℚ) ^ ((F64.bitLen n : Int) - 1) ≤ n := by
    have : (((F64.bitLen n - 1 : Nat)) : Int) = (F64.bitLen n : Int) - 1 := by omega
    rw [← this, zpow_natCast]
    exact_mod_cast hn1
  have hn2q : (n : ℚ) < (2 : ℚ) ^ (F64.bitLen n : Int) := by
    rw [zpow_natCast]; exact_mod_cast hn2
  have hd1q : (2 : ℚ) ^ ((F64.bitLen d : Int) - 1) ≤ d := by
    have : (((F64.bitLen d - 1 : Nat)) : Int) = (F64.bitLen d : Int) - 1 := by omega
    rw [← this, zpow_natCast]
    exact_mod_cast hd1
  have hd2q : (d : ℚ) < (2 : ℚ) ^ (F64.bitLen d : Int) := by
    rw [zpow_natCast]; exact_mod_cast hd2
  -- the test of `floorLog2`, over the rationals
  have htest : (d * 2 ^ ((F64.bitLen n : Int) - (F64.bitLen d : Int)).toNat
        ≤ n * 2 ^ (-((F64.bitLen n : Int) - (F64.bitLen d : Int))).toNat) ↔
      (2 : ℚ) ^ ((F64.bitLen n : Int) - (F64.bitLen d : Int)) ≤ (n : ℚ) / d := by
    rw [F64.two_zpow_split, le_div_iff₀ hdpos, div_mul_eq_mul_div,
      div_le_iff₀ (by positivity), ← Nat.cast_le (α := ℚ)]
    push_cast
    rw [mul_comm]
  unfold F64.floorLog2
  simp only []
  by_cases hc : d * 2 ^ ((F64.bitLen n : Int) - (F64.bitLen d : Int)).toNat
      ≤ n * 2 ^ (-((F64.bitLen n : Int) - (F64.bitLen d : Int))).toNat
  · rw [if_pos hc]
    refine ⟨htest.1 hc, ?_⟩
    rw [div_lt_iff₀ hdpos]
    calc (n : ℚ) < (2 : ℚ) ^ (F64.bitLen n : Int) := hn2q
      _ = (2 : ℚ) ^ ((F64.bitLen n : Int) - (F64.bitLen d : Int) + 1)
            * (2 : ℚ) ^ ((F64.bitLen d : Int) - 1) := by
          rw [← zpow_add₀ h2]; congr 1; ring
      _ ≤ (2 : ℚ) ^ ((F64.bitLen n : Int) - (F64.bitLen d : Int) + 1) * d :=
          mul_le_mul_of_nonneg_left hd1q (by positivity)
  · rw [if_neg hc]
    have hlt : (n : ℚ) / d < (2 : ℚ) ^ ((F64.bitLen n : Int) - (F64.bitLen d : Int)) :=
      not_le.1 (fun h => hc (htest.2 h))
    refine ⟨?_, by simpa using hlt⟩
    rw [le_div_iff₀ hdpos]
    calc (2 : ℚ) ^ ((F64.bitLen n : Int) - (F64.bitLen d : Int) - 1) * d
        ≤ (2 : ℚ) ^ ((F64.bitLen n : Int) - (F64.bitLen d : Int) - 1)
            * (2 : ℚ) ^ (F64.bitLen d : Int) :=
          mul_le_mul_of_nonneg_left hd2q.le (by positivity)
      _ = (2 : ℚ) ^ ((F64.bitLen n : Int) - 1) := by
          rw [← zpow_add₀ h2]; congr 1; ring
      _ ≤ n := hn1q

theorem F64.nearest_spec (num den : Nat) (hden : 0 < den) :
    |((if den < 2 * (num % den) ∨ (2 * (num % den) = den ∧ (num / den) % 2 = 1)
        then num / den + 1 else num / den : Nat) : ℚ) - (num : ℚ) / den| ≤ 1 / 2 := by
  have hdq : (0 : ℚ) < den := by exact_mod_cast hden
  have hmod : num % den < den := Nat.mod_lt _ hden
  have hdm : (num : ℚ) = (den : ℚ) * (num / den : Nat) + (num % den : Nat) := by
    exact_mod_cast (Nat.div_add_mod num den).symm
  have hfrac : (num : ℚ) / den = (num / den : Nat) + ((num % den : Nat) : ℚ) / den := by
    rw [hdm]; field_simp; ring
  have hr0 : (0 : ℚ) ≤ ((num % den : Nat) : ℚ) / den := by positivity
  have hr1 : ((num % den : Nat) : ℚ) / den < 1 := by
    rw [div_lt_one hdq]; exact_mod_cast hmod
  rw [hfrac]
  split_ifs with h
  · have hhalf : (1 : ℚ) / 2 ≤ ((num % den : Nat) : ℚ) / den := by
      rw [le_div_iff₀ hdq]
      have : den ≤ 2 * (num % den) := by omega
      have hq : (den : ℚ) ≤ 2 * ((num % den : Nat) : ℚ) := by exact_mod_cast this
      linarith
    push_cast
    rw [abs_le]
    constructor <;> linarith
  · have hhalf : ((num % den : Nat) : ℚ) / den ≤ 1 / 2 := by
      rw [div_le_iff₀ hdq]
      have : 2 * (num % den) ≤ den := by omega
      have hq : 2 * ((num % den : Nat) : ℚ) ≤ (den : ℚ) := by exact_mod_cast this
      linarith
    rw [abs_le]
    constructor <;> linarith

theorem F64.pack_spec (neg : Bool) (q : Nat) (p : Int) (hp : p ≤ 970) :
    ∃ m e, F64.pack neg q p = .fin neg m e ∧ (m : ℚ) * 2 ^ e = (q : ℚ) * 2 ^ p := by
  unfold F64.pack
  by_cases hq : q = 2 ^ 53
  · have hno : ¬ (971 < p + 1) := by omega
    simp only [hq, if_true, hno, if_false]
    refine ⟨_, _, rfl, ?_⟩
    rw [zpow_add₀ (by norm_num : (2 : ℚ) ≠ 0)]
    push_cast
    ring
  · have hno : ¬ (971 < p) := by omega
    simp only [hq, if_false, hno]
    exact ⟨_, _, rfl, rfl⟩

theorem F64.round_spec (neg : Bool) (n d : Nat) (s : Int) (hd : d ≠ 0)
    (hv : (n : ℚ) / d * 2 ^ s < 2 ^ (1023 : Int)) :
    ∃ m e, F64.round neg n d s = .fin neg m e ∧
      |(m : ℚ) * 2 ^ e - (n : ℚ) / d * 2 ^ s| ≤
        (n : ℚ) / d * 2 ^ s / 2 ^ 53 + 2 ^ (-1075 : Int) := by
  have h2 : (2 : ℚ) ≠ 0 := by norm_num
  by_cases hn : n = 0
  · subst hn
    refine ⟨0, -1074, by simp [F64.round], ?_⟩
    simp only [Nat.cast_zero, zero_mul, zero_div, sub_self, abs_zero, zero_add]
    positivity
  · obtain ⟨hlo, _⟩ := F64.floorLog2_spec n d hn hd
    have hdq : (0 : ℚ) < d := by exact_mod_cast Nat.pos_of_ne_zero hd
    have hvpos : (0 : ℚ) < (n : ℚ) / d * 2 ^ s := by
      have : (0 : ℚ) < n := by exact_mod_cast Nat.pos_of_ne_zero hn
      positivity
    -- the exponent of the value is below 1023
    have hfls : (2 : ℚ) ^ (F64.floorLog2 n d + s) ≤ (n : ℚ) / d * 2 ^ s := by
      rw [zpow_add₀ h2]
      exact mul_le_mul_of_nonneg_right hlo (by positivity)
    have hexp : F64.floorLog2 n d + s < 1023 := by
      have := lt_of_le_of_lt hfls hv
      exact (zpow_lt_zpow_iff_right₀ (by norm_num : (1 : ℚ) < 2)).1 this
    set p : Int := max (F64.floorLog2 n d + s - 52) (-1074) with hpdef
    have hp970 : p ≤ 970 := by rw [hpdef]; exact max_le (by omega) (by norm_num)
    have hden : 0 < d * 2 ^ (p - s).toNat := Nat.mul_pos (Nat.pos_of_ne_zero hd) (by positivity)
    -- the scaled quotient
    have hquot : ((n * 2 ^ (s - p).toNat : Nat) : ℚ) / ((d * 2 ^ (p - s).toNat : Nat) : ℚ) =
        (n : ℚ) / d * 2 ^ s / 2 ^ p := by
      have hsplit := F64.two_zpow_split (s - p)
      rw [show -(s - p) = p - s by ring, zpow_sub₀ h2] at hsplit
      push_cast
      rw [mul_div_mul_comm, ← hsplit]
      ring
    have hnear := F64.nearest_spec (n * 2 ^ (s - p).toNat) (d * 2 ^ (p - s).toNat) hden
    obtain ⟨m, e, hpack, hval⟩ := F64.pack_spec neg
      (if d * 2 ^ (p - s).toNat < 2 * ((n * 2 ^ (s - p).toNat) % (d * 2 ^ (p - s).toNat)) ∨
        (2 * ((n * 2 ^ (s - p).toNat) % (d * 2 ^ (p - s).toNat)) = d * 2 ^ (p - s).toNat ∧
          ((n * 2 ^ (s - p).toNat) / (d * 2 ^ (p - s).toNat)) % 2 = 1)
        then (n * 2 ^ (s - p).toNat) / (d * 2 ^ (p - s).toNat) + 1
        else (n * 2 ^ (s - p).toNat) / (d * 2 ^ (p - s).toNat)) p hp970
    refine ⟨m, e, ?_, ?_⟩
    · unfold F64.round
      rw [if_neg hn]
      exact hpack
    · rw [hval]
      rw [hquot] at hnear
      have hpp : (0 : ℚ) < 2 ^ p := by positivity
      -- |q1 * 2^p - v| = |q1 - v / 2^p| * 2^p
      have hkey : ∀ q1 : ℚ, |q1 - (n : ℚ) / d * 2 ^ s / 2 ^ p| ≤ 1 / 2 →
          |q1 * 2 ^ p - (n : ℚ) / d * 2 ^ s| ≤ 2 ^ p / 2 := by
        intro q1 hq1
        have : q1 * 2 ^ p - (n : ℚ) / d * 2 ^ s
            = (q1 - (n : ℚ) / d * 2 ^ s / 2 ^ p) * 2 ^ p := by
          rw [sub_mul, div_mul_cancel₀ _ hpp.ne']
        rw [this, abs_mul, abs_of_pos hpp]
        calc |q1 - (n : ℚ) / d * 2 ^ s / 2 ^ p| * 2 ^ p ≤ 1 / 2 * 2 ^ p :=
              mul_le_mul_of_nonneg_right hq1 hpp.le
          _ = 2 ^ p / 2 := by ring
      refine le_trans (hkey _ hnear) ?_
      rcases le_total (F64.floorLog2 n d + s - 52) (-1074) with hsub | hnorm
      · have : p = -1074 := by rw [hpdef]; exact max_eq_right hsub
        rw [this]
        have : (2 : ℚ) ^ (-1074 : Int) / 2 = 2 ^ (-1075 : Int) := by
          rw [show (-1075 : Int) = -1074 - 1 by norm_num, zpow_sub₀ h2, zpow_one]
        rw [this]
        linarith [div_pos hvpos (by positivity : (0 : ℚ) < 2 ^ 53)]
      · have : p = F64.floorLog2 n d + s - 52 := by rw [hpdef]; exact max_eq_left hnorm
        rw [this]
        have h1 : (2 : ℚ) ^ (F64.floorLog2 n d + s - 52) / 2
            = 2 ^ (F64.floorLog2 n d + s) / 2 ^ 53 := by
          rw [zpow_sub₀ h2]
          norm_num
          ring
        rw [h1]
        have h3 : (2 : ℚ) ^ (F64.floorLog2 n d + s) / 2 ^ 53 ≤ (n : ℚ) / d * 2 ^ s / 2 ^ 53 :=
          div_le_div_of_nonneg_right hfls (by positivity)
        have h4 : (0 : ℚ) < 2 ^ (-1075 : Int) := by positivity
        linarith

theorem F64.smant_cast (s : Bool) (m : Nat) :
    ((F64.smant s m : Int) : ℚ) = (if s then -1 else 1) * (m : ℚ) := by
  cases s <;> simp [F64.smant]

theorem F64.round_near (neg : Bool) (n d : Nat) (s : Int) (hd : d ≠ 0)
    (hv : (n : ℚ) / d * 2 ^ s < 2 ^ (1023 : Int)) :
    F64.Near (F64.round neg n d s) ((if neg then -1 else 1) * ((n : ℚ) / d * 2 ^ s)) := by
  obtain ⟨m, e, hr, herr⟩ := F64.round_spec neg n d s hd hv
  have hv0 : (0 : ℚ) ≤ (n : ℚ) / d * 2 ^ s := by positivity
  have hsg : |((if neg then -1 else 1 : ℚ))| = 1 := by cases neg <;> simp
  refine ⟨by rw [hr]; rfl, ?_, ?_⟩
  · rw [hr, F64.toRat_fin, F64.smant_cast, mul_assoc, ← mul_sub, abs_mul, abs_mul, hsg, one_mul,
      one_mul, abs_of_nonneg hv0]
    exact herr
  · intro h0
    have hz : (n : ℚ) / d * 2 ^ s = 0 := by
      cases neg <;> simpa using h0
    have hn : n = 0 := by
      have h2 : (2 : ℚ) ^ s ≠ 0 := by positivity
      have hdq : (d : ℚ) ≠ 0 := by exact_mod_cast hd
      rcases mul_eq_zero.1 hz with h | h
      · rcases div_eq_zero_iff.1 h with h' | h'
        · exact_mod_cast h'
        · exact absurd h' hdq
      · exact absurd h h2
    subst hn
    simp [F64.round, F64.toRat, F64.smant]

theorem F64.toRat_neg (x : F64) : (F64.neg x).toRat = -x.toRat := by
  cases x with
  | nan => simp [F64.neg, F64.toRat]
  | inf s => simp [F64.neg, F64.toRat]
  | fin s m e => cases s <;> simp [F64.neg, F64.toRat, F64.smant]

theorem F64.toRat_abs (x : F64) : (F64.abs x).toRat = |x.toRat| := by
  cases x with
  | nan => simp [F64.abs, F64.toRat]
  | inf s => simp [F64.abs, F64.toRat]
  | fin s m e =>
    have h : (0 : ℚ) ≤ (m : ℚ) * 2 ^ e := by positivity
    cases s
    · simp [F64.abs, F64.toRat, F64.smant, abs_of_nonneg h]
    · simp only [F64.abs, F64.toRat, F64.smant, Bool.false_eq_true, if_false, if_true,
        Int.cast_neg, Int.cast_natCast, neg_mul, abs_neg, abs_of_nonneg h]

theorem F64.isFinite_neg (x : F64) : (F64.neg x).isFinite = x.isFinite := by
  cases x <;> rfl

theorem F64.isFinite_abs (x : F64) : (F64.abs x).isFinite = x.isFinite := by
  cases x <;> rfl

theorem F64.isFinite_iff (x : F64) : x.isFinite = true ↔ ∃ s m e, x = .fin s m e := by
  cases x with
  | nan => simp [F64.isFinite]
  | inf s => simp [F64.isFinite]
  | fin s m e => simp [F64.isFinite]

theorem F64.xor_sign (s t : Bool) :
    ((if xor s t then -1 else 1 : ℚ)) = (if s then -1 else 1) * (if t then -1 else 1) := by
  cases s <;> cases t <;> simp

theorem F64.mul_near (a b : F64) (ha : a.isFinite = true) (hb : b.isFinite = true)
    (hv : |a.toRat * b.toRat| < 2 ^ (1023 : Int)) : F64.Near (F64.mul a b) (a.toRat * b.toRat) := by
  obtain ⟨s, m, e, rfl⟩ := (F64.isFinite_iff a).1 ha
  obtain ⟨t, n, k, rfl⟩ := (F64.isFinite_iff b).1 hb
  have h2 : (2 : ℚ) ≠ 0 := by norm_num
  have hval : F64.toRat (.fin s m e) * F64.toRat (.fin t n k) =
      (if xor s t then -1 else 1) * (((m * n : Nat) : ℚ) / (1 : Nat) * 2 ^ (e + k)) := by
    rw [F64.toRat_fin, F64.toRat_fin, F64.smant_cast, F64.smant_cast, F64.xor_sign, zpow_add₀ h2]
    push_cast
    ring
  have hmag : ((m * n : Nat) : ℚ) / (1 : Nat) * 2 ^ (e + k) < 2 ^ (1023 : Int) := by
    have hnn : (0 : ℚ) ≤ ((m * n : Nat) : ℚ) / (1 : Nat) * 2 ^ (e + k) := by positivity
    rw [hval, abs_mul] at hv
    have hsg : |((if xor s t then -1 else 1 : ℚ))| = 1 := by cases xor s t <;> simp
    rw [hsg, one_mul, abs_of_nonneg hnn] at hv
    exact hv
  rw [hval]
  exact F64.round_near (xor s t) (m * n) 1 (e + k) (by norm_num) hmag

theorem F64.div_near (a b : F64) (ha : a.isFinite = true) (hb : b.isFinite = true)
    (hb0 : b.toRat ≠ 0) (hv : |a.toRat / b.toRat| < 2 ^ (1023 : Int)) :
    F64.Near (F64.div a b) (a.toRat / b.toRat) := by
  obtain ⟨s, m, e, rfl⟩ := (F64.isFinite_iff a).1 ha
  obtain ⟨t, n, k, rfl⟩ := (F64.isFinite_iff b).1 hb
  have h2 : (2 : ℚ) ≠ 0 := by norm_num
  have hn : n ≠ 0 := by
    intro h
    apply hb0
    rw [F64.toRat_fin, F64.smant_cast, h]
    simp
  have hnq : (n : ℚ) ≠ 0 := by exact_mod_cast hn
  have hval : F64.toRat (.fin s m e) / F64.toRat (.fin t n k) =
      (if xor s t then -1 else 1) * ((m : ℚ) / n * 2 ^ (e - k)) := by
    rw [F64.toRat_fin, F64.toRat_fin, F64.smant_cast, F64.smant_cast, F64.xor_sign, zpow_sub₀ h2]
    have h2k : (2 : ℚ) ^ k ≠ 0 := by positivity
    cases s <;> cases t <;> field_simp
  have hmag : (m : ℚ) / n * 2 ^ (e - k) < 2 ^ (1023 : Int) := by
    have hnn : (0 : ℚ) ≤ (m : ℚ) / n * 2 ^ (e - k) := by positivity
    rw [hval, abs_mul] at hv
    have hsg : |((if xor s t then -1 else 1 : ℚ))| = 1 := by cases xor s t <;> simp
    rw [hsg, one_mul, abs_of_nonneg hnn] at hv
    exact hv
  rw [hval]
  have hdiv : F64.div (.fin s m e) (.fin t n k) = F64.round (xor s t) m n (e - k) := by
    simp [F64.div, hn]
  rw [hdiv]
  exact F64.round_near (xor s t) m n (e - k) hn hmag

theorem F64.int_sign_abs (i : Int) :
    (i : ℚ) = (if decide (i < 0) then -1 else 1) * ((i.natAbs : Nat) : ℚ) := by
  rw [Nat.cast_natAbs, Int.cast_abs]
  rcases lt_or_le i 0 with hneg | hpos
  · have hq : (i : ℚ) < 0 := by exact_mod_cast hneg
    simp [hneg, abs_of_neg hq]
  · have hq : (0 : ℚ) ≤ (i : ℚ) := by exact_mod_cast hpos
    have hnot : ¬ i < 0 := by omega
    simp [hnot, abs_of_nonneg hq]

theorem F64.add_near (a b : F64) (ha : a.isFinite = true) (hb : b.isFinite = true)
    (hv : |a.toRat + b.toRat| < 2 ^ (1023 : Int)) : F64.Near (F64.add a b) (a.toRat + b.toRat) := by
  obtain ⟨s, m, e, rfl⟩ := (F64.isFinite_iff a).1 ha
  obtain ⟨t, n, k, rfl⟩ := (F64.isFinite_iff b).1 hb
  have hc : (0 : ℚ) < 2 ^ (min e k) := by positivity
  set total : Int := F64.smant s m * 2 ^ (e - min e k).toNat
    + F64.smant t n * 2 ^ (k - min e k).toNat with htot
  have hsum : F64.toRat (.fin s m e) + F64.toRat (.fin t n k) = (total : ℚ) * 2 ^ (min e k) := by
    rw [htot, Int.cast_add, F64.scaled_eq _ e _ (min_le_left e k),
      F64.scaled_eq _ k _ (min_le_right e k), F64.toRat_fin, F64.toRat_fin]
    field_simp
  have hadd : F64.add (.fin s m e) (.fin t n k) =
      if total = 0 then .fin (s && t) 0 (-1074)
      else F64.round (decide (total < 0)) total.natAbs 1 (min e k) := rfl
  rw [hadd, hsum]
  by_cases h0 : total = 0
  · rw [if_pos h0, h0]
    refine ⟨rfl, ?_, fun _ => ?_⟩
    · simp only [F64.toRat_fin, F64.smant]
      cases (s && t) <;> simp <;> positivity
    · simp only [F64.toRat_fin, F64.smant]
      cases (s && t) <;> simp
  · rw [if_neg h0]
    have habs := F64.int_sign_abs total
    have hval : (total : ℚ) * 2 ^ (min e k) =
        (if decide (total < 0) then -1 else 1)
          * (((total.natAbs : Nat) : ℚ) / (1 : Nat) * 2 ^ (min e k)) := by
      rw [Nat.cast_one, div_one, ← mul_assoc, ← habs]
    have hmag : ((total.natAbs : Nat) : ℚ) / (1 : Nat) * 2 ^ (min e k) < 2 ^ (1023 : Int) := by
      have hnn : (0 : ℚ) ≤ ((total.natAbs : Nat) : ℚ) / (1 : Nat) * 2 ^ (min e k) := by positivity
      rw [hsum, hval, abs_mul] at hv
      have hsg : |((if decide (total < 0) then -1 else 1 : ℚ))| = 1 := by
        cases decide (total < 0) <;> simp
      rw [hsg, one_mul, abs_of_nonneg hnn] at hv
      exact hv
    rw [hval]
    exact F64.round_near _ _ 1 _ (by norm_num) hmag

theorem F64.sub_near (a b : F64) (ha : a.isFinite = true) (hb : b.isFinite = true)
    (hv : |a.toRat - b.toRat| < 2 ^ (1023 : Int)) : F64.Near (F64.sub a b) (a.toRat - b.toRat) := by
  have h := F64.add_near a (F64.neg b) ha (by rw [F64.isFinite_neg]; exact hb)
    (by rw [F64.toRat_neg, ← sub_eq_add_neg]; exact hv)
  rw [F64.toRat_neg, ← sub_eq_add_neg] at h
  exact h

theorem F64.ofNat_near (n : Nat) (hn : (n : ℚ) < 2 ^ (1023 : Int)) :
    F64.Near (F64.ofNat n) (n : ℚ) := by
  have h := F64.round_near false n 1 0 (by norm_num) (by simpa using hn)
  simpa [F64.ofNat] using h

theorem F64.ofInt_near (i : Int) (hi : |(i : ℚ)| < 2 ^ (1023 : Int)) :
    F64.Near (F64.ofInt i) (i : ℚ) := by
  have habs := F64.int_sign_abs i
  have hmag : ((i.natAbs : Nat) : ℚ) / (1 : Nat) * 2 ^ (0 : Int) < 2 ^ (1023 : Int) := by
    have hnn : (0 : ℚ) ≤ ((i.natAbs : Nat) : ℚ) := by positivity
    rw [habs, abs_mul] at hi
    have hsg : |((if decide (i < 0) then -1 else 1 : ℚ))| = 1 := by
      cases decide (i < 0) <;> simp
    rw [hsg, one_mul, abs_of_nonneg hnn] at hi
    simpa using hi
  have h := F64.round_near (decide (i < 0)) i.natAbs 1 0 (by norm_num) hmag
  have hv : (if decide (i < 0) then (-1 : ℚ) else 1)
      * (((i.natAbs : Nat) : ℚ) / (1 : Nat) * 2 ^ (0 : Int)) = (i : ℚ) := by
    rw [habs]; simp
  rw [hv] at h
  exact h

theorem F64.lt_false_iff (a b : F64) (ha : a.isFinite = true) (hb : b.isFinite = true) :
    F64.lt a b = false ↔ b.toRat ≤ a.toRat := by
  obtain ⟨s, m, e, rfl⟩ := (F64.isFinite_iff a).1 ha
  obtain ⟨t, n, k, rfl⟩ := (F64.isFinite_iff b).1 hb
  rw [← not_lt, ← F64.lt_fin_iff]
  simp

theorem F64.toRat_ofNat_one : (F64.ofNat 1).toRat = 1 := by
  rw [show F64.ofNat 1 = .fin false 4503599627370496 (-52) by decide!, F64.toRat_fin]
  simp only [F64.smant, Bool.false_eq_true, if_false]
  norm_num [zpow_neg]

theorem F64.toRat_ofNat_two : (F64.ofNat 2).toRat = 2 := by
  rw [show F64.ofNat 2 = .fin false 4503599627370496 (-51) by decide!, F64.toRat_fin]
  simp only [F64.smant, Bool.false_eq_true, if_false]
  norm_num [zpow_neg]

theorem F64.toRat_quarter : (F64.ofRatio 1 4).toRat = 1 / 4 := by
  rw [show F64.ofRatio 1 4 = .fin false 4503599627370496 (-54) by decide!, F64.toRat_fin]
  simp only [F64.smant, Bool.false_eq_true, if_false]
  norm_num [zpow_neg]

theorem F64.toRat_zero : F64.zero.toRat = 0 := by
  simp [F64.zero, F64.toRat, F64.smant]

/-- Every grid coordinate is finite and at most 15 in magnitude, and is at least 1/4 in
magnitude except at index 50. -/
theorem gridCoord_facts : ∀ i ∈ List.range 101,
    (gridCoord (i : Nat)).isFinite = true ∧
    F64.lt (F64.ofNat 15) (F64.abs (gridCoord (i : Nat))) = false ∧
    (i ≠ 50 → F64.lt (F64.abs (gridCoord (i : Nat))) (F64.ofRatio 1 4) = false) := by
  decide!

theorem height_not_finite_at_origin (L : GoLib)
    (hsin : ∀ r : F64, r.isFinite = true →
      (L.sin r).isFinite = true ∧ F64.lt (F64.ofNat 2) (F64.abs (L.sin r)) = false)
    (h0 : L.hypot F64.zero F64.zero = F64.zero) :
    (f L F64.zero F64.zero).isFinite = false := by
  obtain ⟨s, m, e, hs⟩ := (F64.isFinite_iff _).1 (hsin F64.zero rfl).1
  simp only [f, h0, hs]
  by_cases hm : m = 0 <;> simp [F64.div, F64.zero, hm, F64.isFinite]

theorem height_finite_off_origin (L : GoLib)
    (hsin : ∀ r : F64, r.isFinite = true →
      (L.sin r).isFinite = true ∧ F64.lt (F64.ofNat 2) (F64.abs (L.sin r)) = false)
    (hhyp : ∀ x y : F64, x.isFinite = true → y.isFinite = true →
      F64.lt (F64.ofNat 15) (F64.abs x) = false → F64.lt (F64.ofNat 15) (F64.abs y) = false →
      (L.hypot x y).isFinite = true ∧ F64.lt (L.hypot x y) (F64.abs x) = false ∧
        F64.lt (L.hypot x y) (F64.abs y) = false)
    (i j : Nat) (hi : i ≤ 100) (hj : j ≤ 100) (hne : ¬ (i = 50 ∧ j = 50)) :
    (f L (gridCoord i) (gridCoord j)).isFinite = true := by
  obtain ⟨hxf, hx15, hxq⟩ := gridCoord_facts i (List.mem_range.2 (by omega))
  obtain ⟨hyf, hy15, hyq⟩ := gridCoord_facts j (List.mem_range.2 (by omega))
  obtain ⟨hrf, hrx, hry⟩ := hhyp _ _ hxf hyf hx15 hy15
  obtain ⟨hsf, hs2⟩ := hsin _ hrf
  have haxf : (F64.abs (gridCoord i)).isFinite = true := by rw [F64.isFinite_abs]; exact hxf
  have hayf : (F64.abs (gridCoord j)).isFinite = true := by rw [F64.isFinite_abs]; exact hyf
  have hqf : (F64.ofRatio 1 4).isFinite = true := by decide!
  have h2f : (F64.ofNat 2).isFinite = true := by decide!
  -- the radius is at least 1/4
  have hR : (1 : ℚ) / 4 ≤ (L.hypot (gridCoord i) (gridCoord j)).toRat := by
    by_cases h50 : i = 50
    · have hj50 : j ≠ 50 := fun h => hne ⟨h50, h⟩
      have h1 := (F64.lt_false_iff _ _ hayf hqf).1 (hyq hj50)
      have h2 := (F64.lt_false_iff _ _ hrf hayf).1 hry
      rw [F64.toRat_quarter] at h1
      linarith
    · have h1 := (F64.lt_false_iff _ _ haxf hqf).1 (hxq h50)
      have h2 := (F64.lt_false_iff _ _ hrf haxf).1 hrx
      rw [F64.toRat_quarter] at h1
      linarith
  -- the sine is at most 2 in magnitude
  have hS : |(L.sin (L.hypot (gridCoord i) (gridCoord j))).toRat| ≤ 2 := by
    have h1 := (F64.lt_false_iff _ _ h2f (by rw [F64.isFinite_abs]; exact hsf)).1 hs2
    rw [F64.toRat_abs, F64.toRat_ofNat_two] at h1
    exact h1
  have hRpos : (0 : ℚ) < (L.hypot (gridCoord i) (gridCoord j)).toRat := by linarith
  have hquot : |(L.sin (L.hypot (gridCoord i) (gridCoord j))).toRat
      / (L.hypot (gridCoord i) (gridCoord j)).toRat| < 2 ^ (1023 : Int) := by
    rw [abs_div, abs_of_pos hRpos]
    have h8 : |(L.sin (L.hypot (gridCoord i) (gridCoord j))).toRat|
        / (L.hypot (gridCoord i) (gridCoord j)).toRat ≤ 8 := by
      rw [div_le_iff₀ hRpos]
      linarith
    have hbig : (8 : ℚ) < 2 ^ (1023 : Int) := by
      have : (2 : ℚ) ^ (3 : Int) < 2 ^ (1023 : Int) :=
        (zpow_lt_zpow_iff_right₀ (by norm_num : (1 : ℚ) < 2)).2 (by norm_num)
      norm_num at this ⊢
    linarith
  exact (F64.div_near _ _ hsf hrf (ne_of_gt hRpos) hquot).1

theorem height_finite_iff (L : GoLib)
    (hsin : ∀ r : F64, r.isFinite = true →
      (L.sin r).isFinite = true ∧ F64.lt (F64.ofNat 2) (F64.abs (L.sin r)) = false)
    (hhyp : ∀ x y : F64, x.isFinite = true → y.isFinite = true →
      F64.lt (F64.ofNat 15) (F64.abs x) = false → F64.lt (F64.ofNat 15) (F64.abs y) = false →
      (L.hypot x y).isFinite = true ∧ F64.lt (L.hypot x y) (F64.abs x) = false ∧
        F64.lt (L.hypot x y) (F64.abs y) = false)
    (h0 : L.hypot F64.zero F64.zero = F64.zero)
    (i j : Nat) (hi : i ≤ 100) (hj : j ≤ 100) :
    (f L (gridCoord i) (gridCoord j)).isFinite = false ↔ i = 50 ∧ j = 50 := by
  constructor
  · intro h
    by_contra hne
    rw [height_finite_off_origin L hsin hhyp i j hi hj hne] at h
    exact absurd h (by simp)
  · rintro ⟨rfl, rfl⟩
    have h50 : gridCoord ((50 : Nat) : Int) = F64.zero := gridCoord_50
    rw [h50]
    exact height_not_finite_at_origin L hsin h0

theorem rejected_iff_touches_origin (L : GoLib)
    (hsin : ∀ r : F64, r.isFinite = true →
      (L.sin r).isFinite = true ∧ F64.lt (F64.ofNat 2) (F64.abs (L.sin r)) = false)
    (hhyp : ∀ x y : F64, x.isFinite = true → y.isFinite = true →
      F64.lt (F64.ofNat 15) (F64.abs x) = false → F64.lt (F64.ofNat 15) (F64.abs y) = false →
      (L.hypot x y).isFinite = true ∧ F64.lt (L.hypot x y) (F64.abs x) = false ∧
        F64.lt (L.hypot x y) (F64.abs y) = false)
    (h0 : L.hypot F64.zero F64.zero = F64.zero)
    (g : Globals) (i j : Nat) (hi : i < 100) (hj : j < 100) :
    rejected L g (i, j) = true ↔ (i = 49 ∨ i = 50) ∧ (j = 49 ∨ j = 50) := by
  have e1 : ((i : Int) + 1) = ((i + 1 : Nat) : Int) := by push_cast; rfl
  have e2 : ((j : Int) + 1) = ((j + 1 : Nat) : Int) := by push_cast; rfl
  have ha := height_finite_iff L hsin hhyp h0 (i + 1) j (by omega) (by omega)
  have hb := height_finite_iff L hsin hhyp h0 i j (by omega) (by omega)
  have hc := height_finite_iff L hsin hhyp h0 i (j + 1) (by omega) (by omega)
  have hd := height_finite_iff L hsin hhyp h0 (i + 1) (j + 1) (by omega) (by omega)
  simp only [rejected, isSomeNumberInvalid_eq_any, cornerHeights, corner_height, e1, e2,
    List.any_cons, List.any_nil, Bool.or_false, Bool.or_eq_true, Bool.not_eq_true', ha, hb, hc,
    hd]
  omega

theorem rejected_irrelevant_of_canvas (L : GoLib) (g g' : Globals) (ij : Nat × Nat) :
    rejected L g ij = rejected L g' ij := by
  simp only [rejected, cornerHeights, corner_height]

theorem four_cells_decide :
    (gridCells.filter fun ij =>
      decide ((ij.1 = 49 ∨ ij.1 = 50) ∧ (ij.2 = 49 ∨ ij.2 = 50))) =
      [(49, 49), (49, 50), (50, 49), (50, 50)] := by
  decide!

theorem crudeLib_sin (r : F64) (hr : r.isFinite = true) :
    (crudeLib.sin r).isFinite = true ∧
      F64.lt (F64.ofNat 2) (F64.abs (crudeLib.sin r)) = false := by
  obtain ⟨s, m, e, rfl⟩ := (F64.isFinite_iff r).1 hr
  have h1f : (F64.ofNat 1).isFinite = true := by decide!
  have h2f : (F64.ofNat 2).isFinite = true := by decide!
  by_cases hlt : F64.lt (F64.abs (.fin s m e)) (F64.ofNat 1) = true
  · have hval : crudeLib.sin (.fin s m e) = .fin s m e := by
      simp only [crudeLib, hlt, if_true]
    rw [hval]
    refine ⟨rfl, ?_⟩
    rw [F64.lt_false_iff (F64.ofNat 2) (F64.abs (.fin s m e)) h2f rfl, F64.toRat_ofNat_two]
    have h := (F64.lt_fin_iff false m e false 4503599627370496 (-52)).1
      (by rw [show F64.ofNat 1 = .fin false 4503599627370496 (-52) by decide!] at hlt
          exact hlt)
    have h1 : F64.toRat (.fin false 4503599627370496 (-52)) = 1 := by
      rw [← show F64.ofNat 1 = .fin false 4503599627370496 (-52) by decide!]
      exact F64.toRat_ofNat_one
    rw [h1] at h
    have : (F64.abs (.fin s m e)).toRat = F64.toRat (.fin false m e) := rfl
    rw [this]
    linarith
  · have hlt' : F64.lt (F64.abs (.fin s m e)) (F64.ofNat 1) = false := by simpa using hlt
    have hval : crudeLib.sin (.fin s m e) = .fin s 4503599627370496 (-52) := by
      simp only [crudeLib, hlt', Bool.false_eq_true, if_false]
    rw [hval]
    refine ⟨rfl, ?_⟩
    show F64.lt (F64.ofNat 2) (.fin false 4503599627370496 (-52)) = false
    decide!

theorem crudeLib_hypot (x y : F64) (hx : x.isFinite = true) (hy : y.isFinite = true) :
    (crudeLib.hypot x y).isFinite = true ∧
      F64.lt (crudeLib.hypot x y) (F64.abs x) = false ∧
      F64.lt (crudeLib.hypot x y) (F64.abs y) = false := by
  obtain ⟨s, m, e, rfl⟩ := (F64.isFinite_iff x).1 hx
  obtain ⟨t, n, k, rfl⟩ := (F64.isFinite_iff y).1 hy
  have hax : (F64.abs (.fin s m e)).isFinite = true := rfl
  have hay : (F64.abs (.fin t n k)).isFinite = true := rfl
  by_cases hlt : F64.lt (F64.abs (.fin s m e)) (F64.abs (.fin t n k)) = true
  · have hval : crudeLib.hypot (.fin s m e) (.fin t n k) = F64.abs (.fin t n k) := by
      simp only [crudeLib, hlt, if_true]
    rw [hval]
    refine ⟨rfl, ?_, ?_⟩
    · rw [F64.lt_false_iff _ _ hay hax]
      exact ((F64.lt_fin_iff false m e false n k).1 hlt).le
    · rw [F64.lt_false_iff _ _ hay hay]
  · have hlt' : F64.lt (F64.abs (.fin s m e)) (F64.abs (.fin t n k)) = false := by
      simpa using hlt
    have hval : crudeLib.hypot (.fin s m e) (.fin t n k) = F64.abs (.fin s m e) := by
      simp only [crudeLib, hlt', Bool.false_eq_true, if_false]
    rw [hval]
    refine ⟨rfl, ?_, hlt'⟩
    rw [F64.lt_false_iff _ _ hax hax]

theorem F64.tiny_le : (2 : ℚ) ^ (-1075 : Int) ≤ 1 / 2 ^ 53 := by
  have h : (2 : ℚ) ^ (-1075 : Int) ≤ 2 ^ (-53 : Int) :=
    (zpow_le_zpow_iff_right₀ (by norm_num : (1 : ℚ) < 2)).2 (by norm_num)
  have h2 : (2 : ℚ) ^ (-53 : Int) = 1 / 2 ^ 53 := by
    rw [zpow_neg, one_div, show (53 : Int) = ((53 : Nat) : Int) by norm_num, zpow_natCast]
  rw [← h2]
  exact h

theorem F64.lt_big (q : ℚ) (h : q ≤ 2 ^ 200) : q < 2 ^ (1023 : Int) := by
  have h1 : (2 : ℚ) ^ (200 : Int) < 2 ^ (1023 : Int) :=
    (zpow_lt_zpow_iff_right₀ (by norm_num : (1 : ℚ) < 2)).2 (by norm_num)
  have h2 : (2 : ℚ) ^ (200 : Int) = 2 ^ 200 := by
    rw [show (200 : Int) = ((200 : Nat) : Int) by norm_num, zpow_natCast]
  rw [h2] at h1
  exact lt_of_le_of_lt h h1

/-- One rounding of a value of magnitude at most `M` errs by at most `(M + 1) / 2^53`. -/
theorem F64.Near.err {x : F64} {v : ℚ} (h : F64.Near x v) (M : ℚ) (hM : |v| ≤ M) :
    |x.toRat - v| ≤ (M + 1) / 2 ^ 53 := by
  have h1 := h.2.1
  have h2 := F64.tiny_le
  have h3 : |v| / 2 ^ 53 ≤ M / 2 ^ 53 := div_le_div_of_nonneg_right hM (by positivity)
  have h4 : (M + 1) / 2 ^ 53 = M / 2 ^ 53 + 1 / 2 ^ 53 := by ring
  linarith

theorem abs_mul_sub_mul_le (a b A B ea eb mb mA : ℚ) (ha : |a - A| ≤ ea) (hb : |b - B| ≤ eb)
    (hmb : |b| ≤ mb) (hmA : |A| ≤ mA) : |a * b - A * B| ≤ ea * mb + mA * eb := by
  have h : a * b - A * B = (a - A) * b + A * (b - B) := by ring
  rw [h]
  have hea : 0 ≤ ea := le_trans (abs_nonneg _) ha
  have hmA0 : 0 ≤ mA := le_trans (abs_nonneg _) hmA
  calc |(a - A) * b + A * (b - B)| ≤ |(a - A) * b| + |A * (b - B)| := abs_add _ _
    _ = |a - A| * |b| + |A| * |b - B| := by rw [abs_mul, abs_mul]
    _ ≤ ea * mb + mA * eb :=
      add_le_add (mul_le_mul ha hmb (abs_nonneg _) hea) (mul_le_mul hmA hb (abs_nonneg _) hmA0)

theorem F64.toRat_xyrange : xyrange.toRat = 30 := by
  rw [show xyrange = .fin false 8444249301319680 (-48) by decide!, F64.toRat_fin]
  simp only [F64.smant, Bool.false_eq_true, if_false]
  norm_num [zpow_neg]

theorem F64.toRat_ofNat_15 : (F64.ofNat 15).toRat = 15 := by
  rw [show F64.ofNat 15 = .fin false 8444249301319680 (-49) by decide!, F64.toRat_fin]
  simp only [F64.smant, Bool.false_eq_true, if_false]
  norm_num [zpow_neg]

theorem F64.toRat_seven_eighths : (F64.ofRatio 7 8).toRat = 7 / 8 := by
  rw [show F64.ofRatio 7 8 = .fin false 7881299347898368 (-53) by decide!, F64.toRat_fin]
  simp only [F64.smant, Bool.false_eq_true, if_false]
  norm_num [zpow_neg]

theorem gridCoord_bound (i : Nat) (hi : i ≤ 100) :
    (gridCoord i).isFinite = true ∧ |(gridCoord i).toRat| ≤ 15 := by
  obtain ⟨hf, h15, _⟩ := gridCoord_facts i (List.mem_range.2 (by omega))
  refine ⟨hf, ?_⟩
  have h := (F64.lt_false_iff _ _ (by decide!) (by rw [F64.isFinite_abs]; exact hf)).1 h15
  rw [F64.toRat_abs, F64.toRat_ofNat_15] at h
  exact h

theorem abs_mul_le_mul (a b ma mb : ℚ) (ha : |a| ≤ ma) (hb : |b| ≤ mb) : |a * b| ≤ ma * mb := by
  rw [abs_mul]
  exact mul_le_mul ha hb (abs_nonneg _) (le_trans (abs_nonneg _) ha)

/-- Half of a size below `2^64`, and the scale `size / 2 / xyrange`, as the handler and
`corner` compute them: both are finite, within `3 (n + 1) / 2^53` of the exact `n / 2` and
`n / 60`, and exactly zero when the size is zero. -/
theorem half_and_scale_error (n : Nat) (hn : n < 2 ^ 64) :
    (F64.div (F64.ofNat n) (F64.ofNat 2)).isFinite = true ∧
    |(F64.div (F64.ofNat n) (F64.ofNat 2)).toRat - (n : ℚ) / 2| ≤ 3 * ((n : ℚ) + 1) / 2 ^ 53 ∧
    (F64.div (F64.div (F64.ofNat n) (F64.ofNat 2)) xyrange).isFinite = true ∧
    |(F64.div (F64.div (F64.ofNat n) (F64.ofNat 2)) xyrange).toRat - (n : ℚ) / 60|
      ≤ 3 * ((n : ℚ) + 1) / 2 ^ 53 ∧
    (n = 0 → (F64.div (F64.ofNat n) (F64.ofNat 2)).toRat = 0 ∧
      (F64.div (F64.div (F64.ofNat n) (F64.ofNat 2)) xyrange).toRat = 0) := by
  have hnq : (n : ℚ) < 2 ^ 64 := by exact_mod_cast hn
  have hn0 : (0 : ℚ) ≤ (n : ℚ) := Nat.cast_nonneg n
  have h2f : (F64.ofNat 2).isFinite = true := by decide!
  have hrf : xyrange.isFinite = true := by decide!
  have hW := F64.ofNat_near n (F64.lt_big _ (le_trans hnq.le (by norm_num)))
  have eW := hW.err (n : ℚ) (by rw [abs_of_nonneg hn0])
  rw [abs_le] at eW
  have hA := F64.div_near (F64.ofNat n) (F64.ofNat 2) hW.1 h2f
    (by rw [F64.toRat_ofNat_two]; norm_num)
    (F64.lt_big _ (by
      rw [F64.toRat_ofNat_two]
      refine abs_le.2 ⟨?_, ?_⟩ <;> norm_num at eW ⊢ <;> linarith))
  rw [F64.toRat_ofNat_two] at hA
  have eA := hA.err ((n : ℚ) + 1) (by
    refine abs_le.2 ⟨?_, ?_⟩ <;> norm_num at eW ⊢ <;> linarith)
  rw [abs_le] at eA
  have hS := F64.div_near _ xyrange hA.1 hrf
    (by rw [F64.toRat_xyrange]; norm_num)
    (F64.lt_big _ (by
      rw [F64.toRat_xyrange]
      refine abs_le.2 ⟨?_, ?_⟩ <;> norm_num at eW eA ⊢ <;> linarith))
  rw [F64.toRat_xyrange] at hS
  have eS := hS.err ((n : ℚ) + 1) (by
    refine abs_le.2 ⟨?_, ?_⟩ <;> norm_num at eW eA ⊢ <;> linarith)
  rw [abs_le] at eS
  refine ⟨hA.1, ?_, hS.1, ?_, ?_⟩
  · refine abs_le.2 ⟨?_, ?_⟩ <;> norm_num at eW eA ⊢ <;> linarith
  · refine abs_le.2 ⟨?_, ?_⟩ <;> norm_num at eW eA eS ⊢ <;> linarith
  · intro h0
    have hW0 : (F64.ofNat n).toRat = 0 := hW.2.2 (by rw [h0]; norm_num)
    have hA0 : (F64.div (F64.ofNat n) (F64.ofNat 2)).toRat = 0 :=
      hA.2.2 (by rw [hW0]; norm_num)
    exact ⟨hA0, hS.2.2 (by rw [hA0]; norm_num)⟩

/-- The middle term of a projected coordinate, `d * c * xyscale` with `d` the rounded sum or
difference of two grid coordinates, `c` a constant of magnitude at most 1 and `xyscale`
derived from a size `n` below `2^64`: it is finite, within `186 (n + 1) / 2^53` of the exact
product, and exactly zero when the size is zero. -/
theorem proj_term_error (d c : F64) (v : ℚ) (hd : F64.Near d v) (hv : |v| ≤ 30)
    (hc : c.isFinite = true) (hc1 : |c.toRat| ≤ 1) (n : Nat) (hn : n < 2 ^ 64) :
    (F64.mul (F64.mul d c) (F64.div (F64.div (F64.ofNat n) (F64.ofNat 2)) xyrange)).isFinite
      = true ∧
    |(F64.mul (F64.mul d c) (F64.div (F64.div (F64.ofNat n) (F64.ofNat 2)) xyrange)).toRat
      - v * c.toRat * ((n : ℚ) / 60)| ≤ 186 * ((n : ℚ) + 1) / 2 ^ 53 ∧
    (n = 0 →
      (F64.mul (F64.mul d c) (F64.div (F64.div (F64.ofNat n) (F64.ofNat 2)) xyrange)).toRat
        = 0) := by
  have hnq : (n : ℚ) < 2 ^ 64 := by exact_mod_cast hn
  have hn0 : (0 : ℚ) ≤ (n : ℚ) := Nat.cast_nonneg n
  obtain ⟨_, _, hSf, eS, hS0⟩ := half_and_scale_error n hn
  have eD := hd.err 30 hv
  have bD : |d.toRat| ≤ 31 := by
    rw [abs_le] at eD hv ⊢
    constructor <;> norm_num at eD ⊢ <;> linarith
  have bDC : |d.toRat * c.toRat| ≤ 31 := by
    have := abs_mul_le_mul _ _ _ _ bD hc1
    linarith
  have hU := F64.mul_near d c hd.1 hc (F64.lt_big _ (le_trans bDC (by norm_num)))
  have eU := hU.err 31 bDC
  have eDC := abs_mul_sub_mul_le d.toRat c.toRat v c.toRat _ 0 1 30 eD
    (by rw [sub_self, abs_zero]) hc1 hv
  have eU2 : |(F64.mul d c).toRat - v * c.toRat| ≤ 63 / 2 ^ 53 := by
    rw [abs_le] at eU eDC ⊢
    constructor <;> norm_num at eU eDC ⊢ <;> linarith
  have bI : |v * c.toRat| ≤ 30 := by
    have := abs_mul_le_mul _ _ _ _ hv hc1
    linarith
  have bU : |(F64.mul d c).toRat| ≤ 32 := by
    rw [abs_le] at eU2 bI ⊢
    constructor <;> norm_num at eU2 ⊢ <;> linarith
  have bS : |(F64.div (F64.div (F64.ofNat n) (F64.ofNat 2)) xyrange).toRat| ≤ (n : ℚ) + 1 := by
    rw [abs_le] at eS ⊢
    constructor <;> norm_num at eS ⊢ <;> linarith
  have bUS := abs_mul_le_mul _ _ _ _ bU bS
  have hT := F64.mul_near (F64.mul d c) _ hU.1 hSf
    (F64.lt_big _ (le_trans bUS (by norm_num; linarith)))
  have eT := hT.err _ bUS
  have eUS := abs_mul_sub_mul_le (F64.mul d c).toRat
    (F64.div (F64.div (F64.ofNat n) (F64.ofNat 2)) xyrange).toRat (v * c.toRat) ((n : ℚ) / 60)
    _ _ _ _ eU2 eS bS bI
  refine ⟨hT.1, ?_, ?_⟩
  · rw [abs_le] at eT eUS ⊢
    constructor <;> norm_num at eT eUS ⊢ <;> linarith
  · intro h0
    exact hT.2.2 (by rw [(hS0 h0).2, mul_zero])

/-- The horizontal coordinate `sx` of `corner`, for a width below `2^64`, the scale the
handler derives from it and a `cos30` of magnitude at most 1: it is finite, within
`(width + 1) / 2^45` of the exact `width/2 + (x - y) * cos30 * (width/60)`, and exactly zero
when the width is zero. -/
theorem sx_error (L : GoLib) (g : Globals) (i j : Nat) (hi : i ≤ 100) (hj : j ≤ 100)
    (hw : g.width < 2 ^ 64)
    (hxy : g.xyscale = F64.div (F64.div (F64.ofNat g.width) (F64.ofNat 2)) xyrange)
    (hc : (cos30 L).isFinite = true) (hc1 : |(cos30 L).toRat| ≤ 1) :
    (corner L g i j).1.isFinite = true ∧
    |(corner L g i j).1.toRat - ((g.width : ℚ) / 2 +
        ((gridCoord i).toRat - (gridCoord j).toRat) * (cos30 L).toRat * ((g.width : ℚ) / 60))|
      ≤ ((g.width : ℚ) + 1) / 2 ^ 45 ∧
    (g.width = 0 → (corner L g i j).1.toRat = 0) := by
  have hnq : (g.width : ℚ) < 2 ^ 64 := by exact_mod_cast hw
  have hn0 : (0 : ℚ) ≤ (g.width : ℚ) := Nat.cast_nonneg _
  obtain ⟨hxf, hx⟩ := gridCoord_bound i hi
  obtain ⟨hyf, hy⟩ := gridCoord_bound j hj
  have bXY : |(gridCoord i).toRat - (gridCoord j).toRat| ≤ 30 := by
    rw [abs_le] at hx hy ⊢
    constructor <;> linarith
  have hD := F64.sub_near _ _ hxf hyf (F64.lt_big _ (le_trans bXY (by norm_num)))
  obtain ⟨hAf, eA, _, _, hA0⟩ := half_and_scale_error g.width hw
  obtain ⟨hTf, eT, hT0⟩ := proj_term_error _ (cos30 L) _ hD bXY hc hc1 g.width hw
  have bI := abs_mul_le_mul _ _ _ _ (abs_mul_le_mul _ _ _ _ bXY hc1)
    (show |(g.width : ℚ) / 60| ≤ (g.width : ℚ) / 60 by rw [abs_of_nonneg (by positivity)])
  have bAT : |(F64.div (F64.ofNat g.width) (F64.ofNat 2)).toRat +
      (F64.mul (F64.mul (F64.sub (gridCoord i) (gridCoord j)) (cos30 L))
        (F64.div (F64.div (F64.ofNat g.width) (F64.ofNat 2)) xyrange)).toRat|
      ≤ 2 * ((g.width : ℚ) + 1) := by
    rw [abs_le] at eA eT bI ⊢
    constructor <;> norm_num at eA eT bI ⊢ <;> linarith
  have hX := F64.add_near _ _ hAf hTf (F64.lt_big _ (le_trans bAT (by norm_num; linarith)))
  have eX := hX.err _ bAT
  have hsx : (corner L g i j).1 = F64.add (F64.div (F64.ofNat g.width) (F64.ofNat 2))
      (F64.mul (F64.mul (F64.sub (gridCoord i) (gridCoord j)) (cos30 L))
        (F64.div (F64.div (F64.ofNat g.width) (F64.ofNat 2)) xyrange)) := by
    simp only [corner, hxy]
  rw [hsx]
  refine ⟨hX.1, ?_, ?_⟩
  · rw [abs_le] at eA eT eX ⊢
    constructor <;> norm_num at eA eT eX ⊢ <;> linarith
  · intro h0
    exact hX.2.2 (by rw [(hA0 h0).1, hT0 h0, add_zero])

theorem F64.toRat_four_tenths :
    (F64.ofRatio 4 10).toRat = 3602879701896397 / 9007199254740992 := by
  rw [show F64.ofRatio 4 10 = .fin false 7205759403792794 (-54) by decide!, F64.toRat_fin]
  simp only [F64.smant, Bool.false_eq_true, if_false]
  norm_num [zpow_neg]

theorem F64.toRat_ofNat_16 : (F64.ofNat 16).toRat = 16 := by
  rw [show F64.ofNat 16 = .fin false 4503599627370496 (-48) by decide!, F64.toRat_fin]
  simp only [F64.smant, Bool.false_eq_true, if_false]
  norm_num [zpow_neg]

theorem F64.abs_le_of_lt_false (b x : F64) (hb : b.isFinite = true) (hx : x.isFinite = true)
    (h : F64.lt b (F64.abs x) = false) : |x.toRat| ≤ b.toRat := by
  have h1 := (F64.lt_false_iff _ _ hb (by rw [F64.isFinite_abs]; exact hx)).1 h
  rwa [F64.toRat_abs] at h1

/-- The scale `zscale = height * 0.4` the handler derives from a height below `2^64`, and
the term `z * zscale` of `corner` for a finite height `z` of magnitude at most 16: both are
finite, and the term is within `65 (n + 1) / 2^53` of the exact product. -/
theorem height_term_error (z : F64) (hz : z.isFinite = true) (hz16 : |z.toRat| ≤ 16)
    (n : Nat) (hn : n < 2 ^ 64) :
    (F64.mul z (F64.mul (F64.ofNat n) (F64.ofRatio 4 10))).isFinite = true ∧
    |(F64.mul z (F64.mul (F64.ofNat n) (F64.ofRatio 4 10))).toRat
      - z.toRat * ((n : ℚ) * (F64.ofRatio 4 10).toRat)| ≤ 65 * ((n : ℚ) + 1) / 2 ^ 53 ∧
    |z.toRat * ((n : ℚ) * (F64.ofRatio 4 10).toRat)| ≤ 8 * (n : ℚ) := by
  have hnq : (n : ℚ) < 2 ^ 64 := by exact_mod_cast hn
  have hn0 : (0 : ℚ) ≤ (n : ℚ) := Nat.cast_nonneg n
  have hqf : (F64.ofRatio 4 10).isFinite = true := by decide!
  have hW := F64.ofNat_near n (F64.lt_big _ (le_trans hnq.le (by norm_num)))
  have eW := hW.err (n : ℚ) (by rw [abs_of_nonneg hn0])
  have bW : |(F64.ofNat n).toRat| ≤ 2 * (n : ℚ) + 1 := by
    rw [abs_le] at eW ⊢
    constructor <;> norm_num at eW ⊢ <;> linarith
  have bq : |(F64.ofRatio 4 10).toRat| ≤ 1 / 2 := by
    rw [F64.toRat_four_tenths, abs_of_pos (by norm_num)]
    norm_num
  have bWq := abs_mul_le_mul _ _ _ _ bW bq
  have hZS := F64.mul_near (F64.ofNat n) (F64.ofRatio 4 10) hW.1 hqf
    (F64.lt_big _ (le_trans bWq (by norm_num; linarith)))
  have eZS := hZS.err _ bWq
  have eWq := abs_mul_sub_mul_le (F64.ofNat n).toRat (F64.ofRatio 4 10).toRat (n : ℚ)
    (F64.ofRatio 4 10).toRat _ 0 _ _ eW (by rw [sub_self, abs_zero]) bq
    (le_of_eq (abs_of_nonneg hn0))
  have eZS2 : |(F64.mul (F64.ofNat n) (F64.ofRatio 4 10)).toRat
      - (n : ℚ) * (F64.ofRatio 4 10).toRat| ≤ 3 * ((n : ℚ) + 1) / 2 ^ 53 := by
    rw [abs_le] at eZS eWq ⊢
    constructor <;> norm_num at eZS eWq ⊢ <;> linarith
  have bnq : |(n : ℚ) * (F64.ofRatio 4 10).toRat| ≤ (n : ℚ) * (1 / 2) :=
    abs_mul_le_mul _ _ _ _ (le_of_eq (abs_of_nonneg hn0)) bq
  have bZS : |(F64.mul (F64.ofNat n) (F64.ofRatio 4 10)).toRat| ≤ (n : ℚ) + 1 := by
    rw [abs_le] at eZS2 bnq ⊢
    constructor <;> norm_num at eZS2 bnq ⊢ <;> linarith
  have bQ := abs_mul_le_mul _ _ _ _ hz16 bZS
  have hQ := F64.mul_near z _ hz hZS.1 (F64.lt_big _ (le_trans bQ (by norm_num; linarith)))
  have eQ := hQ.err _ bQ
  have eQ2 := abs_mul_sub_mul_le z.toRat (F64.mul (F64.ofNat n) (F64.ofRatio 4 10)).toRat
    z.toRat ((n : ℚ) * (F64.ofRatio 4 10).toRat) 0 _ _ _ (by rw [sub_self, abs_zero]) eZS2
    bZS hz16
  have bI := abs_mul_le_mul _ _ _ _ hz16 bnq
  refine ⟨hQ.1, ?_, ?_⟩
  · rw [abs_le] at eQ eQ2 ⊢
    constructor <;> norm_num at eQ eQ2 ⊢ <;> linarith
  · linarith

/-- The vertical coordinate `sy` of `corner`, for a width and a height below `2^64`, the
scales the handler derives from them, a `sin30` of magnitude at most 1 and a finite height
`z` of magnitude at most 16: it is finite and within `(width + height + 1) / 2^44` of the
exact `height/2 + (x + y) * sin30 * (width/60) - z * (height * c)`, where `c` is the
`float64` nearest to 0.4. -/
theorem sy_error (L : GoLib) (g : Globals) (i j : Nat) (hi : i ≤ 100) (hj : j ≤ 100)
    (hw : g.width < 2 ^ 64) (hh : g.height < 2 ^ 64)
    (hxy : g.xyscale = F64.div (F64.div (F64.ofNat g.width) (F64.ofNat 2)) xyrange)
    (hzs : g.zscale = F64.mul (F64.ofNat g.height) (F64.ofRatio 4 10))
    (hs : (sin30 L).isFinite = true) (hs1 : |(sin30 L).toRat| ≤ 1)
    (hz : (f L (gridCoord i) (gridCoord j)).isFinite = true)
    (hz16 : |(f L (gridCoord i) (gridCoord j)).toRat| ≤ 16) :
    (corner L g i j).2.1.isFinite = true ∧
    |(corner L g i j).2.1.toRat - ((g.height : ℚ) / 2 +
        ((gridCoord i).toRat + (gridCoord j).toRat) * (sin30 L).toRat * ((g.width : ℚ) / 60)
        - (f L (gridCoord i) (gridCoord j)).toRat
          * ((g.height : ℚ) * (F64.ofRatio 4 10).toRat))|
      ≤ ((g.width : ℚ) + (g.height : ℚ) + 1) / 2 ^ 44 := by
  have hwq : (g.width : ℚ) < 2 ^ 64 := by exact_mod_cast hw
  have hhq : (g.height : ℚ) < 2 ^ 64 := by exact_mod_cast hh
  have hw0 : (0 : ℚ) ≤ (g.width : ℚ) := Nat.cast_nonneg _
  have hh0 : (0 : ℚ) ≤ (g.height : ℚ) := Nat.cast_nonneg _
  obtain ⟨hxf, hx⟩ := gridCoord_bound i hi
  obtain ⟨hyf, hy⟩ := gridCoord_bound j hj
  have bXY : |(gridCoord i).toRat + (gridCoord j).toRat| ≤ 30 := by
    rw [abs_le] at hx hy ⊢
    constructor <;> linarith
  have hD := F64.add_near _ _ hxf hyf (F64.lt_big _ (le_trans bXY (by norm_num)))
  obtain ⟨hBf, eB, _, _, _⟩ := half_and_scale_error g.height hh
  obtain ⟨hTf, eT, _⟩ := proj_term_error _ (sin30 L) _ hD bXY hs hs1 g.width hw
  obtain ⟨hQf, eQ, bQ⟩ := height_term_error _ hz hz16 g.height hh
  have bI := abs_mul_le_mul _ _ _ _ (abs_mul_le_mul _ _ _ _ bXY hs1)
    (show |(g.width : ℚ) / 60| ≤ (g.width : ℚ) / 60 by rw [abs_of_nonneg (by positivity)])
  have bBT : |(F64.div (F64.ofNat g.height) (F64.ofNat 2)).toRat +
      (F64.mul (F64.mul (F64.add (gridCoord i) (gridCoord j)) (sin30 L))
        (F64.div (F64.div (F64.ofNat g.width) (F64.ofNat 2)) xyrange)).toRat|
      ≤ (g.width : ℚ) + (g.height : ℚ) + 2 := by
    rw [abs_le] at eB eT bI ⊢
    constructor <;> norm_num at eB eT bI ⊢ <;> linarith
  have hP := F64.add_near _ _ hBf hTf (F64.lt_big _ (le_trans bBT (by norm_num; linarith)))
  have eP := hP.err _ bBT
  have bP : |(F64.add (F64.div (F64.ofNat g.height) (F64.ofNat 2))
      (F64.mul (F64.mul (F64.add (gridCoord i) (gridCoord j)) (sin30 L))
        (F64.div (F64.div (F64.ofNat g.width) (F64.ofNat 2)) xyrange))).toRat|
      ≤ 2 * ((g.width : ℚ) + (g.height : ℚ) + 2) := by
    rw [abs_le] at eP bBT ⊢
    constructor <;> norm_num at eP bBT ⊢ <;> linarith
  have bPQ : |(F64.add (F64.div (F64.ofNat g.height) (F64.ofNat 2))
      (F64.mul (F64.mul (F64.add (gridCoord i) (gridCoord j)) (sin30 L))
        (F64.div (F64.div (F64.ofNat g.width) (F64.ofNat 2)) xyrange))).toRat
      - (F64.mul (f L (gridCoord i) (gridCoord j))
        (F64.mul (F64.ofNat g.height) (F64.ofRatio 4 10))).toRat|
      ≤ 2 * (g.width : ℚ) + 11 * (g.height : ℚ) + 5 := by
    rw [abs_le] at bP eQ bQ ⊢
    constructor <;> norm_num at bP eQ bQ ⊢ <;> linarith
  have hY := F64.sub_near _ _ hP.1 hQf (F64.lt_big _ (le_trans bPQ (by norm_num; linarith)))
  have eY := hY.err _ bPQ
  have hsy : (corner L g i j).2.1 = F64.sub
      (F64.add (F64.div (F64.ofNat g.height) (F64.ofNat 2))
        (F64.mul (F64.mul (F64.add (gridCoord i) (gridCoord j)) (sin30 L))
          (F64.div (F64.div (F64.ofNat g.width) (F64.ofNat 2)) xyrange)))
      (F64.mul (f L (gridCoord i) (gridCoord j))
        (F64.mul (F64.ofNat g.height) (F64.ofRatio 4 10))) := by
    simp only [corner, hxy, hzs]
  rw [hsy]
  refine ⟨hY.1, ?_⟩
  rw [abs_le] at eB eT eP eQ eY ⊢
  constructor <;> norm_num at eB eT eP eQ eY ⊢ <;> linarith

theorem stepN_add (L : GoLib) (a b : Nat) (s : Globals × Run) :
    stepN L (a + b) s = stepN L b (stepN L a s) := by
  induction a generalizing s with
  | zero => simp [stepN]
  | succ a ih => rw [Nat.succ_add]; simp only [stepN]; exact ih _

/-- The four assignments of a run executed in a row are the assignments of the handler. -/
theorem stepN_assign (L : GoLib) (g : Globals) (form : Form) :
    stepN L 4 (g, Run.enter form) = (setGlobals g form, ⟨form, .atOpen, [], false⟩) := rfl

/-- The loops of a run executed in a row, on package variables that stay as they are. -/
theorem stepN_cells (L : GoLib) (g : Globals) (form : Form) (cs : List (Nat × Nat))
    (o : List String) :
    stepN L (cs.length + 1) (g, ⟨form, .atCell cs, o, false⟩) =
      (g, ⟨form, .returned,
        o ++ ((cs.flatMap (cellPolygons L g)).map (Polygon.render L) ++ ["</svg>\n"]), false⟩) := by
  induction cs generalizing o with
  | nil => simp [stepN, Run.step]
  | cons ij rest ih =>
    have h := cell_ne_none L g ij.1 ij.2
    cases hc : cell L g ij.1 ij.2 with
    | none => exact absurd hc h
    | some p =>
      have hs : Run.step L g ⟨form, .atCell (ij :: rest), o, false⟩
          = (g, ⟨form, .atCell rest, o ++ p.toList.map (Polygon.render L), false⟩) := by
        simp only [Run.step, hc]
      show stepN L (rest.length + 1) (Run.step L g ⟨form, .atCell (ij :: rest), o, false⟩) = _
      rw [hs, ih]
      cases p <;> simp [cellPolygons, hc]

/-- The statements of `buildSurface` executed in a row. -/
theorem stepN_build (L : GoLib) (g : Globals) (form : Form) :
    stepN L (1 + cells * cells + 1) (g, ⟨form, .atOpen, [], false⟩) =
      (g, ⟨form, .returned,
        svgOpen g :: ((gridCells.flatMap (cellPolygons L g)).map (Polygon.render L)
          ++ ["</svg>\n"]), false⟩) := by
  rw [Nat.add_assoc, stepN_add]
  have h1 : stepN L 1 (g, (⟨form, .atOpen, [], false⟩ : Run))
      = (g, ⟨form, .atCell gridCells, [svgOpen g], false⟩) := rfl
  rw [h1, ← gridCells_length, stepN_cells]
  rfl

/-- A run executed from its first to its last statement in a row is the handler. -/
theorem stepN_run (L : GoLib) (g : Globals) (form : Form) :
    ∃ body, stepN L runLength (g, Run.enter form)
        = ((handler L g form).1, ⟨form, .returned, body, false⟩) ∧
      (handler L g form).2 = some ⟨"image/svg+xml", body⟩ := by
  refine ⟨svgOpen (setGlobals g form) ::
    ((gridCells.flatMap (cellPolygons L (setGlobals g form))).map (Polygon.render L)
      ++ ["</svg>\n"]), ?_, ?_⟩
  · have hl : runLength = 4 + (1 + cells * cells + 1) := by simp [runLength]; ring
    rw [hl, stepN_add, stepN_assign, stepN_build]
    rfl
  · simp only [handler, buildSurface_eq, Option.map_some', List.cons_append]

theorem handler_eq_of_heads (L : GoLib) (g g' : Globals) (form form' : Form)
    (hw : (form'.values "width").head? = (form.values "width").head?)
    (hh : (form'.values "height").head? = (form.values "height").head?) :
    handler L g' form' = handler L g form := by
  have hg : setGlobals g' form' = setGlobals g form := by
    rw [setGlobals_eq, setGlobals_eq, resolve_head form form' _ _ hw,
      resolve_head form form' _ _ hh]
  simp only [handler, hg]

theorem set_eq_self_of_getElem? {α : Type} (l : List α) (k : Nat) (r : α)
    (h : l[k]? = some r) : l.set k r = l := by
  apply List.ext_getElem?
  intro j
  rw [List.getElem?_set]
  by_cases hkj : k = j
  · subst hkj
    obtain ⟨hlt, _⟩ := List.getElem?_eq_some_iff.1 h
    simp [hlt, h]
  · simp [hkj]

theorem serve_append (L : GoLib) (a b : List Nat) (s : Globals × List Run) :
    serve L (a ++ b) s = serve L b (serve L a s) := by
  induction a generalizing s with
  | nil => rfl
  | cons k ks ih =>
    simp only [List.cons_append, serve]
    cases s.2[k]? with
    | none => exact ih _
    | some r => exact ih _

/-- A run the schedule does not name stays as it is. -/
theorem serve_untouched (L : GoLib) (sched : List Nat) (k : Nat) (hk : k ∉ sched)
    (s : Globals × List Run) : (serve L sched s).2[k]? = s.2[k]? := by
  induction sched generalizing s with
  | nil => rfl
  | cons n ns ih =>
    have hn : n ≠ k := fun h => hk (h ▸ List.mem_cons_self _ _)
    have hns : k ∉ ns := fun h => hk (List.mem_cons_of_mem _ h)
    simp only [serve]
    cases hr : s.2[n]? with
    | none => exact ih hns _
    | some r =>
      simp only []
      rw [ih hns]
      exact List.getElem?_set_ne hn

/-- A run that has returned stays as it is, whatever runs afterwards. -/
theorem serve_returned (L : GoLib) (sched : List Nat) (k : Nat) (r : Run)
    (hpc : r.pc = .returned) (s : Globals × List Run) (hr : s.2[k]? = some r) :
    (serve L sched s).2[k]? = some r := by
  induction sched generalizing s with
  | nil => exact hr
  | cons n ns ih =>
    simp only [serve]
    cases hn : s.2[n]? with
    | none => exact ih _ hr
    | some q =>
      simp only []
      apply ih
      by_cases hnk : n = k
      · subst hnk
        rw [hr] at hn
        cases hn
        have hstep : (Run.step L s.1 r).2 = r := by
          simp only [Run.step, hpc]
        rw [hstep]
        show (s.2.set n r)[n]? = some r
        obtain ⟨hlt, _⟩ := List.getElem?_eq_some_iff.1 hr
        rw [List.getElem?_set_eq_of_lt _ hlt]
      · show (s.2.set n (Run.step L s.1 q).2)[k]? = some r
        rw [List.getElem?_set_ne hnk]
        exact hr

/-- The same run named `n` times in a row executes `n` of its statements. -/
theorem serve_replicate (L : GoLib) (n k : Nat) (g : Globals) (rs : List Run) (r : Run)
    (hr : rs[k]? = some r) :
    serve L (List.replicate n k) (g, rs) =
      ((stepN L n (g, r)).1, rs.set k (stepN L n (g, r)).2) := by
  induction n generalizing g rs r with
  | zero =>
    simp only [List.replicate, serve, stepN]
    congr 1
    exact (set_eq_self_of_getElem? rs k r hr).symm
  | succ n ih =>
    obtain ⟨hlt, _⟩ := List.getElem?_eq_some_iff.1 hr
    simp only [List.replicate_succ, serve, hr, stepN]
    rw [ih _ _ (Run.step L g r).2 (List.getElem?_set_eq_of_lt _ hlt), List.set_set]

/-- The response of a run whose `buildSurface` part ran in a row on the package variables
`g`. -/
theorem response_build (L : GoLib) (g : Globals) (form : Form) :
    Run.response (stepN L (1 + cells * cells + 1) (g, ⟨form, .atOpen, [], false⟩)).2 =
      some ((buildSurface L g).map fun body => ⟨"image/svg+xml", body⟩) := by
  rw [stepN_build, buildSurface_eq]
  rfl

theorem stepN_build_fst (L : GoLib) (g : Globals) (form : Form) :
    (stepN L (1 + cells * cells + 1) (g, ⟨form, .atOpen, [], false⟩)).1 = g := by
  rw [stepN_build]

theorem flatMap_range_rowMajor (b : Nat) (hb : 0 < b) (a : Nat) :
    ((List.range a).flatMap fun i => (List.range b).map fun j => (i, j)) =
      (List.range (a * b)).map fun n => (n / b, n % b) := by
  induction a with
  | zero => simp
  | succ a ih =>
    rw [List.range_succ, List.flatMap_append, ih, Nat.succ_mul, List.range_add, List.map_append,
      List.map_map]
    congr 1
    simp only [List.flatMap_cons, List.flatMap_nil, List.append_nil]
    apply List.map_congr_left
    intro j hj
    have hj' : j < b := List.mem_range.1 hj
    simp only [Function.comp_apply, Prod.mk.injEq]
    constructor
    · rw [Nat.mul_comm a b, Nat.mul_add_div hb, Nat.div_eq_of_lt hj', Nat.add_zero]
    · rw [Nat.mul_comm a b, Nat.mul_add_mod, Nat.mod_eq_of_lt hj']

/-- The traversal visits cell `(n / 100, n % 100)` at position `n`, for `n` from `0` to
`9999`. -/
theorem gridCells_rowMajor :
    gridCells = (List.range 10000).map fun n => (n / 100, n % 100) :=
  flatMap_range_rowMajor 100 (by norm_num) 100

theorem cell_of_rejected (L : GoLib) (g : Globals) (ij : Nat × Nat)
    (h : rejected L g ij = true) : cell L g ij.1 ij.2 = some none := by
  rw [cell_eq]
  simp only [rejected] at h
  simp only [h, if_true]

/-! ## The claims -/

/-- C1 (evaluation of the code): for the default request and for `width=1000&height=1000`
the first string `buildSurface` writes is an opening `svg` tag that declares `width` but
spells the second attribute `hight`; no `height` attribute occurs in it. -/
theorem svgOpen_declares_hight_not_height :
    (∀ (L : GoLib) (g : Globals), ∃ rest, buildSurface L g = some (svgOpen g :: rest)) ∧
    svgOpen (setGlobals Globals.init []) =
      "<svg xmlns='http://www.w3.org/2000/svg' style='stroke: grey; fill: white; stroke-width: 0.7' width='600' hight='320'>" ∧
    occursIn " height=" (svgOpen (setGlobals Globals.init [])) = false ∧
    svgOpen (setGlobals Globals.init [("width", "1000"), ("height", "1000")]) =
      "<svg xmlns='http://www.w3.org/2000/svg' style='stroke: grey; fill: white; stroke-width: 0.7' width='1000' hight='1000'>" ∧
    occursIn " height="
      (svgOpen (setGlobals Globals.init [("width", "1000"), ("height", "1000")])) = false := by
  refine ⟨fun L g => ⟨_, buildSurface_eq L g⟩, ?_, ?_, ?_, ?_⟩ <;> decide!

/-- C2: the document `buildSurface` writes is the opening tag, then for each cell of the
grid in turn the polygons of that cell, then the closing tag; and for every cell `(i, j)`
with `i, j < cells` and every value of the package variables the cell is visited and
contributes exactly one polygon when its four corner heights are all finite and none when
one of them is NaN or an infinity. -/
theorem one_polygon_per_finite_cell (L : GoLib) (g : Globals) :
    buildSurface L g =
      some (svgOpen g :: (gridCells.flatMap (cellPolygons L g)).map (Polygon.render L) ++
        ["</svg>\n"]) ∧
    ∀ i j : Nat, i < cells → j < cells →
      (i, j) ∈ gridCells ∧
      ((∀ z ∈ cornerHeights L g i j, ∃ s m e, z = F64.fin s m e) →
        (cellPolygons L g (i, j)).length = 1) ∧
      ((∃ z ∈ cornerHeights L g i j, z = F64.nan ∨ z = F64.inf false ∨ z = F64.inf true) →
        (cellPolygons L g (i, j)).length = 0) := by
  refine ⟨buildSurface_eq L g, fun i j hi hj => ⟨(mem_gridCells i j).2 ⟨hi, hj⟩, ?_, ?_⟩⟩
  · intro h
    rw [cellPolygons_length]
    have hr : rejected L g (i, j) = false := by
      simp only [rejected, isSomeNumberInvalid_eq_any, List.any_eq_false]
      intro z hz
      obtain ⟨s, m, e, rfl⟩ := h z hz
      simp [F64.isFinite]
    simp [hr]
  · rintro ⟨z, hz, hbad⟩
    rw [cellPolygons_length]
    have hr : rejected L g (i, j) = true := by
      simp only [rejected, isSomeNumberInvalid_eq_any, List.any_eq_true]
      refine ⟨z, hz, ?_⟩
      rcases hbad with rfl | rfl | rfl <;> rfl
    simp [hr]

/-- C3 (counterexample): with the reference library and the request `height=1`, cell
`(0, 0)` is written with `maxZ > 0`, so the rule as stated would need a red channel above
zero; the red channel written is `0`. -/
theorem sign_rule_fails_at_height_one :
    ¬ ∀ p : Polygon,
      cell refLib (setGlobals Globals.init [("height", "1")]) 0 0 = some (some p) →
      F64.gt (maxZOf refLib (setGlobals Globals.init [("height", "1")]) 0 0) F64.zero = true →
      p.blueValue = 0 ∧ 0 < p.redValue := by
  intro h
  have hinv : isSomeNumberInvalid
      (cornerHeights refLib (setGlobals Globals.init [("height", "1")]) 0 0) = false := by
    decide!
  have hcell := cell_eq refLib (setGlobals Globals.init [("height", "1")]) 0 0
  rw [hinv] at hcell
  simp only [Bool.false_eq_true, if_false] at hcell
  have hgt : F64.gt (maxZOf refLib (setGlobals Globals.init [("height", "1")]) 0 0) F64.zero
      = true := by decide!
  obtain ⟨p, hp⟩ : ∃ p, cell refLib (setGlobals Globals.init [("height", "1")]) 0 0
      = some (some p) := ⟨_, hcell⟩
  have hred := (h p hp hgt).2
  have hzero : (fillColour refLib
      (maxZOf refLib (setGlobals Globals.init [("height", "1")]) 0 0)).1 = 0 := by decide!
  rw [(cell_colour _ _ _ _ p hp).1, hzero] at hred
  exact lt_irrefl _ hred

/-- C3 (amended): for every polygon written for a cell, with `maxZ` the maximum of the four
corner heights times `zscale`: if `maxZ > 0` the blue channel is `0` and the red channel is
`int(maxZ * 25)`, which, when `maxZ * 25` is in the range of `int`, is not negative and is
above `0` exactly when `maxZ * 25 < 1` fails; if `maxZ < 0` the red channel is `0` and the
blue channel is `int(|maxZ| * 25)` with the same two properties; otherwise both are `0`. -/
theorem fill_colour_truncates (L : GoLib) (g : Globals) (i j : Int) (p : Polygon)
    (h : cell L g i j = some (some p)) :
    (F64.gt (maxZOf L g i j) F64.zero = true →
      p.blueValue = 0 ∧
      p.redValue = toInt L (F64.mul (maxZOf L g i j) (F64.ofNat 25)) ∧
      (F64.fitsInt (F64.mul (maxZOf L g i j) (F64.ofNat 25)) = true →
        0 ≤ p.redValue ∧
        (0 < p.redValue ↔
          F64.lt (F64.mul (maxZOf L g i j) (F64.ofNat 25)) (F64.ofNat 1) = false))) ∧
    (F64.lt (maxZOf L g i j) F64.zero = true →
      p.redValue = 0 ∧
      p.blueValue = toInt L (F64.mul (F64.abs (maxZOf L g i j)) (F64.ofNat 25)) ∧
      (F64.fitsInt (F64.mul (F64.abs (maxZOf L g i j)) (F64.ofNat 25)) = true →
        0 ≤ p.blueValue ∧
        (0 < p.blueValue ↔
          F64.lt (F64.mul (F64.abs (maxZOf L g i j)) (F64.ofNat 25)) (F64.ofNat 1) = false))) ∧
    (F64.gt (maxZOf L g i j) F64.zero = false → F64.lt (maxZOf L g i j) F64.zero = false →
      p.redValue = 0 ∧ p.blueValue = 0) := by
  obtain ⟨hr, hb⟩ := cell_colour L g i j p h
  refine ⟨fun hgt => ?_, fun hlt => ?_, fun hgt hlt => ?_⟩
  · have hlt := F64.lt_zero_of_gt_zero _ hgt
    have hred : p.redValue = toInt L (F64.mul (maxZOf L g i j) (F64.ofNat 25)) := by
      rw [hr]; simp [fillColour, hlt, hgt]
    refine ⟨by rw [hb]; simp [fillColour, hlt, hgt], hred, fun hfit => ?_⟩
    rw [hred]
    exact toInt_of_signClear L _
      (F64.mul_25_signClear _ (F64.signClear_of_gt_zero _ hgt)) hfit
  · have hblue : p.blueValue
        = toInt L (F64.mul (F64.abs (maxZOf L g i j)) (F64.ofNat 25)) := by
      rw [hb]; simp [fillColour, hlt]
    refine ⟨by rw [hr]; simp [fillColour, hlt], hblue, fun hfit => ?_⟩
    rw [hblue]
    exact toInt_of_signClear L _
      (F64.mul_25_signClear _ (F64.signClear_abs_of_lt_zero _ hlt)) hfit
  · rw [hr, hb]; simp [fillColour, hlt, hgt]

/-- C3 (witness): the amended rule at cell `(0, 0)` of the default request with the
reference library, whose polygon has red `143` and blue `0`. -/
theorem fill_colour_truncates_witness :
    cell refLib (setGlobals Globals.init []) 0 0 =
      some (some ⟨143, 0, .fin false 5323361653392499 (-44), .fin false 7214844953430715 (-50),
        .fin false 5277655813324800 (-44), .fin false 6491095685816720 (-50),
        .fin false 5231949973257101 (-44), .fin false 7214844953430715 (-50),
        .fin false 5277655813324800 (-44), .fin false 8169989470718964 (-50)⟩) ∧
    F64.gt (maxZOf refLib (setGlobals Globals.init []) 0 0) F64.zero = true ∧
    (143 : Int) = toInt refLib
      (F64.mul (maxZOf refLib (setGlobals Globals.init []) 0 0) (F64.ofNat 25)) := by
  have hc : cell refLib (setGlobals Globals.init []) 0 0 =
      some (some ⟨143, 0, .fin false 5323361653392499 (-44), .fin false 7214844953430715 (-50),
        .fin false 5277655813324800 (-44), .fin false 6491095685816720 (-50),
        .fin false 5231949973257101 (-44), .fin false 7214844953430715 (-50),
        .fin false 5277655813324800 (-44), .fin false 8169989470718964 (-50)⟩) := by decide!
  have hgt : F64.gt (maxZOf refLib (setGlobals Globals.init []) 0 0) F64.zero = true := by
    decide!
  exact ⟨hc, hgt,
    ((fill_colour_truncates refLib (setGlobals Globals.init []) 0 0 _ hc).1 hgt).2.1⟩

/-- C4: the width the handler resolves is `600` when the form has no `width`, the number
`n` when the first `width` value is the base-10 text of an unsigned 64-bit integer `n`, and
`600` when that value is no such text; the height likewise from `height` with `320`; each
depends on the first value of its own parameter only, whatever the other parameter and the
package variables on entry are. The requests `width=abc`, `width=-5` and
`width=18446744073709551616` (with `height=200`) resolve to width `600`, height as given. -/
theorem width_height_resolved_independently (L : GoLib) (g : Globals) (form : Form) :
    (form.values "width" = [] → (handler L g form).1.width = 600) ∧
    (∀ v rest n, form.values "width" = v :: rest → IsUint64Text v n →
      (handler L g form).1.width = n) ∧
    (∀ v rest, form.values "width" = v :: rest → (¬ ∃ n, IsUint64Text v n) →
      (handler L g form).1.width = 600) ∧
    (form.values "height" = [] → (handler L g form).1.height = 320) ∧
    (∀ v rest n, form.values "height" = v :: rest → IsUint64Text v n →
      (handler L g form).1.height = n) ∧
    (∀ v rest, form.values "height" = v :: rest → (¬ ∃ n, IsUint64Text v n) →
      (handler L g form).1.height = 320) ∧
    (∀ (g' : Globals) (form' : Form),
      (form'.values "width").head? = (form.values "width").head? →
      (handler L g' form').1.width = (handler L g form).1.width) ∧
    (∀ (g' : Globals) (form' : Form),
      (form'.values "height").head? = (form.values "height").head? →
      (handler L g' form').1.height = (handler L g form).1.height) ∧
    ((handler L g [("width", "abc")]).1.width = 600 ∧
      (handler L g [("width", "abc")]).1.height = 320) ∧
    ((handler L g [("width", "-5"), ("height", "200")]).1.width = 600 ∧
      (handler L g [("width", "-5"), ("height", "200")]).1.height = 200) ∧
    ((handler L g [("width", "18446744073709551616"), ("height", "200")]).1.width = 600 ∧
      (handler L g [("width", "18446744073709551616"), ("height", "200")]).1.height = 200) ∧
    ((handler L g [("height", "x"), ("width", "1000"), ("width", "7")]).1.width = 1000 ∧
      (handler L g [("height", "x"), ("width", "1000"), ("width", "7")]).1.height = 320) := by
  refine ⟨fun h => resolve_absent form _ _ h, fun v rest n h hv => resolve_parsed form _ _ v rest n h hv,
    fun v rest h hv => resolve_malformed form _ _ v rest h hv,
    fun h => resolve_absent form _ _ h, fun v rest n h hv => resolve_parsed form _ _ v rest n h hv,
    fun v rest h hv => resolve_malformed form _ _ v rest h hv,
    fun g' form' h => resolve_head form form' _ _ h,
    fun g' form' h => resolve_head form form' _ _ h,
    ?_, ?_, ?_, ?_⟩ <;>
  exact ⟨by rw [handler_width]; decide, by rw [handler_height]; decide⟩

/-- C5 (counterexample): the request `width=0&height=0` resolves to width `0` and height
`0`: the values are not positive and are not replaced by the defaults. -/
theorem zero_size_is_kept :
    (handler refLib Globals.init [("width", "0"), ("height", "0")]).1.width = 0 ∧
    (handler refLib Globals.init [("width", "0"), ("height", "0")]).1.height = 0 ∧
    ¬ (0 < (handler refLib Globals.init [("width", "0"), ("height", "0")]).1.width ∧
       0 < (handler refLib Globals.init [("width", "0"), ("height", "0")]).1.height) := by
  decide

/-- C5 (amended): the width and the height the handler resolves are unsigned 64-bit
integers; each is `0` exactly when the first value of its parameter is a decimal text of
value `0`, which is kept and not replaced, and is positive otherwise; a value that is absent
or is not the text of an unsigned 64-bit integer is replaced by the default, `600` or
`320`. -/
theorem resolved_size_is_uint64 (L : GoLib) (g : Globals) (form : Form) :
    (handler L g form).1.width < 2 ^ 64 ∧ (handler L g form).1.height < 2 ^ 64 ∧
    ((handler L g form).1.width = 0 ↔
      ∃ v rest, form.values "width" = v :: rest ∧ IsUint64Text v 0) ∧
    ((handler L g form).1.height = 0 ↔
      ∃ v rest, form.values "height" = v :: rest ∧ IsUint64Text v 0) ∧
    (form.values "width" = [] → (handler L g form).1.width = 600) ∧
    (∀ v rest, form.values "width" = v :: rest → (¬ ∃ n, IsUint64Text v n) →
      (handler L g form).1.width = 600) ∧
    (form.values "height" = [] → (handler L g form).1.height = 320) ∧
    (∀ v rest, form.values "height" = v :: rest → (¬ ∃ n, IsUint64Text v n) →
      (handler L g form).1.height = 320) := by
  refine ⟨resolve_lt form _ _ (by norm_num [defaultWidth]),
    resolve_lt form _ _ (by norm_num [defaultHeight]),
    resolve_eq_zero_iff form _ _ (by norm_num [defaultWidth]),
    resolve_eq_zero_iff form _ _ (by norm_num [defaultHeight]),
    fun h => resolve_absent form _ _ h, fun v rest h hv => resolve_malformed form _ _ v rest h hv,
    fun h => resolve_absent form _ _ h, fun v rest h hv => resolve_malformed form _ _ v rest h hv⟩

/-- C6 (counterexample): three requests, the first two without parameters and the third
with `width=1000`. The first run executes alone; the second run makes its four assignments,
then the third run makes its four assignments, then the second run executes `buildSurface`,
then the third. The second request is answered with the document of the `1000 x 320`
canvas, which differs from the document the first request got for the same parameters. -/
theorem overlapping_runs_mix_canvases :
    (serve refLib
        (List.replicate runLength 0 ++ (List.replicate 4 1 ++ (List.replicate 4 2 ++
          (List.replicate (1 + cells * cells + 1) 1 ++
            List.replicate (1 + cells * cells + 1) 2))))
        (Globals.init, [Run.enter [], Run.enter [], Run.enter [("width", "1000")]])).2.map
        Run.response
      = [some (handler refLib Globals.init []).2,
        some (handler refLib Globals.init [("width", "1000")]).2,
        some (handler refLib Globals.init [("width", "1000")]).2] ∧
    (handler refLib Globals.init []).2 ≠ (handler refLib Globals.init [("width", "1000")]).2 := by
  constructor
  · have hl : runLength = 4 + (1 + cells * cells + 1) := by simp [runLength]; ring
    rw [serve_append, serve_append, serve_append, serve_append,
      serve_replicate refLib runLength 0 _ _ (Run.enter []) rfl, hl, stepN_add, stepN_assign,
      stepN_build_fst]
    rw [serve_replicate refLib 4 1 _ _ (Run.enter []) rfl, stepN_assign]
    rw [serve_replicate refLib 4 2 _ _ (Run.enter [("width", "1000")]) rfl, stepN_assign]
    rw [serve_replicate refLib _ 1 _ _ ⟨[], .atOpen, [], false⟩ rfl, stepN_build_fst]
    rw [serve_replicate refLib _ 2 _ _ ⟨[("width", "1000")], .atOpen, [], false⟩ rfl]
    simp only [List.set_cons_zero, List.set_cons_succ, List.map_cons, List.map_nil,
      response_build]
    simp only [handler, setGlobals_eq]
  · intro h
    simp only [handler, buildSurface_eq, Option.map_some', Option.some.injEq,
      Response.mk.injEq, List.cons_append, List.cons.injEq, true_and] at h
    exact absurd h.1 (by decide!)

/-- C6 (amended): two requests whose first `width` values agree (or are both absent) and
whose first `height` values agree (or are both absent) leave the same package variables and
get the same response, byte for byte, whatever the package variables held when the handler
was entered, and the handler does not panic, when the handler run is executed as a whole.
In the server, where the runs of all requests share the package variables: a run whose
statements execute in a row, from the first to the last, is answered with that response
whatever statements of other runs were executed before it, complete runs or parts of runs,
and whatever is executed after it. -/
theorem handler_ignores_entry_state (L : GoLib) (g g' : Globals) (form form' : Form)
    (hw : (form'.values "width").head? = (form.values "width").head?)
    (hh : (form'.values "height").head? = (form.values "height").head?) :
    handler L g' form' = handler L g form ∧
    (∃ body, (handler L g form).2 = some ⟨"image/svg+xml", body⟩) ∧
    ∀ (pre post : List Nat) (rs : List Run) (k : Nat), k ∉ pre →
      rs[k]? = some (Run.enter form') →
      ((serve L (pre ++ (List.replicate runLength k ++ post)) (g', rs)).2[k]?).bind
        Run.response = some (handler L g form).2 := by
  refine ⟨handler_eq_of_heads L g g' form form' hw hh, ?_, ?_⟩
  · simp only [handler, buildSurface_eq, Option.map_some']
    exact ⟨_, rfl⟩
  · intro pre post rs k hk hr
    have h1 : (serve L pre (g', rs)).2[k]? = some (Run.enter form') := by
      rw [serve_untouched L pre k hk]
      exact hr
    obtain ⟨hlt, _⟩ := List.getElem?_eq_some_iff.1 h1
    obtain ⟨body, hrun, hbody⟩ := stepN_run L (serve L pre (g', rs)).1 form'
    have h2 : (serve L (List.replicate runLength k) (serve L pre (g', rs))).2[k]?
        = some ⟨form', .returned, body, false⟩ := by
      have hs : serve L pre (g', rs) = ((serve L pre (g', rs)).1, (serve L pre (g', rs)).2) :=
        rfl
      rw [hs, serve_replicate L runLength k _ _ _ h1, hrun]
      exact List.getElem?_set_eq_of_lt _ hlt
    rw [serve_append, serve_append, serve_returned L post k _ rfl _ h2]
    rw [← handler_eq_of_heads L g (serve L pre (g', rs)).1 form form' hw hh, hbody]
    rfl

/-- C6 (witness): `width=1000&depth=3&width=2` sent when the package variables hold other
values, against `width=1000` sent to the freshly started program; in the server the run is
executed in a row after three statements of another run and before a fourth. -/
theorem handler_ignores_entry_state_witness :
    ((Form.values [("width", "1000"), ("depth", "3"), ("width", "2")] "width").head? =
        (Form.values [("width", "1000")] "width").head? ∧
      (Form.values [("width", "1000"), ("depth", "3"), ("width", "2")] "height").head? =
        (Form.values [("width", "1000")] "height").head? ∧
      0 ∉ [1, 1, 1] ∧
      [Run.enter [("width", "1000"), ("depth", "3"), ("width", "2")],
        Run.enter [("width", "5")]][0]?
        = some (Run.enter [("width", "1000"), ("depth", "3"), ("width", "2")])) ∧
    handler refLib ⟨F64.nan, F64.inf true, 7, 9⟩
        [("width", "1000"), ("depth", "3"), ("width", "2")] =
      handler refLib Globals.init [("width", "1000")] ∧
    ((serve refLib ([1, 1, 1] ++ (List.replicate runLength 0 ++ [1]))
        (⟨F64.nan, F64.inf true, 7, 9⟩,
          [Run.enter [("width", "1000"), ("depth", "3"), ("width", "2")],
            Run.enter [("width", "5")]])).2[0]?).bind Run.response
      = some (handler refLib Globals.init [("width", "1000")]).2 :=
  ⟨⟨by decide, by decide, by decide, rfl⟩,
    (handler_ignores_entry_state refLib Globals.init ⟨F64.nan, F64.inf true, 7, 9⟩
      [("width", "1000")] [("width", "1000"), ("depth", "3"), ("width", "2")]
      (by decide) (by decide)).1,
    (handler_ignores_entry_state refLib Globals.init ⟨F64.nan, F64.inf true, 7, 9⟩
      [("width", "1000")] [("width", "1000"), ("depth", "3"), ("width", "2")]
      (by decide) (by decide)).2.2 [1, 1, 1] [1] _ 0 (by decide) rfl⟩

/-- C7 (evaluation of the code): grid index `0` maps to the domain coordinate `-15` and
index `cells = 100` to `+15`, not to `-30` and `+30`; every index from `0` to `100` maps
into `-15 .. +15`. -/
theorem grid_spans_minus15_to_15 :
    gridCoord 0 = F64.neg (F64.ofNat 15) ∧ gridCoord 100 = F64.ofNat 15 ∧
    gridCoord 0 ≠ F64.neg (F64.ofNat 30) ∧ gridCoord 100 ≠ F64.ofNat 30 ∧
    ∀ i ∈ List.range 101,
      F64.lt (gridCoord i) (F64.neg (F64.ofNat 15)) = false ∧
      F64.lt (F64.ofNat 15) (gridCoord i) = false := by
  decide!

/-- C8: the document `buildSurface` writes is the opening tag, one string per polygon and
the closing tag; the number of polygons is at most `cells * cells = 10000` and is `10000`
minus the number of cells the validity filter rejects, the cells being the pairs `(i, j)`
with `i, j < 100`, each visited once. -/
theorem polygon_count (L : GoLib) (g : Globals) :
    ∃ ps : List Polygon,
      buildSurface L g = some (svgOpen g :: ps.map (Polygon.render L) ++ ["</svg>\n"]) ∧
      ps.length ≤ cells * cells ∧ cells * cells = 10000 ∧
      ps.length = 10000 - (gridCells.filter (rejected L g)).length ∧
      (gridCells.filter (rejected L g)).length ≤ 10000 ∧
      gridCells.Nodup ∧ ∀ i j, (i, j) ∈ gridCells ↔ i < 100 ∧ j < 100 := by
  have h := polygons_add_rejected L g gridCells
  have hl : gridCells.length = 10000 := gridCells_length
  refine ⟨gridCells.flatMap (cellPolygons L g), buildSurface_eq L g, ?_, rfl, ?_, ?_,
    gridCells_nodup, mem_gridCells⟩
  · show _ ≤ 10000
    omega
  · omega
  · omega

/-- C9: for a library with `Hypot(0, 0) = 0` and `Sin(0) = 0`, grid corner `(50, 50)` has
the domain coordinates `(0, 0)`, the height `f(0, 0)` is NaN, so is the height `corner`
returns for `(50, 50)`, and each of the four cells with that corner, `(49, 49)`,
`(49, 50)`, `(50, 49)` and `(50, 50)`, is rejected and writes no polygon. -/
theorem origin_height_is_nan_and_filtered (L : GoLib) (g : Globals)
    (hhypot : L.hypot F64.zero F64.zero = F64.zero) (hsin : L.sin F64.zero = F64.zero) :
    gridCoord 50 = F64.zero ∧ f L F64.zero F64.zero = F64.nan ∧
    (corner L g 50 50).2.2 = F64.nan ∧
    (cell L g 49 49 = some none ∧ cellPolygons L g (49, 49) = []) ∧
    (cell L g 49 50 = some none ∧ cellPolygons L g (49, 50) = []) ∧
    (cell L g 50 49 = some none ∧ cellPolygons L g (50, 49) = []) ∧
    (cell L g 50 50 = some none ∧ cellPolygons L g (50, 50) = []) := by
  have hf : f L F64.zero F64.zero = F64.nan := by
    simp only [f, hhypot, hsin]
    rfl
  have hc : (corner L g 50 50).2.2 = F64.nan := by
    rw [corner_height, gridCoord_50, hf]
  have h1 : cell L g 49 49 = some none :=
    rejected_of_nan_corner L g 49 49 (by simp [cornerHeights, hc])
  have h2 : cell L g 49 50 = some none :=
    rejected_of_nan_corner L g 49 50 (by simp [cornerHeights, hc])
  have h3 : cell L g 50 49 = some none :=
    rejected_of_nan_corner L g 50 49 (by simp [cornerHeights, hc])
  have h4 : cell L g 50 50 = some none :=
    rejected_of_nan_corner L g 50 50 (by simp [cornerHeights, hc])
  refine ⟨gridCoord_50, hf, hc, ⟨h1, ?_⟩, ⟨h2, ?_⟩, ⟨h3, ?_⟩, ⟨h4, ?_⟩⟩
  · simp only [cellPolygons]; rw [show ((49 : Nat) : Int) = 49 from rfl, h1]
  · simp only [cellPolygons]
    rw [show ((49 : Nat) : Int) = 49 from rfl, show ((50 : Nat) : Int) = 50 from rfl, h2]
  · simp only [cellPolygons]
    rw [show ((49 : Nat) : Int) = 49 from rfl, show ((50 : Nat) : Int) = 50 from rfl, h3]
  · simp only [cellPolygons]; rw [show ((50 : Nat) : Int) = 50 from rfl, h4]

/-- C9 (witness): the reference library has `Hypot(0, 0) = 0` and `Sin(0) = 0`; with it
`f(0, 0)` is NaN. -/
theorem origin_height_is_nan_and_filtered_witness :
    refLib.hypot F64.zero F64.zero = F64.zero ∧ refLib.sin F64.zero = F64.zero ∧
    f refLib F64.zero F64.zero = F64.nan :=
  ⟨by decide!, by decide!,
    (origin_height_is_nan_and_filtered refLib Globals.init (by decide!) (by decide!)).2.1⟩

/-- C10: when the handler has resolved width and height, `xyscale` is
`float64(width) / 2 / 30` and `zscale` is `float64(height) * 0.4`, in `float64` arithmetic;
for `width=1000&height=1000` `xyscale` is the `float64` nearest to `1000/2/30`, between
`16.666` and `16.667`, and `zscale` is `400`; for the defaults `xyscale` is `10` and `zscale`
is `128`. -/
theorem scales_follow_canvas (L : GoLib) (g : Globals) (form : Form) :
    (handler L g form).1.xyscale =
      F64.div (F64.div (F64.ofNat (handler L g form).1.width) (F64.ofNat 2)) (F64.ofNat 30) ∧
    (handler L g form).1.zscale =
      F64.mul (F64.ofNat (handler L g form).1.height) (F64.ofRatio 4 10) ∧
    ((handler L g [("width", "1000"), ("height", "1000")]).1.xyscale = F64.ofRatio 1000 60 ∧
      F64.lt (F64.ofRatio 16666 1000)
        (handler L g [("width", "1000"), ("height", "1000")]).1.xyscale = true ∧
      F64.lt (handler L g [("width", "1000"), ("height", "1000")]).1.xyscale
        (F64.ofRatio 16667 1000) = true ∧
      (handler L g [("width", "1000"), ("height", "1000")]).1.zscale = F64.ofNat 400) ∧
    ((handler L g []).1.width = 600 ∧ (handler L g []).1.height = 320 ∧
      (handler L g []).1.xyscale = F64.ofNat 10 ∧ (handler L g []).1.zscale = F64.ofNat 128) := by
  refine ⟨?_, rfl, ⟨?_, ?_, ?_, ?_⟩, ⟨rfl, rfl, ?_, ?_⟩⟩
  · rw [handler_xyscale, handler_width]
    rw [show xyrange = F64.ofNat 30 from rfl]
  · rw [handler_xyscale]; decide!
  · rw [handler_xyscale]; decide!
  · rw [handler_xyscale]; decide!
  · rw [handler_zscale]; decide!
  · rw [handler_xyscale]; decide!
  · rw [handler_zscale]; decide!

/-- C11: the polygon written for cell `(i, j)` carries the projected points of the corners
`(i+1, j)`, `(i, j)`, `(i, j+1)`, `(i+1, j+1)`, in this order, each as its `(sx, sy)`
pair, and its `points` attribute lists them in this order as `sx,sy` pairs separated by a
blank. -/
theorem polygon_points_in_corner_order (L : GoLib) (g : Globals) (i j : Int) (p : Polygon)
    (h : cell L g i j = some (some p)) :
    (p.ax = (corner L g (i + 1) j).1 ∧ p.ay = (corner L g (i + 1) j).2.1) ∧
    (p.bx = (corner L g i j).1 ∧ p.by_ = (corner L g i j).2.1) ∧
    (p.cx = (corner L g i (j + 1)).1 ∧ p.cy = (corner L g i (j + 1)).2.1) ∧
    (p.dx = (corner L g (i + 1) (j + 1)).1 ∧ p.dy = (corner L g (i + 1) (j + 1)).2.1) ∧
    Polygon.render L p =
      "<polygon fill='rgb(" ++ toString p.redValue ++ ", 0, " ++ toString p.blueValue ++
      ")' points='" ++
      L.fmtG (corner L g (i + 1) j).1 ++ "," ++ L.fmtG (corner L g (i + 1) j).2.1 ++ " " ++
      L.fmtG (corner L g i j).1 ++ "," ++ L.fmtG (corner L g i j).2.1 ++ " " ++
      L.fmtG (corner L g i (j + 1)).1 ++ "," ++ L.fmtG (corner L g i (j + 1)).2.1 ++ " " ++
      L.fmtG (corner L g (i + 1) (j + 1)).1 ++ "," ++ L.fmtG (corner L g (i + 1) (j + 1)).2.1 ++
      "' />\n" := by
  rw [cell_eq] at h
  split at h
  · simp at h
  · simp only [Option.some.injEq] at h
    subst h
    exact ⟨⟨rfl, rfl⟩, ⟨rfl, rfl⟩, ⟨rfl, rfl⟩, ⟨rfl, rfl⟩, rfl⟩

/-- C11 (witness): cell `(0, 1)` of the default request with the reference library. -/
theorem polygon_points_in_corner_order_witness :
    cell refLib (setGlobals Globals.init []) 0 1 =
      some (some ⟨153, 0, .fin false 5277655813324800 (-44), .fin false 8169989470718964 (-50),
        .fin false 5231949973257101 (-44), .fin false 7214844953430715 (-50),
        .fin false 5186244133189402 (-44), .fin false 8182205959669052 (-50),
        .fin false 5231949973257101 (-44), .fin false 4704445263874152 (-49)⟩) ∧
    (F64.fin false 5277655813324800 (-44) = (corner refLib (setGlobals Globals.init []) (0 + 1) 1).1 ∧
      F64.fin false 8169989470718964 (-50)
        = (corner refLib (setGlobals Globals.init []) (0 + 1) 1).2.1) := by
  have hc : cell refLib (setGlobals Globals.init []) 0 1 =
      some (some ⟨153, 0, .fin false 5277655813324800 (-44), .fin false 8169989470718964 (-50),
        .fin false 5231949973257101 (-44), .fin false 7214844953430715 (-50),
        .fin false 5186244133189402 (-44), .fin false 8182205959669052 (-50),
        .fin false 5231949973257101 (-44), .fin false 4704445263874152 (-49)⟩) := by decide!
  exact ⟨hc, (polygon_points_in_corner_order refLib (setGlobals Globals.init []) 0 1 _ hc).1⟩

/-- C13: `isSomeNumberInvalid` returns `true` exactly when one of its arguments is NaN,
`+Inf` or `-Inf`; it returns `false` for every list of finite values, the empty list
included. -/
theorem isSomeNumberInvalid_iff (numbers : List F64) :
    (isSomeNumberInvalid numbers = true ↔
      ∃ n ∈ numbers, n = F64.nan ∨ n = F64.inf false ∨ n = F64.inf true) ∧
    ((∀ n ∈ numbers, ∃ s m e, n = F64.fin s m e) → isSomeNumberInvalid numbers = false) ∧
    isSomeNumberInvalid [] = false := by
  refine ⟨?_, ?_, rfl⟩
  · rw [isSomeNumberInvalid_eq_any, List.any_eq_true]
    constructor
    · rintro ⟨n, hn, hbad⟩
      refine ⟨n, hn, ?_⟩
      cases n with
      | nan => exact Or.inl rfl
      | inf s => cases s <;> simp
      | fin s m e => simp [F64.isFinite] at hbad
    · rintro ⟨n, hn, hbad⟩
      refine ⟨n, hn, ?_⟩
      rcases hbad with rfl | rfl | rfl <;> rfl
  · intro h
    rw [isSomeNumberInvalid_eq_any, List.any_eq_false]
    intro n hn
    obtain ⟨s, m, e, rfl⟩ := h n hn
    simp [F64.isFinite]

/-- C14: the channels are written without clamping. For every polygon written, with `maxZ`
the maximum of the four corner heights times `zscale`: when `maxZ > 0` the red channel is
`int(maxZ * 25)`, which is the integer part of the value of `maxZ * 25` when that is in the
range of `int`; when `maxZ < 0` the blue channel is `int(|maxZ| * 25)` likewise; the
polygon's text carries the two numbers as they are; and `maxZ = 11` gives red `275`, above
`255`. -/
theorem channels_are_not_clamped (L : GoLib) (g : Globals) (i j : Int) (p : Polygon)
    (h : cell L g i j = some (some p)) :
    (F64.gt (maxZOf L g i j) F64.zero = true →
      p.redValue = toInt L (F64.mul (maxZOf L g i j) (F64.ofNat 25)) ∧
      (F64.fitsInt (F64.mul (maxZOf L g i j) (F64.ofNat 25)) = true →
        p.redValue = ⌊F64.toRat (F64.mul (maxZOf L g i j) (F64.ofNat 25))⌋)) ∧
    (F64.lt (maxZOf L g i j) F64.zero = true →
      p.blueValue = toInt L (F64.mul (F64.abs (maxZOf L g i j)) (F64.ofNat 25)) ∧
      (F64.fitsInt (F64.mul (F64.abs (maxZOf L g i j)) (F64.ofNat 25)) = true →
        p.blueValue = ⌊F64.toRat (F64.mul (F64.abs (maxZOf L g i j)) (F64.ofNat 25))⌋)) ∧
    (∃ rest, Polygon.render L p =
      "<polygon fill='rgb(" ++ (toString p.redValue ++ (", 0, " ++ (toString p.blueValue ++
        (")' points='" ++ rest))))) ∧
    fillColour L (F64.ofNat 11) = (275, 0) ∧ (255 : Int) < 275 := by
  obtain ⟨hr, hb⟩ := cell_colour L g i j p h
  refine ⟨fun hgt => ?_, fun hlt => ?_, ?_, fillColour_eleven L, by norm_num⟩
  · have hlt := F64.lt_zero_of_gt_zero _ hgt
    have hred : p.redValue = toInt L (F64.mul (maxZOf L g i j) (F64.ofNat 25)) := by
      rw [hr]; simp [fillColour, hlt, hgt]
    refine ⟨hred, fun hfit => ?_⟩
    rw [hred]
    exact toInt_floor_of_signClear L _
      (F64.mul_25_signClear _ (F64.signClear_of_gt_zero _ hgt)) hfit
  · have hblue : p.blueValue
        = toInt L (F64.mul (F64.abs (maxZOf L g i j)) (F64.ofNat 25)) := by
      rw [hb]; simp [fillColour, hlt]
    refine ⟨hblue, fun hfit => ?_⟩
    rw [hblue]
    exact toInt_floor_of_signClear L _
      (F64.mul_25_signClear _ (F64.signClear_abs_of_lt_zero _ hlt)) hfit
  · simp only [Polygon.render, String.append_assoc]
    exact ⟨_, rfl⟩

/-- C14 (witness): cell `(48, 49)` of the default request with the reference library is
written with red `3152`, above `255`. -/
theorem channels_are_not_clamped_witness :
    cell refLib (setGlobals Globals.init []) 48 49 =
      some (some ⟨3152, 0, .fin false 5277655813324800 (-44), .fin false 4616976023196070 (-47),
        .fin false 5231949973257101 (-44), .fin false 5191285199893202 (-47),
        .fin false 5186244133189402 (-44), .fin false 5142961453256922 (-47),
        .fin false 5231949973257101 (-44), .fin false 4561496002980010 (-47)⟩) ∧
    F64.gt (maxZOf refLib (setGlobals Globals.init []) 48 49) F64.zero = true ∧
    (3152 : Int) = toInt refLib
      (F64.mul (maxZOf refLib (setGlobals Globals.init []) 48 49) (F64.ofNat 25)) ∧
    (255 : Int) < 3152 := by
  have hc : cell refLib (setGlobals Globals.init []) 48 49 =
      some (some ⟨3152, 0, .fin false 5277655813324800 (-44), .fin false 4616976023196070 (-47),
        .fin false 5231949973257101 (-44), .fin false 5191285199893202 (-47),
        .fin false 5186244133189402 (-44), .fin false 5142961453256922 (-47),
        .fin false 5231949973257101 (-44), .fin false 4561496002980010 (-47)⟩) := by decide!
  have hgt : F64.gt (maxZOf refLib (setGlobals Globals.init []) 48 49) F64.zero = true := by
    decide!
  exact ⟨hc, hgt,
    ((channels_are_not_clamped refLib (setGlobals Globals.init []) 48 49 _ hc).1 hgt).1,
    by norm_num⟩

/-- C12: the polygons of the document are the polygons of the cells that are not rejected,
in the order the two loops visit the cells (`i` outer, `j` inner). The traversal sequence
holds cell `(n / 100, n % 100)` at position `n` for `n` from `0` to `9999`: it has 10000
entries, holds exactly the cells `(i, j)` with `i, j < 100`, each once, and is sorted by
`(i, j)`. A rejected cell writes nothing and a cell that is not rejected writes its polygon;
the polygon list of the document is the traversal sequence with the rejected cells removed;
and when two cells `(i, j)` and `(i', j')` of the grid are both written and the first is
lexicographically smaller, its polygon stands before the polygon of the second. -/
theorem polygons_in_traversal_order (L : GoLib) (g : Globals) :
    buildSurface L g =
      some (svgOpen g ::
        (((gridCells.filter fun ij => !rejected L g ij).map (polygonOf L g)).map
          (Polygon.render L)) ++ ["</svg>\n"]) ∧
    gridCells = (List.range 10000).map (fun n => (n / 100, n % 100)) ∧
    gridCells.length = 10000 ∧
    gridCells.Nodup ∧
    (∀ i j, (i, j) ∈ gridCells ↔ i < 100 ∧ j < 100) ∧
    gridCells.Pairwise cellBefore ∧
    (∀ a, rejected L g a = isSomeNumberInvalid (cornerHeights L g a.1 a.2)) ∧
    (∀ a, rejected L g a = true → cell L g a.1 a.2 = some none) ∧
    (∀ a, rejected L g a = false → cell L g a.1 a.2 = some (some (polygonOf L g a))) ∧
    (∀ i j, (i, j) ∈ (gridCells.filter fun ij => !rejected L g ij) ↔
      i < 100 ∧ j < 100 ∧ rejected L g (i, j) = false) ∧
    ∀ i j i' j', i < 100 → j < 100 → i' < 100 → j' < 100 →
      rejected L g (i, j) = false → rejected L g (i', j') = false →
      (i < i' ∨ (i = i' ∧ j < j')) →
      ∃ l1 l2 l3, (gridCells.filter fun ij => !rejected L g ij).map (polygonOf L g) =
        l1 ++ polygonOf L g (i, j) :: (l2 ++ polygonOf L g (i', j') :: l3) := by
  refine ⟨?_, gridCells_rowMajor, gridCells_length, gridCells_nodup, mem_gridCells,
    gridCells_sorted, fun _ => rfl, cell_of_rejected L g, cell_of_not_rejected L g, ?_, ?_⟩
  · rw [buildSurface_eq, flatMap_cellPolygons]
  · intro i j
    rw [List.mem_filter, mem_gridCells]
    simp [cells, and_assoc]
  · intro i j i' j' hi hj hi' hj' hra hrb hab
    have ha : (i, j) ∈ gridCells := (mem_gridCells i j).2 ⟨hi, hj⟩
    have hb : (i', j') ∈ gridCells := (mem_gridCells i' j').2 ⟨hi', hj'⟩
    have hfa : (i, j) ∈ gridCells.filter fun ij => !rejected L g ij :=
      List.mem_filter.2 ⟨ha, by simp [hra]⟩
    have hfb : (i', j') ∈ gridCells.filter fun ij => !rejected L g ij :=
      List.mem_filter.2 ⟨hb, by simp [hrb]⟩
    obtain ⟨l1, l2, l3, hl⟩ := split_of_sorted (gridCells_sorted.filter _) hfa hfb hab
    refine ⟨l1.map (polygonOf L g), l2.map (polygonOf L g), l3.map (polygonOf L g), ?_⟩
    rw [hl]
    simp

/-- C18: for every non-empty list without NaN `maxValue` returns an element of the list
that is `>=` every element of the list; `buildSurface` calls it, in the loop body, only on
the four corner heights of a cell that passed the validity filter, which are four finite
values, so `values[0]` is there: no cell panics and `buildSurface` returns its document. -/
theorem maxValue_is_maximum :
    (∀ values : List F64, values ≠ [] → (∀ v ∈ values, v ≠ F64.nan) →
      ∃ m, maxValue values = some m ∧ m ∈ values ∧ ∀ v ∈ values, F64.ge m v = true) ∧
    (∀ (L : GoLib) (g : Globals) (i j : Int),
      (cornerHeights L g i j).length = 4 ∧
      (isSomeNumberInvalid (cornerHeights L g i j) = false →
        (∀ z ∈ cornerHeights L g i j, z.isFinite = true) ∧
        ∃ m, maxValue (cornerHeights L g i j) = some m) ∧
      cell L g i j ≠ none) ∧
    (∀ (L : GoLib) (g : Globals), buildSurface L g ≠ none) := by
  refine ⟨?_, ?_, ?_⟩
  · intro values hne hnan
    cases values with
    | nil => exact absurd rfl hne
    | cons v0 rest =>
      have h0 : v0 ≠ F64.nan := hnan v0 (List.mem_cons_self _ _)
      obtain ⟨hmem, hge, hall⟩ := maxValue_fold (v0 :: rest) v0 h0 hnan
      refine ⟨_, rfl, ?_, ?_⟩
      · rcases List.mem_cons.1 hmem with h | h
        · rw [h]; exact List.mem_cons_self _ _
        · exact h
      · intro v hv
        have hmn : (v0 :: rest).foldl (fun max v => if F64.gt v max then v else max) v0
            ≠ F64.nan := by
          rcases List.mem_cons.1 hmem with h | h
          · rw [h]; exact h0
          · exact hnan _ h
        exact (F64.ge_iff_rank _ v hmn (hnan v hv)).2 (hall v hv)
  · intro L g i j
    refine ⟨rfl, fun h => ⟨cornerHeights_finite L g i j h, _, maxValue_four _ _ _ _⟩,
      cell_ne_none L g i j⟩
  · intro L g
    rw [buildSurface_eq]
    exact Option.some_ne_none _

/-- C18 (witness): the maximum of `1, 3, 2` is `3`. -/
theorem maxValue_is_maximum_witness :
    [F64.ofNat 1, F64.ofNat 3, F64.ofNat 2] ≠ [] ∧
    (∀ v ∈ [F64.ofNat 1, F64.ofNat 3, F64.ofNat 2], v ≠ F64.nan) ∧
    maxValue [F64.ofNat 1, F64.ofNat 3, F64.ofNat 2] = some (F64.ofNat 3) ∧
    ∃ m, maxValue [F64.ofNat 1, F64.ofNat 3, F64.ofNat 2] = some m ∧
      m ∈ [F64.ofNat 1, F64.ofNat 3, F64.ofNat 2] ∧
      ∀ v ∈ [F64.ofNat 1, F64.ofNat 3, F64.ofNat 2], F64.ge m v = true :=
  ⟨by decide!, by decide!, by decide!,
    maxValue_is_maximum.1 [F64.ofNat 1, F64.ofNat 3, F64.ofNat 2] (by decide!) (by decide!)⟩

/-- C16: for a library whose `Sin` of a finite value is finite and at most `2` in magnitude,
whose `Hypot` of two finite values of magnitude at most `15` is finite and not below either
magnitude, and with `Hypot(0, 0) = 0`: whether a cell is skipped does not depend on the
package variables (the canvas), the cells `(i, j)` with `i, j < 100` that are skipped are
exactly `(49, 49)`, `(49, 50)`, `(50, 49)` and `(50, 50)`, the cells with grid corner
`(50, 50)`, and every document holds exactly 9996 polygons. -/
theorem skipped_cells_are_the_four_at_origin (L : GoLib)
    (hsin : ∀ r : F64, r.isFinite = true →
      (L.sin r).isFinite = true ∧ F64.lt (F64.ofNat 2) (F64.abs (L.sin r)) = false)
    (hhyp : ∀ x y : F64, x.isFinite = true → y.isFinite = true →
      F64.lt (F64.ofNat 15) (F64.abs x) = false → F64.lt (F64.ofNat 15) (F64.abs y) = false →
      (L.hypot x y).isFinite = true ∧ F64.lt (L.hypot x y) (F64.abs x) = false ∧
        F64.lt (L.hypot x y) (F64.abs y) = false)
    (h0 : L.hypot F64.zero F64.zero = F64.zero) :
    (∀ (g g' : Globals) (ij : Nat × Nat), rejected L g ij = rejected L g' ij) ∧
    (∀ (g : Globals) (i j : Nat), i < 100 → j < 100 →
      ((rejected L g (i, j) = true ↔ (i, j) ∈ [(49, 49), (49, 50), (50, 49), (50, 50)]) ∧
        (cellPolygons L g (i, j) = [] ↔
          (i, j) ∈ [(49, 49), (49, 50), (50, 49), (50, 50)]))) ∧
    (∀ g : Globals, gridCells.filter (rejected L g) = [(49, 49), (49, 50), (50, 49), (50, 50)]) ∧
    (∀ g : Globals, ∃ ps : List Polygon,
      buildSurface L g = some (svgOpen g :: ps.map (Polygon.render L) ++ ["</svg>\n"]) ∧
      ps.length = 9996) := by
  have hmem : ∀ i j : Nat, ((i = 49 ∨ i = 50) ∧ (j = 49 ∨ j = 50)) ↔
      (i, j) ∈ [(49, 49), (49, 50), (50, 49), (50, 50)] := by
    intro i j
    simp only [List.mem_cons, Prod.mk.injEq, List.mem_singleton, List.not_mem_nil, or_false]
    omega
  have hfilter : ∀ g : Globals,
      gridCells.filter (rejected L g) = [(49, 49), (49, 50), (50, 49), (50, 50)] := by
    intro g
    rw [← four_cells_decide]
    apply List.filter_congr
    intro ij hij
    obtain ⟨hi, hj⟩ := (mem_gridCells ij.1 ij.2).1 hij
    have h := rejected_iff_touches_origin L hsin hhyp h0 g ij.1 ij.2 hi hj
    rw [Bool.eq_iff_iff, h]
    simp
  refine ⟨rejected_irrelevant_of_canvas L, ?_, hfilter, ?_⟩
  · intro g i j hi hj
    have h := rejected_iff_touches_origin L hsin hhyp h0 g i j hi hj
    refine ⟨h.trans (hmem i j), ?_⟩
    rw [cellPolygons_eq, ← hmem i j, ← h]
    cases rejected L g (i, j) <;> simp
  · intro g
    have h := polygons_add_rejected L g gridCells
    rw [hfilter g, gridCells_length] at h
    refine ⟨gridCells.flatMap (cellPolygons L g), buildSurface_eq L g, ?_⟩
    simp only [List.length_cons, List.length_nil, cells] at h
    omega

/-- C16 (witness): the coarse library meets the three conditions, so with it every document
holds 9996 polygons. -/
theorem skipped_cells_are_the_four_at_origin_witness :
    (∀ r : F64, r.isFinite = true →
      (crudeLib.sin r).isFinite = true ∧
        F64.lt (F64.ofNat 2) (F64.abs (crudeLib.sin r)) = false) ∧
    (∀ x y : F64, x.isFinite = true → y.isFinite = true →
      F64.lt (F64.ofNat 15) (F64.abs x) = false → F64.lt (F64.ofNat 15) (F64.abs y) = false →
      (crudeLib.hypot x y).isFinite = true ∧ F64.lt (crudeLib.hypot x y) (F64.abs x) = false ∧
        F64.lt (crudeLib.hypot x y) (F64.abs y) = false) ∧
    crudeLib.hypot F64.zero F64.zero = F64.zero ∧
    gridCells.filter (rejected crudeLib Globals.init) =
      [(49, 49), (49, 50), (50, 49), (50, 50)] :=
  ⟨crudeLib_sin, fun x y hx hy _ _ => crudeLib_hypot x y hx hy, by decide!,
    (skipped_cells_are_the_four_at_origin crudeLib crudeLib_sin
      (fun x y hx hy _ _ => crudeLib_hypot x y hx hy) (by decide!)).2.2.1 Globals.init⟩

/-- C17 (counterexample): at the default request (width 600) and with the reference library,
the corner `(100, 0)` has `sx = 4924119910047350 * 2^-43` (559.8076211353316), and
`|sx - 600/2|` exceeds `cos30 * 600 / 2` for the program's `cos30` as well as for the exact
cosine of 30 degrees. With the next `float64` above as `cos30` the same `sx` results, so the
bound by the exact cosine fails again, and at width 1000 the corner `(100, 0)` has
`sx = 8206866516745584 * 2^-43` with `|sx - 1000/2|` above `cos30 * 1000 / 2`. -/
theorem sx_bound_fails_at_default_width :
    (corner refLib (setGlobals Globals.init []) 100 0).1 = .fin false 4924119910047350 (-43) ∧
    (setGlobals Globals.init []).width = 600 ∧
    (cos30 refLib).toRat * 600 / 2 <
      |(corner refLib (setGlobals Globals.init []) 100 0).1.toRat - 600 / 2| ∧
    Real.cos (Real.pi / 6) * 600 / 2 <
      |(((corner refLib (setGlobals Globals.init []) 100 0).1.toRat : ℚ) : ℝ) - 600 / 2| ∧
    Real.cos (Real.pi / 6) * 600 / 2 <
      |(((corner refLibCosUp (setGlobals Globals.init []) 100 0).1.toRat : ℚ) : ℝ) - 600 / 2| ∧
    (setGlobals Globals.init [("width", "1000")]).width = 1000 ∧
    (cos30 refLibCosUp).toRat * 1000 / 2 <
      |(corner refLibCosUp (setGlobals Globals.init [("width", "1000")]) 100 0).1.toRat
        - 1000 / 2| := by
  have hsx : (corner refLib (setGlobals Globals.init []) 100 0).1
      = .fin false 4924119910047350 (-43) := by decide!
  have hsxu : (corner refLibCosUp (setGlobals Globals.init []) 100 0).1
      = .fin false 4924119910047350 (-43) := by decide!
  have hsxk : (corner refLibCosUp (setGlobals Globals.init [("width", "1000")]) 100 0).1
      = .fin false 8206866516745584 (-43) := by decide!
  have hc : cos30 refLib = .fin false 7800463371553962 (-53) := by decide!
  have hcu : cos30 refLibCosUp = .fin false 7800463371553963 (-53) := rfl
  have hv : F64.toRat (.fin false 4924119910047350 (-43)) = 2462059955023675 / 4398046511104 := by
    rw [F64.toRat_fin]
    simp only [F64.smant, Bool.false_eq_true, if_false]
    norm_num [zpow_neg]
  have hvk : F64.toRat (.fin false 8206866516745584 (-43)) = 512929157296599 / 549755813888 := by
    rw [F64.toRat_fin]
    simp only [F64.smant, Bool.false_eq_true, if_false]
    norm_num [zpow_neg]
  have hcv : F64.toRat (.fin false 7800463371553962 (-53))
      = 3900231685776981 / 4503599627370496 := by
    rw [F64.toRat_fin]
    simp only [F64.smant, Bool.false_eq_true, if_false]
    norm_num [zpow_neg]
  have hcuv : F64.toRat (.fin false 7800463371553963 (-53))
      = 7800463371553963 / 9007199254740992 := by
    rw [F64.toRat_fin]
    simp only [F64.smant, Bool.false_eq_true, if_false]
    norm_num [zpow_neg]
  have hreal : Real.cos (Real.pi / 6) * 600 / 2 <
      |(((2462059955023675 / 4398046511104 : ℚ) : ℚ) : ℝ) - 600 / 2| := by
    rw [Real.cos_pi_div_six]
    push_cast
    rw [abs_of_pos (by norm_num)]
    have h3 : Real.sqrt 3 < 1142646001692475 / 659706976665600 := by
      rw [Real.sqrt_lt' (by norm_num)]
      norm_num
    linarith
  refine ⟨hsx, rfl, ?_, ?_, ?_, by decide!, ?_⟩
  · rw [hsx, hc, hv, hcv, abs_of_pos (by norm_num)]
    norm_num
  · rw [hsx, hv]
    exact hreal
  · rw [hsxu, hv]
    exact hreal
  · rw [hsxk, hcu, hvk, hcuv, abs_of_pos (by norm_num)]
    norm_num

/-- C17 (amended): for every library whose `cos30` is finite with `0 <= cos30 <= 7/8`, every
width below `2^64` with `xyscale = width / 2 / 30` as the handler computes it, and all corner
indices `i, j <= 100`: `sx` is finite, `|sx - width/2|` is at most `cos30 * width / 2` plus a
rounding allowance of `(width + 1) / 2^45`, and `0 <= sx <= width`. -/
theorem sx_inside_canvas (L : GoLib) (g : Globals) (i j : Nat) (hi : i ≤ 100) (hj : j ≤ 100)
    (hw : g.width < 2 ^ 64)
    (hxy : g.xyscale = F64.div (F64.div (F64.ofNat g.width) (F64.ofNat 2)) xyrange)
    (hc : (cos30 L).isFinite = true) (hc0 : F64.lt (cos30 L) F64.zero = false)
    (hc1 : F64.lt (F64.ofRatio 7 8) (cos30 L) = false) :
    (corner L g i j).1.isFinite = true ∧
    |(corner L g i j).1.toRat - (g.width : ℚ) / 2|
      ≤ (cos30 L).toRat * (g.width : ℚ) / 2 + ((g.width : ℚ) + 1) / 2 ^ 45 ∧
    0 ≤ (corner L g i j).1.toRat ∧ (corner L g i j).1.toRat ≤ (g.width : ℚ) := by
  have hn0 : (0 : ℚ) ≤ (g.width : ℚ) := Nat.cast_nonneg _
  have hC0 : 0 ≤ (cos30 L).toRat := by
    have h := (F64.lt_false_iff _ _ hc (by decide!)).1 hc0
    rwa [F64.toRat_zero] at h
  have hC1 : (cos30 L).toRat ≤ 7 / 8 := by
    have h := (F64.lt_false_iff _ _ (by decide!) hc).1 hc1
    rwa [F64.toRat_seven_eighths] at h
  have hCabs : |(cos30 L).toRat| ≤ 1 := by
    rw [abs_of_nonneg hC0]
    linarith
  obtain ⟨hxf, hx⟩ := gridCoord_bound i hi
  obtain ⟨hyf, hy⟩ := gridCoord_bound j hj
  have bXY : |(gridCoord i).toRat - (gridCoord j).toRat| ≤ 30 := by
    rw [abs_le] at hx hy ⊢
    constructor <;> linarith
  obtain ⟨hf, he, h0⟩ := sx_error L g i j hi hj hw hxy hc hCabs
  have bI := abs_mul_le_mul _ _ _ _
    (abs_mul_le_mul _ _ _ _ bXY (le_of_eq (abs_of_nonneg hC0)))
    (show |(g.width : ℚ) / 60| ≤ (g.width : ℚ) / 60 by rw [abs_of_nonneg (by positivity)])
  have e1 : 30 * (cos30 L).toRat * ((g.width : ℚ) / 60)
      = (cos30 L).toRat * (g.width : ℚ) / 2 := by ring
  rw [e1] at bI
  have hCw : (cos30 L).toRat * (g.width : ℚ) / 2 ≤ 7 / 8 * (g.width : ℚ) / 2 := by
    have := mul_le_mul_of_nonneg_right hC1 hn0
    linarith
  have hmain : |(corner L g i j).1.toRat - (g.width : ℚ) / 2|
      ≤ (cos30 L).toRat * (g.width : ℚ) / 2 + ((g.width : ℚ) + 1) / 2 ^ 45 := by
    rw [abs_le] at he bI ⊢
    constructor <;> linarith
  refine ⟨hf, hmain, ?_⟩
  rcases Nat.eq_zero_or_pos g.width with hz | hpos
  · rw [h0 hz]
    exact ⟨le_refl _, hn0⟩
  · have h1 : (1 : ℚ) ≤ (g.width : ℚ) := by exact_mod_cast hpos
    rw [abs_le] at hmain
    constructor <;> norm_num at hmain ⊢ <;> linarith

/-- C17 (witness): the reference library at the default request, corner `(100, 0)`. -/
theorem sx_inside_canvas_witness :
    (100 ≤ 100 ∧ 0 ≤ 100 ∧ (setGlobals Globals.init []).width < 2 ^ 64 ∧
      (cos30 refLib).isFinite = true ∧ F64.lt (cos30 refLib) F64.zero = false ∧
      F64.lt (F64.ofRatio 7 8) (cos30 refLib) = false) ∧
    ((corner refLib (setGlobals Globals.init []) ((100 : Nat) : Int) ((0 : Nat) : Int)).1.isFinite
        = true ∧
      |(corner refLib (setGlobals Globals.init []) ((100 : Nat) : Int) ((0 : Nat) : Int)).1.toRat
          - (((setGlobals Globals.init []).width : Nat) : ℚ) / 2|
        ≤ (cos30 refLib).toRat * (((setGlobals Globals.init []).width : Nat) : ℚ) / 2
          + ((((setGlobals Globals.init []).width : Nat) : ℚ) + 1) / 2 ^ 45 ∧
      0 ≤ (corner refLib (setGlobals Globals.init []) ((100 : Nat) : Int)
        ((0 : Nat) : Int)).1.toRat ∧
      (corner refLib (setGlobals Globals.init []) ((100 : Nat) : Int) ((0 : Nat) : Int)).1.toRat
        ≤ (((setGlobals Globals.init []).width : Nat) : ℚ)) :=
  ⟨⟨by decide, by decide, by decide!, by decide!, by decide!, by decide!⟩,
    sx_inside_canvas refLib (setGlobals Globals.init []) 100 0 (by decide) (by decide)
      (by decide!) rfl (by decide!) (by decide!) (by decide!)⟩

/-- C15 (counterexample): with the reference library, corner `(0, 1)` on the canvas
`1800 x 960` (three times the default `600 x 320`) has
`sx = 7847924959885651 * 2^-43`, while on the default canvas
`sx = 5231949973257101 * 2^-44`: three times the latter is `7847924959885651.5 * 2^-43`
exactly and `7847924959885652 * 2^-43` as a `float64` product, so neither equals the former;
`sy` differs from three times the default `sy` as well, and the two values of `sx` are the
same with the next `float64` above as `cos30`. -/
theorem projection_not_exactly_proportional :
    (setGlobals Globals.init [("width", "1800"), ("height", "960")]).width
      = 3 * (setGlobals Globals.init []).width ∧
    (setGlobals Globals.init [("width", "1800"), ("height", "960")]).height
      = 3 * (setGlobals Globals.init []).height ∧
    (corner refLib (setGlobals Globals.init [("width", "1800"), ("height", "960")]) 0 1).1.toRat
      ≠ 3 * (corner refLib (setGlobals Globals.init []) 0 1).1.toRat ∧
    (corner refLib (setGlobals Globals.init [("width", "1800"), ("height", "960")]) 0 1).1
      ≠ F64.mul (F64.ofNat 3) (corner refLib (setGlobals Globals.init []) 0 1).1 ∧
    (corner refLib (setGlobals Globals.init [("width", "1800"), ("height", "960")]) 0 1).2.1.toRat
      ≠ 3 * (corner refLib (setGlobals Globals.init []) 0 1).2.1.toRat ∧
    (corner refLibCosUp (setGlobals Globals.init [("width", "1800"), ("height", "960")])
        0 1).1.toRat
      ≠ 3 * (corner refLibCosUp (setGlobals Globals.init []) 0 1).1.toRat := by
  have h1 : corner refLib (setGlobals Globals.init []) 0 1 =
      (.fin false 5231949973257101 (-44), .fin false 7214844953430715 (-50),
        .fin false 5733003975259461 (-57)) := by decide!
  have h3 : corner refLib (setGlobals Globals.init [("width", "1800"), ("height", "960")]) 0 1 =
      (.fin false 7847924959885651 (-43), .fin false 5411133715073036 (-48),
        .fin false 5733003975259461 (-57)) := by decide!
  have hm : F64.mul (F64.ofNat 3) (.fin false 5231949973257101 (-44))
      = .fin false 7847924959885652 (-43) := by decide!
  have h1u : (corner refLibCosUp (setGlobals Globals.init []) 0 1).1
      = .fin false 5231949973257101 (-44) := by decide!
  have h3u : (corner refLibCosUp
      (setGlobals Globals.init [("width", "1800"), ("height", "960")]) 0 1).1
      = .fin false 7847924959885651 (-43) := by decide!
  refine ⟨by decide!, by decide!, ?_, ?_, ?_, ?_⟩
  · rw [h1, h3]
    simp only [F64.toRat_fin, F64.smant, Bool.false_eq_true, if_false]
    norm_num [zpow_neg]
  · rw [h1, h3, hm]
    decide
  · rw [h1, h3]
    simp only [F64.toRat_fin, F64.smant, Bool.false_eq_true, if_false]
    norm_num [zpow_neg]
  · rw [h1u, h3u]
    simp only [F64.toRat_fin, F64.smant, Bool.false_eq_true, if_false]
    norm_num [zpow_neg]

/-- C15 (amended): let the handler resolve the canvas `(w, h)` for one request and
`(k * w, k * h)` for another, and let the library have finite `cos30` and `sin30` of
magnitude at most 1. For all corner indices `i, j <= 100`: the height `z` is the same on both
canvases; `sx` is the same on every canvas of the same width; `sx` on the larger canvas is
within `(2 k w + k + 1) / 2^45` of `k` times the `sx` on the smaller one; and, where `z` is
finite of magnitude at most 16, `sy` on the larger canvas is within
`(2 k (w + h) + k + 1) / 2^44` of `k` times the `sy` on the smaller one. -/
theorem projection_scales_up_to_rounding (L : GoLib) (g0 g1 : Globals) (form formK : Form)
    (k i j : Nat) (hi : i ≤ 100) (hj : j ≤ 100)
    (hkw : (setGlobals g1 formK).width = k * (setGlobals g0 form).width)
    (hkh : (setGlobals g1 formK).height = k * (setGlobals g0 form).height)
    (hc : (cos30 L).isFinite = true)
    (hc1 : F64.lt (F64.ofNat 1) (F64.abs (cos30 L)) = false)
    (hs : (sin30 L).isFinite = true)
    (hs1 : F64.lt (F64.ofNat 1) (F64.abs (sin30 L)) = false) :
    (corner L (setGlobals g1 formK) i j).2.2 = (corner L (setGlobals g0 form) i j).2.2 ∧
    (∀ (g2 : Globals) (form2 : Form),
      (setGlobals g2 form2).width = (setGlobals g0 form).width →
      (corner L (setGlobals g2 form2) i j).1 = (corner L (setGlobals g0 form) i j).1) ∧
    |(corner L (setGlobals g1 formK) i j).1.toRat
        - (k : ℚ) * (corner L (setGlobals g0 form) i j).1.toRat|
      ≤ (2 * (k : ℚ) * ((setGlobals g0 form).width : ℚ) + (k : ℚ) + 1) / 2 ^ 45 ∧
    ((corner L (setGlobals g0 form) i j).2.2.isFinite = true →
      F64.lt (F64.ofNat 16) (F64.abs (corner L (setGlobals g0 form) i j).2.2) = false →
      |(corner L (setGlobals g1 formK) i j).2.1.toRat
          - (k : ℚ) * (corner L (setGlobals g0 form) i j).2.1.toRat|
        ≤ (2 * (k : ℚ) * (((setGlobals g0 form).width : ℚ) + ((setGlobals g0 form).height : ℚ))
            + (k : ℚ) + 1) / 2 ^ 44) := by
  have hk0 : (0 : ℚ) ≤ (k : ℚ) := Nat.cast_nonneg k
  have hw0 : (0 : ℚ) ≤ ((setGlobals g0 form).width : ℚ) := Nat.cast_nonneg _
  have hh0 : (0 : ℚ) ≤ ((setGlobals g0 form).height : ℚ) := Nat.cast_nonneg _
  have hw : (setGlobals g0 form).width < 2 ^ 64 := resolve_lt form _ _ (by norm_num [defaultWidth])
  have hh : (setGlobals g0 form).height < 2 ^ 64 :=
    resolve_lt form _ _ (by norm_num [defaultHeight])
  have hw1 : (setGlobals g1 formK).width < 2 ^ 64 :=
    resolve_lt formK _ _ (by norm_num [defaultWidth])
  have hh1 : (setGlobals g1 formK).height < 2 ^ 64 :=
    resolve_lt formK _ _ (by norm_num [defaultHeight])
  have hwq : ((setGlobals g1 formK).width : ℚ) = (k : ℚ) * ((setGlobals g0 form).width : ℚ) := by
    rw [hkw]
    push_cast
    ring
  have hhq : ((setGlobals g1 formK).height : ℚ)
      = (k : ℚ) * ((setGlobals g0 form).height : ℚ) := by
    rw [hkh]
    push_cast
    ring
  have hC := F64.abs_le_of_lt_false _ _ (by decide!) hc hc1
  have hS := F64.abs_le_of_lt_false _ _ (by decide!) hs hs1
  rw [F64.toRat_ofNat_one] at hC hS
  refine ⟨rfl, ?_, ?_, ?_⟩
  · intro g2 form2 h2
    simp only [corner, setGlobals_eq] at h2 ⊢
    rw [h2]
  · obtain ⟨_, e, _⟩ := sx_error L (setGlobals g0 form) i j hi hj hw rfl hc hC
    obtain ⟨_, e1, _⟩ := sx_error L (setGlobals g1 formK) i j hi hj hw1 rfl hc hC
    rw [hwq] at e1
    have ek := mul_le_mul_of_nonneg_left e hk0
    rw [← abs_of_nonneg hk0, ← abs_mul, abs_of_nonneg hk0] at ek
    rw [abs_le] at e1 ek ⊢
    constructor <;> norm_num at e1 ek ⊢ <;> linarith
  · intro hz hz16
    have hZ := F64.abs_le_of_lt_false _ _ (by decide!) hz hz16
    rw [F64.toRat_ofNat_16] at hZ
    rw [corner_height] at hz hZ
    obtain ⟨_, e⟩ := sy_error L (setGlobals g0 form) i j hi hj hw hh rfl rfl hs hS hz hZ
    obtain ⟨_, e1⟩ := sy_error L (setGlobals g1 formK) i j hi hj hw1 hh1 rfl rfl hs hS hz hZ
    rw [hwq, hhq] at e1
    have ek := mul_le_mul_of_nonneg_left e hk0
    rw [← abs_of_nonneg hk0, ← abs_mul, abs_of_nonneg hk0] at ek
    rw [abs_le] at e1 ek ⊢
    constructor <;> norm_num at e1 ek ⊢ <;> linarith

/-- C15 (witness): the reference library, the default canvas and the canvas `1800 x 960`,
factor 3, corner `(0, 1)`. -/
theorem projection_scales_up_to_rounding_witness :
    ((setGlobals Globals.init [("width", "1800"), ("height", "960")]).width
        = 3 * (setGlobals Globals.init []).width ∧
      (setGlobals Globals.init [("width", "1800"), ("height", "960")]).height
        = 3 * (setGlobals Globals.init []).height ∧
      (cos30 refLib).isFinite = true ∧
      F64.lt (F64.ofNat 1) (F64.abs (cos30 refLib)) = false ∧
      (sin30 refLib).isFinite = true ∧
      F64.lt (F64.ofNat 1) (F64.abs (sin30 refLib)) = false ∧
      (corner refLib (setGlobals Globals.init []) ((0 : Nat) : Int) ((1 : Nat) : Int)).2.2.isFinite
        = true ∧
      F64.lt (F64.ofNat 16) (F64.abs
        (corner refLib (setGlobals Globals.init []) ((0 : Nat) : Int) ((1 : Nat) : Int)).2.2)
        = false) ∧
    |(corner refLib (setGlobals Globals.init [("width", "1800"), ("height", "960")])
          ((0 : Nat) : Int) ((1 : Nat) : Int)).1.toRat
        - ((3 : Nat) : ℚ)
          * (corner refLib (setGlobals Globals.init []) ((0 : Nat) : Int) ((1 : Nat) : Int)).1.toRat|
      ≤ (2 * ((3 : Nat) : ℚ) * ((setGlobals Globals.init []).width : ℚ) + ((3 : Nat) : ℚ) + 1)
        / 2 ^ 45 ∧
    |(corner refLib (setGlobals Globals.init [("width", "1800"), ("height", "960")])
          ((0 : Nat) : Int) ((1 : Nat) : Int)).2.1.toRat
        - ((3 : Nat) : ℚ)
          * (corner refLib (setGlobals Globals.init []) ((0 : Nat) : Int)
            ((1 : Nat) : Int)).2.1.toRat|
      ≤ (2 * ((3 : Nat) : ℚ) * (((setGlobals Globals.init []).width : ℚ)
          + ((setGlobals Globals.init []).height : ℚ)) + ((3 : Nat) : ℚ) + 1) / 2 ^ 44 :=
  ⟨⟨by decide!, by decide!, by decide!, by decide!, by decide!, by decide!, by decide!,
      by decide!⟩,
    (projection_scales_up_to_rounding refLib Globals.init Globals.init []
      [("width", "1800"), ("height", "960")] 3 0 1 (by decide) (by decide) (by decide!)
      (by decide!) (by decide!) (by decide!) (by decide!) (by decide!)).2.2.1,
    (projection_scales_up_to_rounding refLib Globals.init Globals.init []
      [("width", "1800"), ("height", "960")] 3 0 1 (by decide) (by decide) (by decide!)
      (by decide!) (by decide!) (by decide!) (by decide!) (by decide!)).2.2.2
      (by decide!) (by decide!)⟩

end Surface
